import Mathlib

/-!
# Universal Machine (um-32): codec, interpreter and assembler

A shallow embedding of `operation.c` (instruction codec), `main.c`
(interpreter) and `compiler.c` (assembler) together with the properties
checked against the specification.

Conventions of the embedding

* Platters and register values are natural numbers; 32-bit arithmetic is
  written with an explicit `% 4294967296` where the C expression can wrap.
* The number of pool slots (`memory.size`) is a `uint32_t`: the `index + 1`
  of `allocate_memory` is reduced modulo 2^32, so that it wraps to 0 for the
  identifier `0xFFFFFFFF`.
* The build modelled is the default one: none of `UNSAFE`, `DEBUG`,
  `DISABLE_MEMORY_DUMP` is defined, so every bounds check is compiled in,
  `TRACE` expands to nothing and `fatal` dumps memory before exiting.
* The host allocator is that of glibc with memory to spare: `malloc` and
  `realloc` return a block that is not null, also `malloc` of 0 bytes, but
  `realloc` of a block to 0 bytes frees the block and returns null. The
  `ERR_OUT_OF_MEMORY` exit that follows this null is represented; those that
  follow an exhausted host memory are not.
* C behaviour that the language leaves undefined (a call through
  `opcodes_table` outside its 14 entries, a store outside a buffer) is the
  distinguished outcome `Result.undefined`.
-/

namespace UM

/-! ## operation.h / operation.c -/

/-- Fields of `struct StandardOperation`: opcode number and three register indices. -/
structure StandardOperation where
  number : Nat
  a : Nat
  b : Nat
  c : Nat
  deriving DecidableEq, Repr

/-- Fields of `struct PutOperation`: opcode number, register index and 25-bit immediate. -/
structure PutOperation where
  number : Nat
  a : Nat
  value : Nat
  deriving DecidableEq, Repr

/-- The `union Operation`, as a tagged variant: `int_to_operation` fills the
`standard` member for opcodes below 13 and the `put` member otherwise. -/
inductive Operation where
  | standard (s : StandardOperation)
  | put (p : PutOperation)
  deriving DecidableEq, Repr

/-- The opcode number (`op->standard.number`, which shares its bits with `op->put.number`). -/
def Operation.number : Operation → Nat
  | .standard s => s.number
  | .put p => p.number

/-- Outcome of `operation_to_int`: the packed word, the `exit(ERR_INVALID_OPCODE)`
path, or a read of the union member that was not the one stored (its value
depends on the bit-field layout chosen by the compiler). -/
inductive Encoded where
  | word (w : Nat)
  | invalid_opcode
  | other_member
  deriving DecidableEq, Repr

/-- `operation_to_int` of operation.c. The shifts are performed on promoted
`int` operands and the result is returned as `uint32_t`, hence the reduction
modulo 2^32. -/
def operation_to_int : Operation → Encoded
  | .standard s =>
    if s.number < 13 then
      .word ((s.number ||| (s.a <<< 23) ||| (s.b <<< 26) ||| (s.c <<< 29)) % 4294967296)
    else if s.number = 13 then .other_member
    else .invalid_opcode
  | .put p =>
    if p.number < 13 then .other_member
    else if p.number = 13 then
      .word ((p.number ||| (p.a <<< 4) ||| (p.value <<< 7)) % 4294967296)
    else .invalid_opcode

/-- `int_to_operation` of operation.c. -/
def int_to_operation (value : Nat) : Operation :=
  let number := (value >>> 28) &&& 0xF
  if number < 13 then
    .standard
      { number := number
        a := (value >>> 6) &&& 7
        b := (value >>> 3) &&& 7
        c := value &&& 7 }
  else
    .put
      { number := number
        a := (value >>> 25) &&& 7
        value := value &&& 0x1FFFFFF }

/-! ## main.c: data model -/

/-- Modelled from the spec: the header `error_codes.h` is absent; the error
kinds are the macros named in main.c and operation.c, one per kind of the
error taxonomy, each with its own exit code. -/
inductive ErrorCode where
  | ERR_MISSING_ARGUMENTS
  | ERR_INVALID_PROGRAM_FILE
  | ERR_INVALID_OPCODE
  | ERR_INVALID_REGISTER_ACCESS
  | ERR_MEMORY_ACCESS_INVALID
  | ERR_DIVISION_BY_ZERO
  | ERR_OUT_OF_MEMORY
  | ERR_PROGRAM_EXECUTION_ENDED_UNEXPECTEDLY
  deriving DecidableEq, Repr

def REGISTERS_COUNT : Nat := 8
def EXTRA_REGISTERS : Nat := 1
def PC_REGISTER : Nat := REGISTERS_COUNT
def PROGRAM_ARRAY : Nat := 0
def OPCODES_COUNT : Nat := 14

/-- The `struct Array`: `content = none` is the null pointer. -/
structure Array where
  size : Nat
  content : Option (List Nat)
  deriving DecidableEq, Repr

/-- The `struct Memory`: `arrays` and `pool` are the two heap buffers, the
length of each list being the number of elements the buffer was sized for. -/
structure Memory where
  size : Nat
  arrays : List Array
  pool : List Nat
  pool_pointer : Nat
  deriving DecidableEq, Repr

/-- The `struct Machine`, extended with the two standard streams of the
process: `stdin` is what remains to be read, `stdout` what has been written. -/
structure Machine where
  memory : Memory
  registers : List Nat
  stdin : List Nat
  stdout : List Nat
  deriving DecidableEq, Repr

/-- Outcome of a piece of interpreter code: it returns a value, or the
process ends (`exit(0)` from `halt`, `exit(code)` from `fatal`), or the
behaviour is undefined. The machine carried by an exit is the state at the
time of the exit. -/
inductive Result (α : Type) where
  | ok (v : α)
  | halted (m : Machine)
  | fatal (code : ErrorCode) (m : Machine)
  | undefined
  deriving DecidableEq, Repr

/-- Sequencing of interpreter code: an exit or undefined behaviour ends the run. -/
def Result.bind {α β : Type} (r : Result α) (f : α → Result β) : Result β :=
  match r with
  | .ok v => f v
  | .halted m => .halted m
  | .fatal code m => .fatal code m
  | .undefined => .undefined

instance : Monad Result where
  pure := Result.ok
  bind := Result.bind

/-- The line `***DUMPING MEMORY***\n` that `dump_memory` prints on standard output. -/
def dump_banner : List Nat :=
  [42, 42, 42, 68, 85, 77, 80, 73, 78, 71, 32, 77, 69, 77, 79, 82, 89, 42, 42, 42, 10]

/-- `dump_memory` of main.c, as far as the machine and its standard streams
are concerned: the banner goes to standard output; the snapshot itself goes to
the file `memdump.txt` and reads registers 0..7 only. -/
def dump_memory (m : Machine) : Machine :=
  { m with stdout := m.stdout ++ dump_banner }

/-- `fatal` of main.c: dump the memory, then `exit(code)`. -/
def fatal {α : Type} (code : ErrorCode) (m : Machine) : Result α :=
  .fatal code (dump_memory m)

/-! ## main.c: registers -/

/-- The macro `GET_REGISTERS_COUNT`. -/
def GET_REGISTERS_COUNT (extra : Bool) : Nat :=
  if !extra then REGISTERS_COUNT else REGISTERS_COUNT + EXTRA_REGISTERS

/-- `get_register` of main.c. -/
def get_register (index : Nat) (m : Machine) (allow_extra : Bool) : Result Nat :=
  let max_register := GET_REGISTERS_COUNT allow_extra
  if index >= max_register then fatal .ERR_INVALID_REGISTER_ACCESS m
  else
    match m.registers[index]? with
    | some v => .ok v
    | none => .undefined

/-- `set_register` of main.c. The C function also returns the old value,
which no caller uses. -/
def set_register (index value : Nat) (m : Machine) (allow_extra : Bool) : Result Machine :=
  let max_register := GET_REGISTERS_COUNT allow_extra
  if index >= max_register then fatal .ERR_INVALID_REGISTER_ACCESS m
  else if index < m.registers.length then
    .ok { m with registers := m.registers.set index value }
  else .undefined

/-! ## main.c: memory manager -/

/-- The C library `realloc` on a buffer of elements: the first `n` elements
are kept, new elements are indeterminate (`fill`). -/
def realloc {α : Type} (fill : α) (buffer : List α) (n : Nat) : List α :=
  buffer.take n ++ List.replicate (n - buffer.length) fill

/-- `initialize_memory` of main.c on the zeroed machine: one `Array` and one
pool entry are allocated and cleared. -/
def initialize_memory (m : Machine) : Machine :=
  { m with memory :=
      { m.memory with
        arrays := [{ size := 0, content := none }]
        pool := [0]
        pool_pointer := 0 } }

/-- The loop of `allocate_memory` that marks the slots `first .. last - 1` unallocated. -/
def mark_unallocated (first last : Nat) (arrays : List Array) : List Array :=
  arrays.take first ++ List.replicate (last - first) { size := 0, content := none }
    ++ arrays.drop last

/-- `allocate_memory` of main.c: grow the pool to `index + 1` slots when
needed, `index + 1` being computed on `uint32_t`; then give slot `index` a
zero-filled block of `size` platters: `malloc` when the content of the slot is
null, `realloc` of the block otherwise, then `memset`. A `realloc` of a block
to 0 bytes frees it and returns null, which the function takes for a failed
allocation; a slot beyond the end of `memory.arrays` is an access outside the
buffer. -/
def allocate_memory (index size : Nat) (m : Machine) : Result Machine :=
  let next := (index + 1) % 4294967296
  let mem : Memory :=
    if m.memory.size < next then
      { m.memory with
        arrays := mark_unallocated m.memory.size next
          (realloc { size := 0, content := none } m.memory.arrays next)
        pool := realloc 0 m.memory.pool next
        size := next }
    else m.memory
  match mem.arrays[index]? with
  | some a =>
    if a.content ≠ none ∧ size = 0 then
      fatal .ERR_OUT_OF_MEMORY
        { m with memory := { mem with arrays := mem.arrays.set index ⟨a.size, none⟩ } }
    else
      .ok { m with memory :=
        { mem with
          arrays := mem.arrays.set index ⟨size, some (List.replicate size 0)⟩ } }
  | none => .undefined

/-- `get_array` of main.c. The bound `memory.size - 1` is computed on
`uint32_t`, so it wraps when no slot exists. -/
def get_array (index : Nat) (m : Machine) : Result Array :=
  let last := if m.memory.size = 0 then 4294967295 else m.memory.size - 1
  if last < index then fatal .ERR_OUT_OF_MEMORY m
  else
    match m.memory.arrays[index]? with
    | some a => .ok a
    | none => .undefined

/-- `read_array` of main.c. -/
def read_array (index location : Nat) (m : Machine) : Result Nat :=
  (get_array index m).bind fun array =>
    if location >= array.size then fatal .ERR_MEMORY_ACCESS_INVALID m
    else
      match array.content with
      | some platters =>
        match platters[location]? with
        | some v => .ok v
        | none => .undefined
      | none => .undefined

/-- The test `machine->memory.arrays[i].content == NULL` of the scan of `allocate_array`. -/
def content_is_null (mem : Memory) (i : Nat) : Bool :=
  match mem.arrays[i]? with
  | some a => a.content.isNone
  | none => false

/-- The scan of `allocate_array` over the slots `1 .. memory.size - 1` for
one whose content is null; `0` when there is none. -/
def scan_unallocated (mem : Memory) : Nat :=
  match (List.range' 1 (mem.size - 1)).find? (content_is_null mem) with
  | some i => i
  | none => 0

/-- `allocate_array` of main.c: the identifier chosen and the machine after
the allocation. -/
def allocate_array (size : Nat) (m : Machine) : Result (Nat × Machine) :=
  let popped : Result (Nat × Machine) :=
    if m.memory.pool_pointer ≠ 0 then
      match m.memory.pool[m.memory.pool_pointer - 1]? with
      | some index =>
        .ok (index,
          { m with memory := { m.memory with pool_pointer := m.memory.pool_pointer - 1 } })
      | none => .undefined
    else .ok (scan_unallocated m.memory, m)
  popped.bind fun (index0, m1) =>
    let index := if index0 = 0 then m1.memory.size else index0
    (allocate_memory index size m1).bind fun m2 => .ok (index, m2)

/-! ## main.c: fetch -/

/-- `peek` of main.c: the operation decoded at the program counter and the
machine with the program counter advanced. Here `pc < program.size`, a
`uint32_t`, so `pc + 1` does not wrap. -/
def peek (m : Machine) : Result (Operation × Machine) :=
  (get_register PC_REGISTER m true).bind fun pc =>
  (get_array PROGRAM_ARRAY m).bind fun program =>
    if pc >= program.size then fatal .ERR_PROGRAM_EXECUTION_ENDED_UNEXPECTEDLY m
    else
      match program.content with
      | some platters =>
        match platters[pc]? with
        | some word =>
          (set_register PC_REGISTER (pc + 1) m true).bind fun m1 =>
            .ok (int_to_operation word, m1)
        | none => .undefined
      | none => .undefined

/-! ## main.c: the fourteen operations -/

/-- `conditional_move` of main.c. -/
def conditional_move (op : StandardOperation) (m : Machine) : Result Machine :=
  (get_register op.c m false).bind fun c =>
    if c ≠ 0 then
      (get_register op.b m false).bind fun b => set_register op.a b m false
    else .ok m

/-- `array_index` of main.c. -/
def array_index (op : StandardOperation) (m : Machine) : Result Machine :=
  (get_register op.b m false).bind fun index =>
  (get_register op.c m false).bind fun location =>
  (read_array index location m).bind fun value =>
    set_register op.a value m false

/-- `array_amendment` of main.c: the store goes through the pointer returned
by `get_array`, that is into slot `index` of `memory.arrays`. -/
def array_amendment (op : StandardOperation) (m : Machine) : Result Machine :=
  (get_register op.a m false).bind fun index =>
  (get_array index m).bind fun array =>
  (get_register op.b m false).bind fun location =>
    if location >= array.size then fatal .ERR_MEMORY_ACCESS_INVALID m
    else
      (get_register op.c m false).bind fun value =>
        match array.content with
        | some platters =>
          if location < platters.length then
            .ok { m with memory :=
              { m.memory with
                arrays := m.memory.arrays.set index
                  ⟨array.size, some (platters.set location value)⟩ } }
          else .undefined
        | none => .undefined

/-- `addition` of main.c. -/
def addition (op : StandardOperation) (m : Machine) : Result Machine :=
  (get_register op.c m false).bind fun c =>
  (get_register op.b m false).bind fun b =>
    set_register op.a ((b + c) % 4294967296) m false

/-- `multiplication` of main.c. -/
def multiplication (op : StandardOperation) (m : Machine) : Result Machine :=
  (get_register op.b m false).bind fun b =>
  (get_register op.c m false).bind fun c =>
    set_register op.a ((b * c) % 4294967296) m false

/-- `division` of main.c. -/
def division (op : StandardOperation) (m : Machine) : Result Machine :=
  (get_register op.c m false).bind fun divisor =>
  (get_register op.b m false).bind fun dividend =>
    if divisor = 0 then fatal .ERR_DIVISION_BY_ZERO m
    else set_register op.a (dividend / divisor) m false

/-- `not_and` of main.c: the complement is taken on 32 bits. -/
def not_and (op : StandardOperation) (m : Machine) : Result Machine :=
  (get_register op.b m false).bind fun b =>
  (get_register op.c m false).bind fun c =>
    set_register op.a (4294967295 - (b &&& c) % 4294967296) m false

/-- `halt` of main.c: `exit(0)`. -/
def halt (_op : StandardOperation) (m : Machine) : Result Machine :=
  .halted m

/-- `allocation` of main.c. -/
def allocation (op : StandardOperation) (m : Machine) : Result Machine :=
  (get_register op.c m false).bind fun size =>
  (allocate_array size m).bind fun (index, m1) =>
    set_register op.b index m1 false

/-- `abandoment` of main.c: the block is freed, the slot is cleared and its
index is pushed on the pool. -/
def abandoment (op : StandardOperation) (m : Machine) : Result Machine :=
  (get_register op.c m false).bind fun index =>
  (get_array index m).bind fun a =>
    if a.content = none then fatal .ERR_MEMORY_ACCESS_INVALID m
    else if m.memory.pool_pointer < m.memory.pool.length then
      .ok { m with memory :=
        { m.memory with
          arrays := m.memory.arrays.set index ⟨0, none⟩
          pool := m.memory.pool.set m.memory.pool_pointer index
          pool_pointer := m.memory.pool_pointer + 1 } }
    else .undefined

/-- `output` of main.c: `printf("%c", c)` writes the byte `(unsigned char) c`. -/
def output (op : StandardOperation) (m : Machine) : Result Machine :=
  (get_register op.c m false).bind fun v =>
    .ok { m with stdout := m.stdout ++ [v % 256] }

/-- The C library `getc`: the next byte and the rest of the stream, or `EOF`
(that is `-1`) at the end of the stream. -/
def getc (stream : List Nat) : Int × List Nat :=
  match stream with
  | [] => (-1, [])
  | byte :: rest => ((byte % 256 : Nat), rest)

/-- Conversion of an `int` to `char`, a signed 8-bit type on the x86-64 ABI. -/
def to_char (i : Int) : Int :=
  (i + 128) % 256 - 128

/-- `input` of main.c: the byte read is first stored in a `char`, then
compared with `EOF` and converted to `uint32_t`. -/
def input (op : StandardOperation) (m : Machine) : Result Machine :=
  let (i, rest) := getc m.stdin
  let c := to_char i
  let value : Nat := if c = -1 then 4294967295 else (c % 4294967296).toNat
  set_register op.c value { m with stdin := rest } false

/-- `load_program` of main.c. -/
def load_program (op : StandardOperation) (m : Machine) : Result Machine :=
  (get_register op.b m false).bind fun index =>
    let copied : Result Machine :=
      if index ≠ 0 then
        (get_array index m).bind fun src =>
          match src.content with
          | none => fatal .ERR_MEMORY_ACCESS_INVALID m
          | some platters =>
            (allocate_memory PROGRAM_ARRAY src.size m).bind fun m1 =>
            (get_array PROGRAM_ARRAY m1).bind fun program =>
              match program.content with
              | some old =>
                .ok { m1 with memory :=
                  { m1.memory with
                    arrays := m1.memory.arrays.set PROGRAM_ARRAY
                      ⟨program.size, some (platters.take src.size ++ old.drop src.size)⟩ } }
              | none => .undefined
      else .ok m
    copied.bind fun m2 =>
      (get_register op.c m2 false).bind fun pc => set_register PC_REGISTER pc m2 true

/-- `ortography` of main.c. -/
def ortography (op : PutOperation) (m : Machine) : Result Machine :=
  set_register op.a op.value m false

/-! ## main.c: dispatch and the main loop -/

/-- A handler for the standard member of the union, called on an operation. -/
def on_standard (handler : StandardOperation → Machine → Result Machine)
    (op : Operation) (m : Machine) : Result Machine :=
  match op with
  | .standard s => handler s m
  | .put _ => .undefined

/-- A handler for the put member of the union, called on an operation. -/
def on_put (handler : PutOperation → Machine → Result Machine)
    (op : Operation) (m : Machine) : Result Machine :=
  match op with
  | .put p => handler p m
  | .standard _ => .undefined

/-- The table `opcodes_table`: its fourteen entries, and `none` for an index
outside the table. -/
def opcodes_table (number : Nat) : Option (Operation → Machine → Result Machine) :=
  match number with
  | 0 => some (on_standard conditional_move)
  | 1 => some (on_standard array_index)
  | 2 => some (on_standard array_amendment)
  | 3 => some (on_standard addition)
  | 4 => some (on_standard multiplication)
  | 5 => some (on_standard division)
  | 6 => some (on_standard not_and)
  | 7 => some (on_standard halt)
  | 8 => some (on_standard allocation)
  | 9 => some (on_standard abandoment)
  | 10 => some (on_standard output)
  | 11 => some (on_standard input)
  | 12 => some (on_standard load_program)
  | 13 => some (on_put ortography)
  | _ => none

/-- The call `opcodes_table[op.standard.number](&op, &machine)` of the loop of
`main`. For a number of 14 or 15 the loop has only printed a diagnostic on
standard error before it, and the table is indexed outside its entries. -/
def dispatch (op : Operation) (m : Machine) : Result Machine :=
  match opcodes_table op.number with
  | some handler => handler op m
  | none => .undefined

/-- One iteration of the loop of `main`: fetch, then dispatch. The counter
`cycle` that the loop increments is read by `dump_state` only, which is never
called. -/
def run_cycle (m : Machine) : Result Machine :=
  (peek m).bind fun (op, m1) => dispatch op m1

/-- The `fgetc` of the loading loop, stored in a `uint8_t`: byte `k` of the
file, or `(uint8_t) EOF` past its end. -/
def file_byte (file : List Nat) (k : Nat) : Nat :=
  match file[k]? with
  | some byte => byte % 256
  | none => 255

/-- The word assembled by iteration `i` of the loading loop of `main`. -/
def file_word (file : List Nat) (i : Nat) : Nat :=
  ((file_byte file (4 * i) <<< 24) + (file_byte file (4 * i + 1) <<< 16)
    + (file_byte file (4 * i + 2) <<< 8) + file_byte file (4 * i + 3)) % 4294967296

/-- The machine after `memset((void*)&machine, 0, sizeof(Machine))`. -/
def zeroed_machine (stdin : List Nat) : Machine :=
  { memory := { size := 0, arrays := [], pool := [], pool_pointer := 0 }
    registers := List.replicate (REGISTERS_COUNT + EXTRA_REGISTERS) 0
    stdin := stdin
    stdout := [] }

/-- The part of `main` that runs between opening the program file and the
main loop: the machine at the first fetch, for a program file holding the bytes
`file`. The size of the file is stored in a `uint32_t`, and `sizeof(Operation)`
is 4. -/
def startup (file stdin : List Nat) : Result Machine :=
  let m0 := initialize_memory (zeroed_machine stdin)
  let fsize := file.length % 4294967296
  (allocate_memory PROGRAM_ARRAY (fsize / 4) m0).bind fun m1 =>
  (get_array PROGRAM_ARRAY m1).bind fun program_array =>
    match program_array.content with
    | some platters =>
      .ok { m1 with memory :=
        { m1.memory with
          arrays := m1.memory.arrays.set PROGRAM_ARRAY
            ⟨program_array.size,
              some ((List.range (fsize / 4)).map (file_word file) ++ platters.drop (fsize / 4))⟩ } }
    | none => .undefined

/-- The machine states in which the main loop starts an iteration: the state
after startup, and every state left by an iteration that returned. -/
inductive Reachable : Machine → Prop where
  | startup (file stdin : List Nat) (m : Machine) :
      startup file stdin = .ok m → Reachable m
  | cycle (m m' : Machine) : Reachable m → run_cycle m = .ok m' → Reachable m'

/-! ## Notions used to state the properties -/

/-- Bits `hi .. lo` of a word (bit 0 is the least significant), as a number. -/
def bit_field (w hi lo : Nat) : Nat :=
  w / 2 ^ lo % 2 ^ (hi + 1 - lo)

/-- The block of platters held by slot `id`, if the slot exists and is allocated. -/
def content_at (m : Machine) (id : Nat) : Option (List Nat) :=
  match m.memory.arrays[id]? with
  | some a => a.content
  | none => none

/-- The platter stored at offset `o` of array `id`, if there is one. -/
def platter_at (m : Machine) (id o : Nat) : Option Nat :=
  match content_at m id with
  | some platters => platters[o]?
  | none => none

/-- The size recorded for slot `id` (`0` when there is no such slot). -/
def array_size (m : Machine) (id : Nat) : Nat :=
  match m.memory.arrays[id]? with
  | some a => a.size
  | none => 0

/-- Identifier `id` is active: it names a pool slot whose content is not null. -/
def is_active (m : Machine) (id : Nat) : Bool :=
  decide (id < m.memory.size) && (content_at m id).isSome

/-- The free-list: the first `pool_pointer` entries of the pool. -/
def free_list (m : Machine) : List Nat :=
  m.memory.pool.take m.memory.pool_pointer

/-- An array slot is well formed: a null content goes with size 0, a block
holds exactly `size` platters. -/
def Array.wf (a : Array) : Prop :=
  match a.content with
  | none => a.size = 0
  | some platters => platters.length = a.size

/-- The representation invariant of the machine. -/
structure Inv (m : Machine) : Prop where
  regs : m.registers.length = REGISTERS_COUNT + EXTRA_REGISTERS
  size_pos : 0 < m.memory.size
  arrays_len : m.memory.arrays.length = m.memory.size
  pool_len : m.memory.pool.length = m.memory.size
  pointer_le : m.memory.pool_pointer ≤ m.memory.size
  arrays_wf : ∀ a ∈ m.memory.arrays, a.wf
  free_nodup : (free_list m).Nodup
  free_inactive : ∀ id ∈ free_list m, id < m.memory.size ∧ content_at m id = none
  free_complete : ∀ id, 1 ≤ id → id < m.memory.size → content_at m id = none →
    id ∈ free_list m

/-! ## Sample runs -/

/-- Program file of `put 0 4; allocate (B = 1, C = 0); put 2 0; put 3 42;
amend (A = 1, B = 2, C = 3); index (A = 4, B = 1, C = 2); halt`. -/
def amend_file : List Nat :=
  [208, 0, 0, 4, 128, 0, 0, 8, 212, 0, 0, 0, 214, 0, 0, 42, 32, 0, 0, 83, 16, 0, 1, 10,
    112, 0, 0, 0]

/-- The words of `amend_file`. -/
def amend_words : List Nat :=
  [3489660932, 2147483656, 3556769792, 3590324266, 536870995, 268435722, 1879048192]

/-- The machine at the first fetch of `amend_file`. -/
def amend_start : Machine :=
  { memory := { size := 1, arrays := [⟨7, some amend_words⟩], pool := [0], pool_pointer := 0 }
    registers := [0, 0, 0, 0, 0, 0, 0, 0, 0]
    stdin := []
    stdout := [] }

/-- The machine of `amend_file` after one iteration, about to fetch the allocation. -/
def amend_before_allocation : Machine :=
  { amend_start with registers := [4, 0, 0, 0, 0, 0, 0, 0, 1] }

/-- The machine of `amend_file` after four iterations, about to fetch the amendment. -/
def amend_before_amendment : Machine :=
  { memory :=
      { size := 2
        arrays := [⟨7, some amend_words⟩, ⟨4, some [0, 0, 0, 0]⟩]
        pool := [0, 0]
        pool_pointer := 0 }
    registers := [4, 1, 0, 42, 0, 0, 0, 0, 4]
    stdin := []
    stdout := [] }

/-- The machine of `amend_file` after five iterations, about to fetch the index. -/
def amend_before_index : Machine :=
  { memory :=
      { size := 2
        arrays := [⟨7, some amend_words⟩, ⟨4, some [42, 0, 0, 0]⟩]
        pool := [0, 0]
        pool_pointer := 0 }
    registers := [4, 1, 0, 42, 0, 0, 0, 0, 5]
    stdin := []
    stdout := [] }

/-- Program file of `put 0 1; allocate (B = 1, C = 0); abandon (C = 1); put 3 7;
allocate (B = 2, C = 0); load (B = 1, C = 4); halt`. -/
def reuse_file : List Nat :=
  [208, 0, 0, 1, 128, 0, 0, 8, 144, 0, 0, 1, 214, 0, 0, 7, 128, 0, 0, 16, 192, 0, 0, 12,
    112, 0, 0, 0]

/-- The words of `reuse_file`. -/
def reuse_words : List Nat :=
  [3489660929, 2147483656, 2415919105, 3590324231, 2147483664, 3221225484, 1879048192]

/-- The machine at the first fetch of `reuse_file`. -/
def reuse_start : Machine :=
  { memory := { size := 1, arrays := [⟨7, some reuse_words⟩], pool := [0], pool_pointer := 0 }
    registers := [0, 0, 0, 0, 0, 0, 0, 0, 0]
    stdin := []
    stdout := [] }

/-- The machine of `reuse_file` after two iterations, about to fetch the abandon. -/
def reuse_before_abandon : Machine :=
  { memory :=
      { size := 2
        arrays := [⟨7, some reuse_words⟩, ⟨1, some [0]⟩]
        pool := [0, 0]
        pool_pointer := 0 }
    registers := [1, 1, 0, 0, 0, 0, 0, 0, 2]
    stdin := []
    stdout := [] }

/-- The machine of `reuse_file` after three iterations, array 1 abandoned. -/
def reuse_after_abandon : Machine :=
  { memory :=
      { size := 2
        arrays := [⟨7, some reuse_words⟩, ⟨0, none⟩]
        pool := [1, 0]
        pool_pointer := 1 }
    registers := [1, 1, 0, 0, 0, 0, 0, 0, 3]
    stdin := []
    stdout := [] }

/-- The machine of `reuse_file` after four iterations, about to fetch the
second allocation. -/
def reuse_before_allocation : Machine :=
  { reuse_after_abandon with registers := [1, 1, 0, 7, 0, 0, 0, 0, 4] }

/-- The machine of `reuse_file` after five iterations, about to fetch the load. -/
def reuse_before_load : Machine :=
  { memory :=
      { size := 2
        arrays := [⟨7, some reuse_words⟩, ⟨1, some [0]⟩]
        pool := [1, 0]
        pool_pointer := 0 }
    registers := [1, 1, 1, 7, 0, 0, 0, 0, 5]
    stdin := []
    stdout := [] }

/-- The machine at the first fetch of the program file `90 00 00 00`, the
single instruction `abandon (C = 0)`. -/
def abandon_zero_start : Machine :=
  { memory := { size := 1, arrays := [⟨1, some [2415919104]⟩], pool := [0], pool_pointer := 0 }
    registers := [0, 0, 0, 0, 0, 0, 0, 0, 0]
    stdin := []
    stdout := [] }

/-- The machine left by the iteration that runs `abandon (C = 0)` in `abandon_zero_start`. -/
def abandon_zero_after : Machine :=
  { memory := { size := 1, arrays := [⟨0, none⟩], pool := [0], pool_pointer := 1 }
    registers := [0, 0, 0, 0, 0, 0, 0, 0, 1]
    stdin := []
    stdout := [] }

/-- The machine at the first fetch of the program file `E0 00 00 00`, a word
whose opcode is 14. -/
def invalid_opcode_start : Machine :=
  { memory := { size := 1, arrays := [⟨1, some [3758096384]⟩], pool := [0], pool_pointer := 0 }
    registers := [0, 0, 0, 0, 0, 0, 0, 0, 0]
    stdin := []
    stdout := [] }

/-- A machine at the first fetch of a program of the given words (one pool
slot, nothing on the free-list), with the given register file and standard
input. -/
def machine_with (words registers stdin : List Nat) : Machine :=
  { memory :=
      { size := 1, arrays := [⟨words.length, some words⟩], pool := [0], pool_pointer := 0 }
    registers := registers
    stdin := stdin
    stdout := [] }

/-- Program file of `input (C = 1); output (C = 1); halt`. -/
def echo_file : List Nat :=
  [176, 0, 0, 1, 160, 0, 0, 1, 112, 0, 0, 0]

/-- The words of `echo_file`. -/
def echo_words : List Nat :=
  [2952790017, 2684354561, 1879048192]

/-- Program file of `put 1 10; put 2 0; div (A = 0, B = 1, C = 2); halt`. -/
def division_file : List Nat :=
  [210, 0, 0, 10, 212, 0, 0, 0, 80, 0, 0, 10, 112, 0, 0, 0]

/-- The words of `division_file`. -/
def division_words : List Nat :=
  [3523215370, 3556769792, 1342177290, 1879048192]

/-- The machine of `division_file` after two iterations, about to fetch the
division, with `R1 = 10` and `R2 = 0`. -/
def division_by_zero_state : Machine :=
  machine_with division_words [0, 10, 0, 0, 0, 0, 0, 0, 2] []

/-- Program file of `put 1 5; put 2 7; add (A = 0, B = 1, C = 2); halt`. -/
def addition_file : List Nat :=
  [210, 0, 0, 5, 212, 0, 0, 7, 48, 0, 0, 10, 112, 0, 0, 0]

/-- The words of `addition_file`. -/
def addition_words : List Nat :=
  [3523215365, 3556769799, 805306378, 1879048192]

/-- The machine of `addition_file` after two iterations, about to fetch the
addition, with `R1 = 5` and `R2 = 7`. -/
def addition_state : Machine :=
  machine_with addition_words [0, 5, 7, 0, 0, 0, 0, 0, 2] []

/-- The machine of the two-word program `put 1 5; word` with `R1 = 5` and
the program counter at `pc`: one pool slot, so that identifier 5 was never
allocated. -/
def stray_state (word pc : Nat) : Machine :=
  machine_with [3523215365, word] [0, 5, 0, 0, 0, 0, 0, 0, pc] []

/-- Program file of `put 0 1; allocate (B = 1, C = 0); abandon (C = 1);
abandon (C = 1)`. -/
def double_abandon_file : List Nat :=
  [208, 0, 0, 1, 128, 0, 0, 8, 144, 0, 0, 1, 144, 0, 0, 1]

/-- The machine of `double_abandon_file` after three iterations, array 1
abandoned, about to fetch the second abandon. -/
def double_abandon_state : Machine :=
  { memory :=
      { size := 2
        arrays := [⟨4, some [3489660929, 2147483656, 2415919105, 2415919105]⟩, ⟨0, none⟩]
        pool := [1, 0]
        pool_pointer := 1 }
    registers := [1, 1, 0, 0, 0, 0, 0, 0, 3]
    stdin := []
    stdout := [] }

/-- Program file of `allocate (B = 1, C = 0); load (B = 1, C = 0)`. -/
def empty_load_file : List Nat :=
  [128, 0, 0, 8, 192, 0, 0, 8]

/-- The words of `empty_load_file`. -/
def empty_load_words : List Nat :=
  [2147483656, 3221225480]

/-- The machine of `empty_load_file` after one iteration: array 1 allocated
with no platter (`R0 = 0`), `R1 = 1`, about to fetch the load of array 1. -/
def empty_load_state : Machine :=
  { memory :=
      { size := 2
        arrays := [⟨2, some empty_load_words⟩, ⟨0, some []⟩]
        pool := [0, 0]
        pool_pointer := 0 }
    registers := [0, 1, 0, 0, 0, 0, 0, 0, 1]
    stdin := []
    stdout := [] }

/-- Program file of `allocate (B = 1, C = 0); load (B = 2, C = 3)`: with
`R0 = R2 = R3 = 0`, a loop that allocates an array of no platter at each turn. -/
def fill_file : List Nat :=
  [128, 0, 0, 8, 192, 0, 0, 19]

/-- The words of `fill_file`. -/
def fill_words : List Nat :=
  [2147483656, 3221225491]

/-- The machine of `fill_file` after `k` turns of its loop, about to fetch the
allocation: `k + 1` pool slots, all of them allocated, and an empty free-list. -/
def fill_state (k : Nat) : Machine :=
  { memory :=
      { size := k + 1
        arrays := ⟨2, some fill_words⟩ :: List.replicate k ⟨0, some []⟩
        pool := List.replicate (k + 1) 0
        pool_pointer := 0 }
    registers := [0, k, 0, 0, 0, 0, 0, 0, 0]
    stdin := []
    stdout := [] }

/-- Program file of `put 1 3; put 2 7; amend (A = 0, B = 1, C = 2); halt`. -/
def patch_file : List Nat :=
  [210, 0, 0, 3, 212, 0, 0, 7, 32, 0, 0, 10, 112, 0, 0, 0]

/-- The words of `patch_file`. -/
def patch_words : List Nat :=
  [3523215363, 3556769799, 536870922, 1879048192]

/-- The machine of `patch_file` after two iterations, about to fetch the
amendment of array 0 at offset 3, with `R0 = 0`, `R1 = 3` and `R2 = 7`. -/
def patch_state : Machine :=
  machine_with patch_words [0, 3, 7, 0, 0, 0, 0, 0, 2] []

/-- The number of active identifiers among the pool slots. -/
def active_count (m : Machine) : Nat :=
  (List.range m.memory.size).countP (is_active m)

/-- The outcome is not the exit with the invalid-register-access kind. -/
def no_register_fault {α : Type} (r : Result α) : Prop :=
  ∀ mf, r ≠ .fatal .ERR_INVALID_REGISTER_ACCESS mf

/-- The outcome `r` of a step from `m`, when it returns a machine, has the
program counter of `m`. -/
def keeps_pc (m : Machine) (r : Result Machine) : Prop :=
  ∀ m', r = .ok m' → m'.registers[8]? = m.registers[8]?

/-- The register indices that an operation names as its operands. -/
def operand_registers : Operation → List Nat
  | .standard s => [s.a, s.b, s.c]
  | .put p => [p.a]

/-- The machine with `v` in the program counter. -/
def with_pc (v : Nat) (m : Machine) : Machine :=
  { m with registers := m.registers.set 8 v }

/-- An outcome seen through a change `g` of the machine: `g` is applied to
the machine that an exit carries and `f` to a value returned. -/
def Result.map_state {α : Type} (g : Machine → Machine) (f : α → α) : Result α → Result α
  | .ok v => .ok (f v)
  | .halted m => .halted (g m)
  | .fatal code m => .fatal code (g m)
  | .undefined => .undefined

/-! ## compiler.c: the assembler

The source text and its lines are lists of characters. The output file is the
list of the `uint32_t` values that `fwrite` has written, each in the byte
order of the host; what was written before an `exit` stays in the file. The
variable `errno` holds `ERANGE` only when a call of `strtol` on the current
line has stored it: no other library call of the program stores that value,
and a line that stores it exits. -/

/-- The C string held in a buffer: the characters before the first NUL. -/
def c_string (buffer : List Char) : List Char :=
  buffer.takeWhile fun c => c != Char.ofNat 0

/-- The lines that the successive calls of the C library `getline` return on a
stream: each line keeps its newline; the last one may have none. `current` is
the line read so far. -/
def getline (current : List Char) : List Char → List (List Char)
  | [] => if current = [] then [] else [current]
  | c :: rest =>
    if c = '\n' then (current ++ [c]) :: getline [] rest
    else getline (current ++ [c]) rest

/-- `is_empty_line` of compiler.c, on the whole length of the line. -/
def is_empty_line (line : List Char) : Bool :=
  line.all fun c => !(c != ' ' && c != '\n' && c != '\r' && c != '\t')

/-- The tokens that the successive calls of the C library `strtok` return:
the maximal runs of characters that are not delimiters. `token` is the run
read so far. -/
def strtok (delimiters : List Char) (token : List Char) : List Char → List (List Char)
  | [] => if token = [] then [] else [token]
  | c :: rest =>
    if delimiters.contains c then
      if token = [] then strtok delimiters [] rest
      else token :: strtok delimiters [] rest
    else strtok delimiters (token ++ [c]) rest

/-- The C library `isspace` in the C locale. -/
def isspace (c : Char) : Bool :=
  c = ' ' || c = '\t' || c = '\n' || c = Char.ofNat 11 || c = Char.ofNat 12 || c = '\r'

/-- The C library `strtol` in base 10, for a `long` of 64 bits: white space is
skipped, then an optional sign, then the decimal digits are read (`0` when
there is none); the value, and whether `errno` was set to `ERANGE`. -/
def strtol (s : List Char) : Int × Bool :=
  let s1 := s.dropWhile isspace
  let signed : Bool × List Char :=
    match s1 with
    | '-' :: rest => (true, rest)
    | '+' :: rest => (false, rest)
    | _ => (false, s1)
  let digits := signed.2.takeWhile Char.isDigit
  let magnitude : Nat := digits.foldl (fun n d => 10 * n + (d.toNat - 48)) 0
  let value : Int := if signed.1 then -(magnitude : Int) else (magnitude : Int)
  if value > 9223372036854775807 then (9223372036854775807, true)
  else if value < -9223372036854775808 then (-9223372036854775808, true)
  else (value, false)

/-- Conversion of a `long` to `uint8_t`. -/
def to_uint8 (v : Int) : Nat :=
  (v % 256).toNat

/-- Conversion of a `long` to `uint32_t`. -/
def to_uint32 (v : Int) : Nat :=
  (v % 4294967296).toNat

/-- The macro `INVALID_OPERATION_CODE`. -/
def INVALID_OPERATION_CODE : Nat := 255

/-- `get_operation_code` of compiler.c. -/
def get_operation_code (code : List Char) : Nat :=
  if code = "cmove".toList then 0
  else if code = "get".toList then 1
  else if code = "set".toList then 2
  else if code = "add".toList then 3
  else if code = "mult".toList then 4
  else if code = "div".toList then 5
  else if code = "nand".toList then 6
  else if code = "halt".toList then 7
  else if code = "allocate".toList then 8
  else if code = "free".toList then 9
  else if code = "out".toList then 10
  else if code = "in".toList then 11
  else if code = "load".toList then 12
  else if code = "put".toList then 13
  else INVALID_OPERATION_CODE

/-- Outcome of `parse_line`: it returns, with the operation that `op` points
to afterwards (`none` while it was never stored), or it exits with
`ERR_COMPILATION_FAILED` after a diagnostic that names the line. -/
inductive Parsed where
  | returned (op : Option Operation)
  | compilation_failed (line_count : Nat)
  deriving DecidableEq, Repr

/-- `parse_line` of compiler.c, called with a pointer `op` that is not null
(as `main` does). The first token is the mnemonic, the second `ac`, the third
`bc`, and every later token overwrites `cc`. -/
def parse_line (line : List Char) (line_count : Nat) (op : Option Operation) : Parsed :=
  if line.length ≤ 0 then .returned op
  else if line.head? = some '#' then .returned op
  else if is_empty_line line then .returned op
  else
    let tokens := strtok [' ', '\n'] [] line
    let code_number :=
      match tokens.head? with
      | some token => get_operation_code token
      | none => INVALID_OPERATION_CODE
    if tokens ≠ [] ∧ code_number = INVALID_OPERATION_CODE then .compilation_failed line_count
    else
      let ac := tokens[1]?
      let bc := tokens[2]?
      let cc := (tokens.drop 3).getLast?
      if code_number < 13 then
        match ac, bc, cc with
        | some ac, some bc, some cc =>
          let a := strtol ac
          let b := strtol bc
          let c := strtol cc
          if a.2 || b.2 || c.2 then .compilation_failed line_count
          else if to_uint8 a.1 ≥ 8 then .compilation_failed line_count
          else if to_uint8 b.1 ≥ 8 then .compilation_failed line_count
          else if to_uint8 c.1 ≥ 8 then .compilation_failed line_count
          else
            .returned (some (.standard
              { number := code_number, a := to_uint8 a.1, b := to_uint8 b.1, c := to_uint8 c.1 }))
        | _, _, _ => .compilation_failed line_count
      else
        match ac, bc with
        | some ac, some bc =>
          let a := strtol ac
          let value := strtol bc
          if a.2 || value.2 then .compilation_failed line_count
          else if to_uint8 a.1 ≥ 8 then .compilation_failed line_count
          else if to_uint32 value.1 ≥ 33554432 then .compilation_failed line_count
          else
            .returned (some (.put
              { number := code_number, a := to_uint8 a.1, value := to_uint32 value.1 }))
        | _, _ => .compilation_failed line_count

/-- Outcome of the assembler: `main` returns with the words written, or the
program exits with `ERR_COMPILATION_FAILED` at a line or with
`ERR_INVALID_OPCODE`, or it encodes the variable `op` of `main` before
anything was stored in it, which gives an indeterminate word. In every case
`output` is what was written before. -/
inductive Assembled where
  | written (output : List Nat)
  | compilation_failed (line_count : Nat) (output : List Nat)
  | invalid_opcode (output : List Nat)
  | indeterminate (output : List Nat)
  deriving DecidableEq, Repr

/-- The loop of `main` of compiler.c over the lines that `getline` returns:
each line is passed to `parse_line`, then `op` is encoded and written. -/
def assemble_lines : List (List Char) → Nat → Option Operation → List Nat → Assembled
  | [], _, _, output => .written output
  | line :: rest, line_count, op, output =>
    match parse_line (c_string line) line_count op with
    | .compilation_failed n => .compilation_failed n output
    | .returned none => .indeterminate output
    | .returned (some stored) =>
      match operation_to_int stored with
      | .word value => assemble_lines rest (line_count + 1) (some stored) (output ++ [value])
      | .invalid_opcode => .invalid_opcode output
      | .other_member => .indeterminate output

/-- `main` of compiler.c on a source file that opens, with an output file
that opens: `line_count` starts at 1 and `op` is not initialised. -/
def assemble (source : List Char) : Assembled :=
  assemble_lines (getline [] source) 1 none []

/-- A line that the assembler's textual format calls a comment or a blank
line: it begins with `#` or holds only white space. -/
def is_comment_or_blank (line : List Char) : Bool :=
  line.head? = some '#' || is_empty_line line

/-- The source with its comment and blank lines removed. -/
def without_comments (source : List Char) : List Char :=
  ((getline [] source).filter fun line => !is_comment_or_blank line).flatten

/-- An assembler source that begins with a comment. -/
def leading_comment_source : List Char :=
  "# stop at once\nhalt 0 0 0\n".toList

/-- An assembler source: one instruction, a comment, a blank line. -/
def commented_source : List Char :=
  "halt 0 0 0\n# stop here\n\n".toList

/-- The instruction line of `commented_source`. -/
def plain_source : List Char :=
  "halt 0 0 0\n".toList

/-- The main loop of `main` for `n` iterations. -/
def run_cycles : Nat → Machine → Result Machine
  | 0, m => .ok m
  | n + 1, m => (run_cycle m).bind (run_cycles n)

/-- A run of iterations of the main loop, none of which executes the
allocation or the abandon opcode. -/
inductive QuietRun : Machine → Machine → Prop where
  | refl (m : Machine) : QuietRun m m
  | cycle (m m1 m2 m3 : Machine) (op : Operation) :
      QuietRun m m1 → peek m1 = .ok (op, m2) → op.number ≠ 8 → op.number ≠ 9 →
      run_cycle m1 = .ok m3 → QuietRun m m3


/-! ## Sequencing and registers -/

theorem bind_eq_ok {α β : Type} {r : Result α} {f : α → Result β} {b : β} :
    r.bind f = .ok b ↔ ∃ a, r = .ok a ∧ f a = .ok b := by
  cases r <;> simp [Result.bind]

@[simp] theorem bind_ok {α β : Type} (a : α) (f : α → Result β) :
    (Result.ok a).bind f = f a := rfl

theorem fatal_ne_ok {α : Type} (code : ErrorCode) (m : Machine) (a : α) :
    (fatal code m : Result α) ≠ .ok a := by
  simp [fatal]

theorem get_register_eq (m : Machine) (i : Nat) (h : i < 8)
    (hr : m.registers.length = REGISTERS_COUNT + EXTRA_REGISTERS) :
    get_register i m false = .ok (m.registers.getD i 0) := by
  have hl : i < m.registers.length := by rw [hr]; simp [REGISTERS_COUNT, EXTRA_REGISTERS]; omega
  simp [get_register, GET_REGISTERS_COUNT, REGISTERS_COUNT, Nat.not_le.mpr h, List.getElem?_eq_getElem hl,
    List.getD_eq_getElem?_getD]

theorem get_pc_eq (m : Machine)
    (hr : m.registers.length = REGISTERS_COUNT + EXTRA_REGISTERS) :
    get_register PC_REGISTER m true = .ok (m.registers.getD 8 0) := by
  have hl : 8 < m.registers.length := by rw [hr]; simp [REGISTERS_COUNT, EXTRA_REGISTERS]
  simp [get_register, GET_REGISTERS_COUNT, REGISTERS_COUNT, EXTRA_REGISTERS, PC_REGISTER,
    List.getElem?_eq_getElem hl, List.getD_eq_getElem?_getD]

theorem set_register_eq (m : Machine) (i v : Nat) (h : i < 8)
    (hr : m.registers.length = REGISTERS_COUNT + EXTRA_REGISTERS) :
    set_register i v m false = .ok { m with registers := m.registers.set i v } := by
  have hl : i < m.registers.length := by rw [hr]; simp [REGISTERS_COUNT, EXTRA_REGISTERS]; omega
  simp [set_register, GET_REGISTERS_COUNT, REGISTERS_COUNT, Nat.not_le.mpr h, hl]

theorem set_pc_eq (m : Machine) (v : Nat)
    (hr : m.registers.length = REGISTERS_COUNT + EXTRA_REGISTERS) :
    set_register PC_REGISTER v m true = .ok { m with registers := m.registers.set 8 v } := by
  have hl : 8 < m.registers.length := by rw [hr]; simp [REGISTERS_COUNT, EXTRA_REGISTERS]
  simp [set_register, GET_REGISTERS_COUNT, REGISTERS_COUNT, EXTRA_REGISTERS, PC_REGISTER, hl]

/-! ## Codec -/

theorem and_7 (x : Nat) : x &&& 7 = x % 8 := Nat.and_pow_two_sub_one_eq_mod x 3
theorem and_15 (x : Nat) : x &&& 15 = x % 16 := Nat.and_pow_two_sub_one_eq_mod x 4
theorem and_value (x : Nat) : x &&& 33554431 = x % 33554432 := Nat.and_pow_two_sub_one_eq_mod x 25

theorem int_to_operation_eq (value : Nat) :
    int_to_operation value =
      if value / 268435456 % 16 < 13 then
        .standard ⟨value / 268435456 % 16, value / 64 % 8, value / 8 % 8, value % 8⟩
      else .put ⟨value / 268435456 % 16, value / 33554432 % 8, value % 33554432⟩ := by
  simp only [int_to_operation, and_7, and_15, and_value, Nat.shiftRight_eq_div_pow]

theorem int_to_operation_standard {value : Nat} {s : StandardOperation}
    (h : int_to_operation value = .standard s) :
    s.number < 13 ∧ s.a < 8 ∧ s.b < 8 ∧ s.c < 8 := by
  rw [int_to_operation_eq] at h
  split at h
  · injection h with h
    subst h
    refine ⟨by assumption, ?_, ?_, ?_⟩ <;> exact Nat.mod_lt _ (by norm_num)
  · cases h

theorem int_to_operation_put {value : Nat} {p : PutOperation}
    (h : int_to_operation value = .put p) :
    13 ≤ p.number ∧ p.number < 16 ∧ p.a < 8 ∧ p.value < 33554432 := by
  rw [int_to_operation_eq] at h
  split at h
  · cases h
  · injection h with h
    subst h
    refine ⟨by simp only; omega, ?_, ?_, ?_⟩ <;> exact Nat.mod_lt _ (by norm_num)

/-! ## The invariant under the memory operations -/

theorem content_at_congr {m m' : Machine} (h : m'.memory.arrays = m.memory.arrays) (id : Nat) :
    content_at m' id = content_at m id := by
  simp [content_at, h]

theorem free_list_congr {m m' : Machine} (h1 : m'.memory.pool = m.memory.pool)
    (h2 : m'.memory.pool_pointer = m.memory.pool_pointer) :
    free_list m' = free_list m := by
  simp [free_list, h1, h2]

theorem content_at_set {m m' : Machine} {i : Nat} {new : Array}
    (h : m'.memory.arrays = m.memory.arrays.set i new) (j : Nat) :
    content_at m' j =
      if i = j then (if i < m.memory.arrays.length then new.content else none)
      else content_at m j := by
  unfold content_at
  rw [h, List.getElem?_set]
  by_cases hij : i = j
  · rw [if_pos hij, if_pos hij]
    by_cases hl : i < m.memory.arrays.length
    · rw [if_pos hl, if_pos hl]
    · rw [if_neg hl, if_neg hl]
  · rw [if_neg hij, if_neg hij]

theorem content_at_lt {m : Machine} {id : Nat} (h : content_at m id ≠ none) :
    id < m.memory.arrays.length := by
  unfold content_at at h
  split at h
  · next a ha => exact (List.getElem?_eq_some.mp ha).1
  · exact absurd rfl h

/-- Memory untouched: the invariant carries over. -/
theorem Inv.of_memory_eq {m m' : Machine} (hI : Inv m) (hm : m'.memory = m.memory)
    (hr : m'.registers.length = m.registers.length) : Inv m' := by
  have hc : ∀ id, content_at m' id = content_at m id := content_at_congr (by rw [hm])
  have hf : free_list m' = free_list m := free_list_congr (by rw [hm]) (by rw [hm])
  constructor
  · rw [hr]; exact hI.regs
  · rw [hm]; exact hI.size_pos
  · rw [hm]; exact hI.arrays_len
  · rw [hm]; exact hI.pool_len
  · rw [hm]; exact hI.pointer_le
  · rw [hm]; exact hI.arrays_wf
  · rw [hf]; exact hI.free_nodup
  · intro id hid; rw [hf] at hid; rw [hm, hc]; exact hI.free_inactive id hid
  · intro id h1 h2 h3; rw [hf]; rw [hm] at h2; rw [hc] at h3; exact hI.free_complete id h1 h2 h3

/-- An allocated slot is replaced by another allocated, well-formed slot. -/
theorem Inv.set_active {m m' : Machine} (hI : Inv m) {i : Nat} {new : Array}
    (hact : content_at m i ≠ none) (hwf : new.wf) (hnew : new.content ≠ none)
    (hs : m'.memory.size = m.memory.size)
    (ha : m'.memory.arrays = m.memory.arrays.set i new)
    (hp : m'.memory.pool = m.memory.pool)
    (hpp : m'.memory.pool_pointer = m.memory.pool_pointer)
    (hr : m'.registers.length = m.registers.length) : Inv m' := by
  have hf : free_list m' = free_list m := free_list_congr hp hpp
  have hc : ∀ j, content_at m' j = none ↔ content_at m j = none := by
    intro j
    rw [content_at_set ha j]
    by_cases hij : i = j
    · subst hij
      rw [if_pos rfl, if_pos (content_at_lt hact)]
      exact ⟨fun h => absurd h hnew, fun h => absurd h hact⟩
    · rw [if_neg hij]
  constructor
  · rw [hr]; exact hI.regs
  · rw [hs]; exact hI.size_pos
  · rw [ha, hs, List.length_set]; exact hI.arrays_len
  · rw [hp, hs]; exact hI.pool_len
  · rw [hpp, hs]; exact hI.pointer_le
  · intro a h
    rw [ha] at h
    rcases List.mem_or_eq_of_mem_set h with h | h
    · exact hI.arrays_wf a h
    · rw [h]; exact hwf
  · rw [hf]; exact hI.free_nodup
  · intro id hid
    rw [hf] at hid
    rw [hs, hc]
    exact hI.free_inactive id hid
  · intro id h1 h2 h3
    rw [hf]
    rw [hs] at h2
    rw [hc] at h3
    exact hI.free_complete id h1 h2 h3

theorem nodup_length_le {l : List Nat} {n : Nat} (hn : l.Nodup) (hl : ∀ x ∈ l, x < n) :
    l.length ≤ n := by
  have h1 : l.toFinset.card = l.length := List.toFinset_card_of_nodup hn
  have h2 : l.toFinset ⊆ Finset.range n := by
    intro x hx
    simp only [List.mem_toFinset] at hx
    simp only [Finset.mem_range]
    exact hl x hx
  have h3 := Finset.card_le_card h2
  rw [Finset.card_range] at h3
  omega

theorem free_list_length {m : Machine} (hI : Inv m) :
    (free_list m).length = m.memory.pool_pointer := by
  simp only [free_list, List.length_take, hI.pool_len]
  exact Nat.min_eq_left hI.pointer_le

/-- With an active slot, the free-list does not fill the pool. -/
theorem pointer_lt_of_active {m : Machine} (hI : Inv m) {i : Nat} (hi : i < m.memory.size)
    (hact : content_at m i ≠ none) : m.memory.pool_pointer < m.memory.size := by
  have hni : i ∉ free_list m := fun h => hact (hI.free_inactive i h).2
  have hn : (i :: free_list m).Nodup := List.nodup_cons.mpr ⟨hni, hI.free_nodup⟩
  have hl : ∀ x ∈ i :: free_list m, x < m.memory.size := by
    intro x hx
    rcases List.mem_cons.mp hx with h | h
    · rw [h]; exact hi
    · exact (hI.free_inactive x h).1
  have := nodup_length_le hn hl
  rw [List.length_cons, free_list_length hI] at this
  omega

theorem free_list_succ {m : Machine} {id : Nat} (hp : m.memory.pool_pointer ≠ 0)
    (hid : m.memory.pool[m.memory.pool_pointer - 1]? = some id) :
    free_list m = m.memory.pool.take (m.memory.pool_pointer - 1) ++ [id] := by
  unfold free_list
  have h : m.memory.pool_pointer = (m.memory.pool_pointer - 1) + 1 := by omega
  conv => lhs; rw [h, List.take_succ, hid]
  rfl

/-- An identifier popped from the free-list is given a block. -/
theorem Inv.reuse {m m' : Machine} (hI : Inv m) {id : Nat} {new : Array}
    (hp : m.memory.pool_pointer ≠ 0)
    (hid : m.memory.pool[m.memory.pool_pointer - 1]? = some id)
    (hwf : new.wf) (hnew : new.content ≠ none)
    (hs : m'.memory.size = m.memory.size)
    (ha : m'.memory.arrays = m.memory.arrays.set id new)
    (hpool : m'.memory.pool = m.memory.pool)
    (hpp : m'.memory.pool_pointer = m.memory.pool_pointer - 1)
    (hr : m'.registers.length = m.registers.length) : Inv m' := by
  have hfree := free_list_succ hp hid
  have hf' : free_list m' = m.memory.pool.take (m.memory.pool_pointer - 1) := by
    simp [free_list, hpool, hpp]
  have hnd := hI.free_nodup
  rw [hfree, ← hf'] at hnd
  have hnd' := List.nodup_append.mp hnd
  have hmem : id ∈ free_list m := by rw [hfree]; simp
  have hidlt := (hI.free_inactive id hmem).1
  have hlen : id < m.memory.arrays.length := by rw [hI.arrays_len]; exact hidlt
  have hnotin : id ∉ free_list m' := fun h => hnd'.2.2 h (List.mem_singleton_self id) 
  have hsub : ∀ x, x ∈ free_list m' → x ∈ free_list m := by
    intro x hx; rw [hfree, ← hf']; exact List.mem_append_left _ hx
  constructor
  · rw [hr]; exact hI.regs
  · rw [hs]; exact hI.size_pos
  · rw [ha, hs, List.length_set]; exact hI.arrays_len
  · rw [hpool, hs]; exact hI.pool_len
  · rw [hpp, hs]; have := hI.pointer_le; omega
  · intro a h
    rw [ha] at h
    rcases List.mem_or_eq_of_mem_set h with h | h
    · exact hI.arrays_wf a h
    · rw [h]; exact hwf
  · exact hnd'.1
  · intro x hx
    have hne : id ≠ x := fun h => hnotin (h ▸ hx)
    rw [hs, content_at_set ha x, if_neg hne]
    exact hI.free_inactive x (hsub x hx)
  · intro x h1 h2 h3
    rw [content_at_set ha x] at h3
    by_cases hne : id = x
    · rw [if_pos hne, if_pos hlen] at h3
      exact absurd h3 hnew
    · rw [if_neg hne] at h3
      rw [hs] at h2
      have := hI.free_complete x h1 h2 h3
      rw [hfree, ← hf'] at this
      rcases List.mem_append.mp this with h | h
      · exact h
      · exact absurd (List.mem_singleton.mp h).symm hne

/-- The pool grows by one slot, which is given a block. -/
theorem Inv.grow {m m' : Machine} (hI : Inv m) {new : Array}
    (hwf : new.wf) (hnew : new.content ≠ none)
    (hs : m'.memory.size = m.memory.size + 1)
    (ha : m'.memory.arrays = m.memory.arrays ++ [new])
    (hpool : m'.memory.pool = m.memory.pool ++ [0])
    (hpp : m'.memory.pool_pointer = m.memory.pool_pointer)
    (hr : m'.registers.length = m.registers.length) : Inv m' := by
  have hf : free_list m' = free_list m := by
    unfold free_list
    rw [hpool, hpp]
    exact List.take_append_of_le_length (by rw [hI.pool_len]; exact hI.pointer_le)
  have hc : ∀ j, j < m.memory.size → content_at m' j = content_at m j := by
    intro j hj
    unfold content_at
    rw [ha, List.getElem?_append_left (by rw [hI.arrays_len]; exact hj)]
  have hcs : content_at m' m.memory.size = new.content := by
    unfold content_at
    rw [ha, List.getElem?_append_right (by rw [hI.arrays_len]), hI.arrays_len]
    simp
  constructor
  · rw [hr]; exact hI.regs
  · rw [hs]; omega
  · rw [ha, hs, List.length_append, hI.arrays_len]; rfl
  · rw [hpool, hs, List.length_append, hI.pool_len]; rfl
  · rw [hpp, hs]; have := hI.pointer_le; omega
  · intro a h
    rw [ha] at h
    rcases List.mem_append.mp h with h | h
    · exact hI.arrays_wf a h
    · rw [List.mem_singleton.mp h]; exact hwf
  · rw [hf]; exact hI.free_nodup
  · intro x hx
    rw [hf] at hx
    have := hI.free_inactive x hx
    rw [hs, hc x this.1]
    exact ⟨by omega, this.2⟩
  · intro x h1 h2 h3
    rw [hf]
    rw [hs] at h2
    by_cases hx : x < m.memory.size
    · rw [hc x hx] at h3
      exact hI.free_complete x h1 hx h3
    · have : x = m.memory.size := by omega
      rw [this, hcs] at h3
      exact absurd h3 hnew


theorem take_set_self {α : Type} (l : List α) (n : Nat) (a : α) :
    (l.set n a).take n = l.take n := by
  apply List.ext_getElem?
  intro k
  rw [List.getElem?_take, List.getElem?_take]
  split
  · next h => rw [List.getElem?_set_ne (by omega)]
  · rfl

/-- An allocated slot is released and pushed on the free-list. -/
theorem Inv.abandon {m m' : Machine} (hI : Inv m) {i : Nat}
    (hi : i < m.memory.size) (hact : content_at m i ≠ none)
    (hs : m'.memory.size = m.memory.size)
    (ha : m'.memory.arrays = m.memory.arrays.set i ⟨0, none⟩)
    (hpool : m'.memory.pool = m.memory.pool.set m.memory.pool_pointer i)
    (hpp : m'.memory.pool_pointer = m.memory.pool_pointer + 1)
    (hr : m'.registers.length = m.registers.length) : Inv m' := by
  have hlt := pointer_lt_of_active hI hi hact
  have hlen : i < m.memory.arrays.length := by rw [hI.arrays_len]; exact hi
  have hf : free_list m' = free_list m ++ [i] := by
    unfold free_list
    rw [hpool, hpp, List.take_succ, take_set_self,
      List.getElem?_set_self (by rw [hI.pool_len]; exact hlt)]
    rfl
  have hni : i ∉ free_list m := fun h => hact (hI.free_inactive i h).2
  constructor
  · rw [hr]; exact hI.regs
  · rw [hs]; exact hI.size_pos
  · rw [ha, hs, List.length_set]; exact hI.arrays_len
  · rw [hpool, hs, List.length_set]; exact hI.pool_len
  · rw [hpp, hs]; omega
  · intro a h
    rw [ha] at h
    rcases List.mem_or_eq_of_mem_set h with h | h
    · exact hI.arrays_wf a h
    · rw [h]; rfl
  · rw [hf]
    exact List.nodup_append.mpr ⟨hI.free_nodup, List.nodup_singleton i, by
      intro x hx hx'
      rw [List.mem_singleton.mp hx'] at hx
      exact hni hx⟩
  · intro x hx
    rw [hf] at hx
    rw [hs, content_at_set ha x]
    rcases List.mem_append.mp hx with h | h
    · have hne : i ≠ x := fun e => hni (e ▸ h)
      rw [if_neg hne]
      exact hI.free_inactive x h
    · have := List.mem_singleton.mp h
      rw [if_pos this.symm, if_pos hlen, this]
      exact ⟨hi, rfl⟩
  · intro x h1 h2 h3
    rw [hf]
    rw [content_at_set ha x] at h3
    rw [hs] at h2
    by_cases hne : i = x
    · exact List.mem_append_right _ (by rw [hne]; exact List.mem_singleton_self x)
    · rw [if_neg hne] at h3
      exact List.mem_append_left _ (hI.free_complete x h1 h2 h3)

/-! ## Startup -/

theorem startup_eq (file stdin : List Nat) :
    startup file stdin = .ok
      { memory :=
          { size := 1
            arrays := [⟨file.length % 4294967296 / 4,
              some ((List.range (file.length % 4294967296 / 4)).map (file_word file))⟩]
            pool := [0]
            pool_pointer := 0 }
        registers := [0, 0, 0, 0, 0, 0, 0, 0, 0]
        stdin := stdin
        stdout := [] } := by
  simp [startup, initialize_memory, zeroed_machine, allocate_memory, PROGRAM_ARRAY, realloc,
    mark_unallocated, get_array, Result.bind, REGISTERS_COUNT, EXTRA_REGISTERS]

theorem startup_inv (file stdin : List Nat) (m : Machine) (h : startup file stdin = .ok m) :
    Inv m := by
  rw [startup_eq] at h
  injection h with h
  subst h
  constructor
  · simp [REGISTERS_COUNT, EXTRA_REGISTERS]
  · simp
  · simp
  · simp
  · simp
  · intro a ha
    simp at ha
    subst ha
    simp [Array.wf]
  · simp [free_list]
  · simp [free_list]
  · intro id h1 h2
    simp at h2
    omega

/-! ## Explicit forms of the memory operations -/

theorem get_array_of_lt {m : Machine} (hI : Inv m) {index : Nat} (h : index < m.memory.size) :
    ∃ a, m.memory.arrays[index]? = some a ∧ get_array index m = .ok a := by
  have hl : index < m.memory.arrays.length := by rw [hI.arrays_len]; exact h
  refine ⟨m.memory.arrays[index], List.getElem?_eq_getElem hl, ?_⟩
  have h0 : m.memory.size ≠ 0 := by omega
  simp only [get_array, if_neg h0]
  rw [if_neg (by omega), List.getElem?_eq_getElem hl]

theorem get_array_of_ge {m : Machine} (hI : Inv m) {index : Nat} (h : m.memory.size ≤ index) :
    get_array index m = fatal .ERR_OUT_OF_MEMORY m := by
  have h0 : m.memory.size ≠ 0 := Nat.pos_iff_ne_zero.mp hI.size_pos
  simp only [get_array, if_neg h0]
  rw [if_pos (by omega)]

theorem allocate_memory_of_lt (m : Machine) (ha : m.memory.arrays.length = m.memory.size)
    {index : Nat} (size : Nat) (h : index < m.memory.size)
    (hok : content_at m index = none ∨ size ≠ 0) :
    allocate_memory index size m = .ok
      { m with memory :=
        { m.memory with
          arrays := m.memory.arrays.set index ⟨size, some (List.replicate size 0)⟩ } } := by
  have hl : index < m.memory.arrays.length := by rw [ha]; exact h
  have hlt : ¬ (m.memory.size < (index + 1) % 4294967296) := by
    have := Nat.mod_le (index + 1) 4294967296
    omega
  have hc : ¬ ((m.memory.arrays[index]).content ≠ none ∧ size = 0) := by
    rintro ⟨h1, h2⟩
    rcases hok with h3 | h3
    · apply h1
      simpa only [content_at, List.getElem?_eq_getElem hl] using h3
    · exact h3 h2
  simp only [allocate_memory, if_neg hlt, List.getElem?_eq_getElem hl, if_neg hc]

/-- The `realloc` of an allocated block to no platter at all is taken for a
failed allocation. -/
theorem allocate_memory_null (m : Machine) (ha : m.memory.arrays.length = m.memory.size)
    {index : Nat} (h : index < m.memory.size) (hc : content_at m index ≠ none) :
    allocate_memory index 0 m = fatal .ERR_OUT_OF_MEMORY
      { m with memory :=
        { m.memory with arrays := m.memory.arrays.set index ⟨array_size m index, none⟩ } } := by
  have hl : index < m.memory.arrays.length := by rw [ha]; exact h
  have hlt : ¬ (m.memory.size < (index + 1) % 4294967296) := by
    have := Nat.mod_le (index + 1) 4294967296
    omega
  have hc2 : (m.memory.arrays[index]).content ≠ none ∧ True := by
    refine ⟨?_, trivial⟩
    simpa only [content_at, List.getElem?_eq_getElem hl] using hc
  simp only [allocate_memory, if_neg hlt, List.getElem?_eq_getElem hl, array_size]
  rw [if_pos hc2]

theorem allocate_memory_grow {m : Machine} (hI : Inv m) (size : Nat)
    (hs : m.memory.size < 4294967295) :
    allocate_memory m.memory.size size m = .ok
      { m with memory :=
        { size := m.memory.size + 1
          arrays := m.memory.arrays ++ [⟨size, some (List.replicate size 0)⟩]
          pool := m.memory.pool ++ [0]
          pool_pointer := m.memory.pool_pointer } } := by
  have h1 : realloc (⟨0, none⟩ : Array) m.memory.arrays (m.memory.size + 1)
      = m.memory.arrays ++ [⟨0, none⟩] := by
    unfold realloc
    rw [List.take_of_length_le (by rw [hI.arrays_len]; omega), hI.arrays_len]
    simp
  have h2 : realloc 0 m.memory.pool (m.memory.size + 1) = m.memory.pool ++ [0] := by
    unfold realloc
    rw [List.take_of_length_le (by rw [hI.pool_len]; omega), hI.pool_len]
    simp
  have h3 : mark_unallocated m.memory.size (m.memory.size + 1) (m.memory.arrays ++ [⟨0, none⟩])
      = m.memory.arrays ++ [⟨0, none⟩] := by
    unfold mark_unallocated
    rw [List.take_left' hI.arrays_len, List.drop_of_length_le (by simp [hI.arrays_len])]
    simp
  have hmod : (m.memory.size + 1) % 4294967296 = m.memory.size + 1 :=
    Nat.mod_eq_of_lt (by omega)
  have hlt : m.memory.size < m.memory.size + 1 := by omega
  have h5 : (m.memory.arrays ++ [(⟨0, none⟩ : Array)])[m.memory.size]? = some ⟨0, none⟩ := by
    rw [List.getElem?_append_right (by rw [hI.arrays_len]), hI.arrays_len]
    simp
  have hc : ¬ ((⟨0, none⟩ : Array).content ≠ none ∧ size = 0) := fun h => h.1 rfl
  simp only [allocate_memory, hmod, if_pos hlt, h1, h2, h3, h5, if_neg hc]
  have h4 : (m.memory.arrays ++ [(⟨0, none⟩ : Array)]).set m.memory.size
      ⟨size, some (List.replicate size 0)⟩
      = m.memory.arrays ++ [⟨size, some (List.replicate size 0)⟩] := by
    rw [List.set_append_right _ _ (by rw [hI.arrays_len]), hI.arrays_len]
    simp
  rw [h4]

/-- With `0xFFFFFFFF` pool slots or more the `index + 1` of a fresh identifier
wraps: the pool is not grown and the slot is beyond its end. -/
theorem allocate_memory_wrap (m : Machine) (ha : m.memory.arrays.length = m.memory.size)
    (size : Nat) (hs : 4294967295 ≤ m.memory.size) :
    allocate_memory m.memory.size size m = .undefined := by
  have hlt : ¬ (m.memory.size < (m.memory.size + 1) % 4294967296) := by
    have := Nat.mod_lt (m.memory.size + 1) (show 0 < 4294967296 by norm_num)
    omega
  have hn : m.memory.arrays[m.memory.size]? = none :=
    List.getElem?_eq_none (by rw [ha])
  simp only [allocate_memory, if_neg hlt, hn]

theorem scan_unallocated_eq_zero {m : Machine} (hI : Inv m) (hp : m.memory.pool_pointer = 0) :
    scan_unallocated m.memory = 0 := by
  have hnone : (List.range' 1 (m.memory.size - 1)).find? (content_is_null m.memory) = none := by
    rw [List.find?_eq_none]
    intro i hi
    rw [List.mem_range'_1] at hi
    have hc : content_at m i ≠ none := by
      intro hc
      have := hI.free_complete i hi.1 (by omega) hc
      simp [free_list, hp] at this
    unfold content_at at hc
    unfold content_is_null
    split at hc
    · next a ha => simpa using hc
    · exact absurd rfl hc
  unfold scan_unallocated
  split
  · next i hi => rw [hnone] at hi; cases hi
  · rfl

theorem replicate_wf (n : Nat) : (⟨n, some (List.replicate n 0)⟩ : Array).wf := by
  simp [Array.wf]

theorem allocate_array_fresh {m : Machine} (hI : Inv m) (size : Nat)
    (hp : m.memory.pool_pointer = 0) (hs : m.memory.size < 4294967295) :
    allocate_array size m = .ok (m.memory.size,
      { m with memory :=
        { size := m.memory.size + 1
          arrays := m.memory.arrays ++ [⟨size, some (List.replicate size 0)⟩]
          pool := m.memory.pool ++ [0]
          pool_pointer := m.memory.pool_pointer } }) := by
  simp only [allocate_array, hp, ne_eq, not_true_eq_false, if_false, scan_unallocated_eq_zero hI hp,
    bind_ok, if_true]
  rw [allocate_memory_grow hI size hs, bind_ok, hp]

theorem allocate_array_wrap {m : Machine} (hI : Inv m) (size : Nat)
    (hp : m.memory.pool_pointer = 0) (hs : 4294967295 ≤ m.memory.size) :
    allocate_array size m = .undefined := by
  simp only [allocate_array, hp, ne_eq, not_true_eq_false, if_false, scan_unallocated_eq_zero hI hp,
    bind_ok, if_true]
  rw [allocate_memory_wrap m hI.arrays_len size hs]
  rfl

theorem allocate_array_reuse {m : Machine} (hI : Inv m) (h0 : content_at m 0 ≠ none) (size : Nat)
    (hp : m.memory.pool_pointer ≠ 0) :
    ∃ id, m.memory.pool[m.memory.pool_pointer - 1]? = some id ∧ id ≠ 0 ∧ id < m.memory.size ∧
      content_at m id = none ∧
      allocate_array size m = .ok (id,
        { m with memory :=
          { m.memory with
            arrays := m.memory.arrays.set id ⟨size, some (List.replicate size 0)⟩
            pool_pointer := m.memory.pool_pointer - 1 } }) := by
  have hl : m.memory.pool_pointer - 1 < m.memory.pool.length := by
    rw [hI.pool_len]; have := hI.pointer_le; omega
  have hid := List.getElem?_eq_getElem hl
  refine ⟨m.memory.pool[m.memory.pool_pointer - 1], hid, ?_⟩
  have hmem : m.memory.pool[m.memory.pool_pointer - 1] ∈ free_list m := by
    rw [free_list_succ hp hid]; exact List.mem_append_right _ (List.mem_singleton_self _)
  have hin := hI.free_inactive _ hmem
  have hne : m.memory.pool[m.memory.pool_pointer - 1] ≠ 0 := by
    intro h; rw [h] at hin; exact h0 hin.2
  refine ⟨hne, hin.1, hin.2, ?_⟩
  have hpop := allocate_memory_of_lt
    { m with memory := { m.memory with pool_pointer := m.memory.pool_pointer - 1 } }
    hI.arrays_len size hin.1 (Or.inl hin.2)
  simp only [allocate_array, ne_eq, hp, not_false_eq_true, if_true, hid, bind_ok, if_neg hne]
  rw [hpop, bind_ok]

/-! ## Fetch, and the operations that leave the memory alone -/

theorem peek_ok {m m1 : Machine} {op : Operation} (hI : Inv m) (h : peek m = .ok (op, m1)) :
    ∃ platters word, content_at m 0 = some platters ∧
      platters[m.registers.getD 8 0]? = some word ∧ op = int_to_operation word ∧
      m1 = { m with registers := m.registers.set 8 (m.registers.getD 8 0 + 1) } := by
  obtain ⟨a, ha, hga⟩ := get_array_of_lt hI hI.size_pos
  simp only [peek, get_pc_eq m hI.regs, bind_ok, PROGRAM_ARRAY, hga] at h
  split at h
  · exact absurd h (fatal_ne_ok _ _ _)
  · split at h
    · next platters hp =>
      split at h
      · next word hw =>
        rw [set_pc_eq m _ hI.regs, bind_ok] at h
        injection h with h
        injection h with h1 h2
        refine ⟨platters, word, ?_, hw, h1.symm, h2.symm⟩
        simp only [content_at, ha, hp]
      · cases h
    · cases h

theorem get_register_set_pc (m : Machine) (i v : Nat) (h : i < 8) :
    get_register i { m with registers := m.registers.set 8 v } false = get_register i m false := by
  have hge : ¬ i ≥ GET_REGISTERS_COUNT false := by
    simp only [GET_REGISTERS_COUNT, REGISTERS_COUNT]; simp; omega
  simp only [get_register, if_neg hge]
  rw [List.getElem?_set_ne (by omega)]

/-- What a successful fetch leaves: the invariant, the same memory and
streams, a program array that is allocated, and the same registers 0..7. -/
theorem peek_facts {m m1 : Machine} {op : Operation} (hI : Inv m) (h : peek m = .ok (op, m1)) :
    Inv m1 ∧ m1.memory = m.memory ∧ content_at m1 0 ≠ none ∧ m1.stdin = m.stdin ∧
      m1.stdout = m.stdout ∧
      (∀ i, i < 8 → get_register i m1 false = get_register i m false) ∧
      (∃ word, op = int_to_operation word) := by
  obtain ⟨platters, word, h0, _, hop, hm1⟩ := peek_ok hI h
  subst hm1
  refine ⟨hI.of_memory_eq rfl (by simp), rfl, ?_, rfl, rfl, ?_, word, hop⟩
  · show content_at m 0 ≠ none
    rw [h0]; simp
  · intro i hi; exact get_register_set_pc m i _ hi

theorem set_register_ok {m m' : Machine} {i v : Nat} {e : Bool}
    (h : set_register i v m e = .ok m') :
    m' = { m with registers := m.registers.set i v } := by
  simp only [set_register] at h
  split at h
  · exact absurd h (fatal_ne_ok _ _ _)
  · split at h
    · injection h with h; exact h.symm
    · cases h

theorem set_register_memory {m m' : Machine} {i v : Nat} {e : Bool}
    (h : set_register i v m e = .ok m') :
    m'.memory = m.memory ∧ m'.registers.length = m.registers.length := by
  rw [set_register_ok h]
  simp

theorem conditional_move_memory {s : StandardOperation} {m m' : Machine}
    (h : conditional_move s m = .ok m') :
    m'.memory = m.memory ∧ m'.registers.length = m.registers.length := by
  simp only [conditional_move, bind_eq_ok] at h
  obtain ⟨c, -, h⟩ := h
  split at h
  · simp only [bind_eq_ok] at h
    obtain ⟨b, -, h⟩ := h
    exact set_register_memory h
  · injection h with h; subst h; exact ⟨rfl, rfl⟩

theorem array_index_memory {s : StandardOperation} {m m' : Machine}
    (h : array_index s m = .ok m') :
    m'.memory = m.memory ∧ m'.registers.length = m.registers.length := by
  simp only [array_index, bind_eq_ok] at h
  obtain ⟨_, -, _, -, _, -, h⟩ := h
  exact set_register_memory h

theorem addition_memory {s : StandardOperation} {m m' : Machine}
    (h : addition s m = .ok m') :
    m'.memory = m.memory ∧ m'.registers.length = m.registers.length := by
  simp only [addition, bind_eq_ok] at h
  obtain ⟨_, -, _, -, h⟩ := h
  exact set_register_memory h

theorem multiplication_memory {s : StandardOperation} {m m' : Machine}
    (h : multiplication s m = .ok m') :
    m'.memory = m.memory ∧ m'.registers.length = m.registers.length := by
  simp only [multiplication, bind_eq_ok] at h
  obtain ⟨_, -, _, -, h⟩ := h
  exact set_register_memory h

theorem division_memory {s : StandardOperation} {m m' : Machine}
    (h : division s m = .ok m') :
    m'.memory = m.memory ∧ m'.registers.length = m.registers.length := by
  simp only [division, bind_eq_ok] at h
  obtain ⟨_, -, _, -, h⟩ := h
  split at h
  · exact absurd h (fatal_ne_ok _ _ _)
  · exact set_register_memory h

theorem not_and_memory {s : StandardOperation} {m m' : Machine}
    (h : not_and s m = .ok m') :
    m'.memory = m.memory ∧ m'.registers.length = m.registers.length := by
  simp only [not_and, bind_eq_ok] at h
  obtain ⟨_, -, _, -, h⟩ := h
  exact set_register_memory h

theorem output_memory {s : StandardOperation} {m m' : Machine}
    (h : output s m = .ok m') :
    m'.memory = m.memory ∧ m'.registers.length = m.registers.length := by
  simp only [output, bind_eq_ok] at h
  obtain ⟨_, -, h⟩ := h
  injection h with h
  subst h
  exact ⟨rfl, rfl⟩

theorem input_memory {s : StandardOperation} {m m' : Machine}
    (h : input s m = .ok m') :
    m'.memory = m.memory ∧ m'.registers.length = m.registers.length := by
  simp only [input] at h
  have := set_register_memory h
  exact ⟨this.1, this.2⟩

theorem ortography_memory {p : PutOperation} {m m' : Machine}
    (h : ortography p m = .ok m') :
    m'.memory = m.memory ∧ m'.registers.length = m.registers.length := by
  simp only [ortography] at h
  exact set_register_memory h

/-! ## Array access and abandon -/

theorem slot_of_lt {m : Machine} (hI : Inv m) {id : Nat} (h : id < m.memory.size) :
    ∃ a, m.memory.arrays[id]? = some a ∧ a.wf ∧ content_at m id = a.content ∧
      array_size m id = a.size ∧ get_array id m = .ok a := by
  obtain ⟨a, ha, hg⟩ := get_array_of_lt hI h
  refine ⟨a, ha, hI.arrays_wf a (List.getElem?_mem ha), ?_, ?_, hg⟩
  · simp only [content_at, ha]
  · simp only [array_size, ha]

theorem is_active_eq_true {m : Machine} {id : Nat} :
    is_active m id = true ↔ id < m.memory.size ∧ content_at m id ≠ none := by
  simp [is_active, Option.isSome_iff_ne_none]

theorem is_active_eq_false {m : Machine} {id : Nat} :
    is_active m id = false ↔ (m.memory.size ≤ id ∨ content_at m id = none) := by
  rw [← Bool.not_eq_true, is_active_eq_true]
  constructor
  · intro h
    by_cases hlt : id < m.memory.size
    · right
      by_contra hc
      exact h ⟨hlt, hc⟩
    · left; omega
  · rintro (h | h) ⟨h1, h2⟩
    · omega
    · exact h2 h

/-- An active slot holds a block of exactly `array_size` platters. -/
theorem active_block {m : Machine} (hI : Inv m) {id : Nat} (h : is_active m id = true) :
    ∃ platters, content_at m id = some platters ∧ platters.length = array_size m id ∧
      m.memory.arrays[id]? = some ⟨array_size m id, some platters⟩ ∧
      get_array id m = .ok ⟨array_size m id, some platters⟩ := by
  obtain ⟨hlt, hc⟩ := is_active_eq_true.mp h
  obtain ⟨a, ha, hwf, hca, hsa, hg⟩ := slot_of_lt hI hlt
  obtain ⟨size, content⟩ := a
  cases content with
  | none => rw [hca] at hc; exact absurd rfl hc
  | some platters =>
    simp only at hsa hca
    simp only [Array.wf] at hwf
    rw [hsa]
    exact ⟨platters, hca, hwf, ha, hg⟩

/-- An inactive slot has size 0. -/
theorem inactive_size {m : Machine} (hI : Inv m) {id : Nat} (h : is_active m id = false) :
    array_size m id = 0 := by
  by_cases hlt : id < m.memory.size
  · obtain ⟨a, ha, hwf, hca, hsa, _⟩ := slot_of_lt hI hlt
    rcases is_active_eq_false.mp h with h | h
    · omega
    · rw [hsa]
      rw [hca] at h
      simp only [Array.wf, h] at hwf
      exact hwf
  · simp only [array_size]
    rw [List.getElem?_eq_none (by rw [hI.arrays_len]; omega)]

theorem read_array_ok {m : Machine} (hI : Inv m) {id o : Nat}
    (ha : is_active m id = true) (ho : o < array_size m id) :
    ∃ platters v, content_at m id = some platters ∧ platters[o]? = some v ∧
      read_array id o m = .ok v := by
  obtain ⟨platters, hc, hlen, _, hg⟩ := active_block hI ha
  have hl : o < platters.length := by omega
  refine ⟨platters, platters[o], hc, List.getElem?_eq_getElem hl, ?_⟩
  simp only [read_array, hg, bind_ok]
  rw [if_neg (by omega)]
  simp only [List.getElem?_eq_getElem hl]

theorem read_array_fatal {m : Machine} (hI : Inv m) {id o : Nat}
    (h : is_active m id = false ∨ array_size m id ≤ o) :
    ∃ code, read_array id o m = fatal code m := by
  have hsz : array_size m id ≤ o := by
    rcases h with h | h
    · rw [inactive_size hI h]; omega
    · exact h
  by_cases hlt : id < m.memory.size
  · obtain ⟨a, _, _, _, hsa, hg⟩ := slot_of_lt hI hlt
    refine ⟨.ERR_MEMORY_ACCESS_INVALID, ?_⟩
    simp only [read_array, hg, bind_ok]
    rw [if_pos (by omega)]
  · refine ⟨.ERR_OUT_OF_MEMORY, ?_⟩
    simp only [read_array, get_array_of_ge hI (Nat.le_of_not_lt hlt)]
    rfl

theorem array_amendment_ok {s : StandardOperation} {m : Machine} (hI : Inv m) {id o v : Nat}
    (h1 : get_register s.a m false = .ok id) (h2 : get_register s.b m false = .ok o)
    (h3 : get_register s.c m false = .ok v)
    (ha : is_active m id = true) (ho : o < array_size m id) :
    ∃ platters, content_at m id = some platters ∧ platters.length = array_size m id ∧
      array_amendment s m = .ok
        { m with memory :=
          { m.memory with
            arrays := m.memory.arrays.set id ⟨array_size m id, some (platters.set o v)⟩ } } := by
  obtain ⟨platters, hc, hlen, _, hg⟩ := active_block hI ha
  have hl : o < platters.length := by omega
  refine ⟨platters, hc, hlen, ?_⟩
  simp only [array_amendment, h1, h2, h3, hg, bind_ok]
  rw [if_neg (by omega)]
  simp only [if_pos hl]

theorem array_amendment_fatal {s : StandardOperation} {m : Machine} (hI : Inv m) {id o : Nat}
    (h1 : get_register s.a m false = .ok id) (h2 : get_register s.b m false = .ok o)
    (h : is_active m id = false ∨ array_size m id ≤ o) :
    ∃ code, array_amendment s m = fatal code m := by
  have hsz : array_size m id ≤ o := by
    rcases h with h | h
    · rw [inactive_size hI h]; omega
    · exact h
  by_cases hlt : id < m.memory.size
  · obtain ⟨a, _, _, _, hsa, hg⟩ := slot_of_lt hI hlt
    refine ⟨.ERR_MEMORY_ACCESS_INVALID, ?_⟩
    simp only [array_amendment, h1, h2, hg, bind_ok]
    rw [if_pos (by omega)]
  · refine ⟨.ERR_OUT_OF_MEMORY, ?_⟩
    simp only [array_amendment, h1, bind_ok, get_array_of_ge hI (Nat.le_of_not_lt hlt)]
    rfl

theorem abandoment_ok {s : StandardOperation} {m : Machine} (hI : Inv m) {id : Nat}
    (h1 : get_register s.c m false = .ok id) (ha : is_active m id = true) :
    abandoment s m = .ok
      { m with memory :=
        { m.memory with
          arrays := m.memory.arrays.set id ⟨0, none⟩
          pool := m.memory.pool.set m.memory.pool_pointer id
          pool_pointer := m.memory.pool_pointer + 1 } } := by
  obtain ⟨platters, hc, _, _, hg⟩ := active_block hI ha
  obtain ⟨hlt, hne⟩ := is_active_eq_true.mp ha
  have hp := pointer_lt_of_active hI hlt hne
  simp only [abandoment, h1, hg, bind_ok]
  rw [if_neg (by simp), if_pos (by rw [hI.pool_len]; exact hp)]

theorem abandoment_fatal {s : StandardOperation} {m : Machine} (hI : Inv m) {id : Nat}
    (h1 : get_register s.c m false = .ok id) (ha : is_active m id = false) :
    ∃ code, abandoment s m = fatal code m := by
  by_cases hlt : id < m.memory.size
  · obtain ⟨a, _, _, hca, _, hg⟩ := slot_of_lt hI hlt
    have hn : a.content = none := by
      rcases is_active_eq_false.mp ha with h | h
      · omega
      · rw [← hca]; exact h
    refine ⟨.ERR_MEMORY_ACCESS_INVALID, ?_⟩
    simp only [abandoment, h1, hg, bind_ok]
    rw [if_pos hn]
  · refine ⟨.ERR_OUT_OF_MEMORY, ?_⟩
    simp only [abandoment, h1, bind_ok, get_array_of_ge hI (Nat.le_of_not_lt hlt)]
    rfl

/-! ## Load program and allocation -/

theorem get_register_congr {m m' : Machine} {i v : Nat} {e : Bool}
    (h : get_register i m e = .ok v) (hr : m'.registers = m.registers) :
    get_register i m' e = .ok v := by
  simp only [get_register] at h ⊢
  split at h
  · exact absurd h (fatal_ne_ok _ _ _)
  · next hlt =>
    rw [if_neg hlt, hr]
    exact h

theorem load_program_zero {s : StandardOperation} {m : Machine} (hI : Inv m) {pc : Nat}
    (h1 : get_register s.b m false = .ok 0) (h2 : get_register s.c m false = .ok pc) :
    load_program s m = .ok { m with registers := m.registers.set 8 pc } := by
  simp only [load_program, h1, h2, bind_ok, ne_eq, not_true_eq_false, if_false]
  exact set_pc_eq m pc hI.regs

theorem load_program_copy {s : StandardOperation} {m : Machine} (hI : Inv m) {id pc : Nat}
    (h1 : get_register s.b m false = .ok id) (h2 : get_register s.c m false = .ok pc)
    (hid : id ≠ 0) (ha : is_active m id = true)
    (hsz : content_at m 0 = none ∨ array_size m id ≠ 0) :
    ∃ platters, content_at m id = some platters ∧ platters.length = array_size m id ∧
      load_program s m = .ok
        { m with
          memory :=
            { m.memory with
              arrays := m.memory.arrays.set 0 ⟨array_size m id, some platters⟩ }
          registers := m.registers.set 8 pc } := by
  obtain ⟨platters, hc, hlen, _, hg⟩ := active_block hI ha
  refine ⟨platters, hc, hlen, ?_⟩
  have hal := allocate_memory_of_lt m hI.arrays_len (array_size m id) hI.size_pos hsz
  have h0 : (0 : Nat) < m.memory.arrays.length := by rw [hI.arrays_len]; exact hI.size_pos
  simp only [load_program, h1, bind_ok, ne_eq, hid, not_false_eq_true, if_true, hg, PROGRAM_ARRAY,
    hal]
  have hg0 : get_array 0
      { m with memory :=
        { m.memory with
          arrays := m.memory.arrays.set 0
            ⟨array_size m id, some (List.replicate (array_size m id) 0)⟩ } }
      = .ok ⟨array_size m id, some (List.replicate (array_size m id) 0)⟩ := by
    have hs0 : m.memory.size ≠ 0 := Nat.pos_iff_ne_zero.mp hI.size_pos
    simp only [get_array, if_neg hs0]
    rw [if_neg (by omega), List.getElem?_set_self h0]
  simp only [hg0, bind_ok, List.set_set]
  have htake : List.take (array_size m id) platters
      ++ List.drop (array_size m id) (List.replicate (array_size m id) 0) = platters := by
    rw [List.take_of_length_le (by omega), List.drop_of_length_le (by simp)]
    simp
  rw [htake]
  have hr : get_register s.c
      { m with memory :=
        { m.memory with
          arrays := m.memory.arrays.set 0 ⟨array_size m id, some platters⟩ } } false = .ok pc :=
    get_register_congr h2 rfl
  rw [hr, bind_ok]
  exact set_pc_eq _ pc hI.regs

/-- Loading an active array of no platter over an allocated program array
ends in the `realloc` of the program array to 0 bytes. -/
theorem load_program_null {s : StandardOperation} {m : Machine} (hI : Inv m) {id : Nat}
    (h1 : get_register s.b m false = .ok id) (hid : id ≠ 0) (ha : is_active m id = true)
    (hsz : array_size m id = 0) (h0 : content_at m 0 ≠ none) :
    load_program s m = fatal .ERR_OUT_OF_MEMORY
      { m with memory :=
        { m.memory with arrays := m.memory.arrays.set 0 ⟨array_size m 0, none⟩ } } := by
  obtain ⟨platters, _, _, _, hg⟩ := active_block hI ha
  have hal := allocate_memory_null m hI.arrays_len hI.size_pos h0
  simp only [load_program, h1, bind_ok, ne_eq, hid, not_false_eq_true, if_true, hg, PROGRAM_ARRAY,
    hsz, hal]
  rfl

theorem load_program_fatal {s : StandardOperation} {m : Machine} (hI : Inv m) {id : Nat}
    (h1 : get_register s.b m false = .ok id) (hid : id ≠ 0) (ha : is_active m id = false) :
    ∃ code, load_program s m = fatal code m := by
  by_cases hlt : id < m.memory.size
  · obtain ⟨a, _, _, hca, _, hg⟩ := slot_of_lt hI hlt
    have hn : a.content = none := by
      rcases is_active_eq_false.mp ha with h | h
      · omega
      · rw [← hca]; exact h
    refine ⟨.ERR_MEMORY_ACCESS_INVALID, ?_⟩
    simp only [load_program, h1, bind_ok, ne_eq, hid, not_false_eq_true, if_true, hg, hn]
    rfl
  · refine ⟨.ERR_OUT_OF_MEMORY, ?_⟩
    simp only [load_program, h1, bind_ok, ne_eq, hid, not_false_eq_true, if_true,
      get_array_of_ge hI (Nat.le_of_not_lt hlt)]
    rfl

theorem allocation_fresh {s : StandardOperation} {m : Machine} (hI : Inv m) {n : Nat}
    (hb : s.b < 8) (h1 : get_register s.c m false = .ok n) (hp : m.memory.pool_pointer = 0)
    (hs : m.memory.size < 4294967295) :
    allocation s m = .ok
      { m with
        memory :=
          { size := m.memory.size + 1
            arrays := m.memory.arrays ++ [⟨n, some (List.replicate n 0)⟩]
            pool := m.memory.pool ++ [0]
            pool_pointer := m.memory.pool_pointer }
        registers := m.registers.set s.b m.memory.size } := by
  simp only [allocation, h1, bind_ok, allocate_array_fresh hI n hp hs]
  exact set_register_eq _ _ _ hb hI.regs

/-- With an empty free-list and `0xFFFFFFFF` pool slots or more, the
allocation indexes `memory.arrays` beyond its end. -/
theorem allocation_wrap {s : StandardOperation} {m : Machine} (hI : Inv m) {n : Nat}
    (h1 : get_register s.c m false = .ok n) (hp : m.memory.pool_pointer = 0)
    (hs : 4294967295 ≤ m.memory.size) :
    allocation s m = .undefined := by
  simp only [allocation, h1, bind_ok, allocate_array_wrap hI n hp hs]
  rfl

theorem allocation_reuse {s : StandardOperation} {m : Machine} (hI : Inv m)
    (h0 : content_at m 0 ≠ none) {n : Nat}
    (hb : s.b < 8) (h1 : get_register s.c m false = .ok n) (hp : m.memory.pool_pointer ≠ 0) :
    ∃ id, m.memory.pool[m.memory.pool_pointer - 1]? = some id ∧ id ≠ 0 ∧ id < m.memory.size ∧
      content_at m id = none ∧
      allocation s m = .ok
        { m with
          memory :=
            { m.memory with
              arrays := m.memory.arrays.set id ⟨n, some (List.replicate n 0)⟩
              pool_pointer := m.memory.pool_pointer - 1 }
          registers := m.registers.set s.b id } := by
  obtain ⟨id, hid, hne, hlt, hc, hal⟩ := allocate_array_reuse hI h0 n hp
  refine ⟨id, hid, hne, hlt, hc, ?_⟩
  simp only [allocation, h1, bind_ok, hal]
  exact set_register_eq _ _ _ hb hI.regs

/-! ## The invariant under the operations that change the memory -/

theorem not_fatal_of_ok {α : Type} {r : Result α} {m : Machine} {v : α}
    (h : ∃ code, r = fatal code m) (hok : r = .ok v) : False := by
  obtain ⟨code, hc⟩ := h
  rw [hc] at hok
  exact fatal_ne_ok _ _ _ hok

theorem array_amendment_inv {s : StandardOperation} {m m' : Machine} (hI : Inv m)
    (ha : s.a < 8) (hb : s.b < 8) (hc : s.c < 8) (h : array_amendment s m = .ok m') :
    Inv m' := by
  have h1 := get_register_eq m s.a ha hI.regs
  have h2 := get_register_eq m s.b hb hI.regs
  have h3 := get_register_eq m s.c hc hI.regs
  by_cases hact : is_active m (m.registers.getD s.a 0) = true
  · by_cases ho : m.registers.getD s.b 0 < array_size m (m.registers.getD s.a 0)
    · obtain ⟨platters, hcp, hlen, heq⟩ := array_amendment_ok hI h1 h2 h3 hact ho
      rw [heq] at h
      injection h with h
      subst h
      refine hI.set_active (is_active_eq_true.mp hact).2 ?_ (by simp) rfl rfl rfl rfl rfl
      simp only [Array.wf, List.length_set]
      exact hlen
    · exact (not_fatal_of_ok (array_amendment_fatal hI h1 h2 (Or.inr (Nat.le_of_not_lt ho))) h).elim
  · exact (not_fatal_of_ok
      (array_amendment_fatal hI h1 h2 (Or.inl (Bool.not_eq_true _ ▸ hact))) h).elim


theorem allocation_inv {s : StandardOperation} {m m' : Machine} (hI : Inv m)
    (h0 : content_at m 0 ≠ none) (hb : s.b < 8) (hc : s.c < 8) (h : allocation s m = .ok m') :
    Inv m' := by
  have h3 := get_register_eq m s.c hc hI.regs
  by_cases hp : m.memory.pool_pointer = 0
  · by_cases hs : m.memory.size < 4294967295
    · rw [allocation_fresh hI hb h3 hp hs] at h
      injection h with h
      subst h
      exact hI.grow (replicate_wf _) (by simp) rfl rfl rfl rfl (by simp)
    · rw [allocation_wrap hI h3 hp (Nat.le_of_not_lt hs)] at h
      cases h
  · obtain ⟨id, hid, _, _, _, heq⟩ := allocation_reuse hI h0 hb h3 hp
    rw [heq] at h
    injection h with h
    subst h
    exact hI.reuse hp hid (replicate_wf _) (by simp) rfl rfl rfl rfl (by simp)

theorem abandoment_inv {s : StandardOperation} {m m' : Machine} (hI : Inv m)
    (hc : s.c < 8) (h : abandoment s m = .ok m') : Inv m' := by
  have h3 := get_register_eq m s.c hc hI.regs
  by_cases hact : is_active m (m.registers.getD s.c 0) = true
  · rw [abandoment_ok hI h3 hact] at h
    injection h with h
    subst h
    obtain ⟨hlt, hne⟩ := is_active_eq_true.mp hact
    exact hI.abandon hlt hne rfl rfl rfl rfl rfl
  · exact (not_fatal_of_ok (abandoment_fatal hI h3 (Bool.not_eq_true _ ▸ hact)) h).elim

theorem load_program_inv {s : StandardOperation} {m m' : Machine} (hI : Inv m)
    (h0 : content_at m 0 ≠ none) (hb : s.b < 8) (hc : s.c < 8)
    (h : load_program s m = .ok m') : Inv m' := by
  have h2 := get_register_eq m s.b hb hI.regs
  have h3 := get_register_eq m s.c hc hI.regs
  by_cases hid : m.registers.getD s.b 0 = 0
  · rw [hid] at h2
    rw [load_program_zero hI h2 h3] at h
    injection h with h
    subst h
    exact hI.of_memory_eq rfl (by simp)
  · by_cases hact : is_active m (m.registers.getD s.b 0) = true
    · by_cases hsz : array_size m (m.registers.getD s.b 0) = 0
      · rw [load_program_null hI h2 hid hact hsz h0] at h
        exact absurd h (fatal_ne_ok _ _ _)
      · obtain ⟨platters, _, hlen, heq⟩ := load_program_copy hI h2 h3 hid hact (Or.inr hsz)
        rw [heq] at h
        injection h with h
        subst h
        exact hI.set_active h0 (show Array.wf ⟨_, some platters⟩ from hlen) (by simp)
          rfl rfl rfl rfl (by simp)
    · exact (not_fatal_of_ok (load_program_fatal hI h2 hid (Bool.not_eq_true _ ▸ hact)) h).elim

/-! ## The invariant along the main loop -/

/-- An iteration of the main loop is a fetch followed by the handler of the
fetched operation. -/
theorem run_cycle_of_peek {m m1 : Machine} {op : Operation} (h : peek m = .ok (op, m1)) :
    run_cycle m = dispatch op m1 := by
  simp only [run_cycle, h, bind_ok]

theorem run_cycle_ok {m m' : Machine} (h : run_cycle m = .ok m') :
    ∃ op m1, peek m = .ok (op, m1) := by
  simp only [run_cycle, bind_eq_ok] at h
  obtain ⟨⟨op, m1⟩, hp, _⟩ := h
  exact ⟨op, m1, hp⟩

theorem handler_inv {op : Operation} {m1 m' : Machine} (hI : Inv m1)
    (h0 : content_at m1 0 ≠ none) (hop : ∃ word, op = int_to_operation word)
    (h : dispatch op m1 = .ok m') : Inv m' := by
  obtain ⟨word, hw⟩ := hop
  cases op with
  | standard s =>
    obtain ⟨hn, ha, hb, hc⟩ := int_to_operation_standard hw.symm
    obtain ⟨number, a, b, c⟩ := s
    simp only at hn ha hb hc
    simp only [dispatch, Operation.number] at h
    interval_cases number <;> simp only [opcodes_table, on_standard] at h
    · exact hI.of_memory_eq (conditional_move_memory h).1 (conditional_move_memory h).2
    · exact hI.of_memory_eq (array_index_memory h).1 (array_index_memory h).2
    · exact array_amendment_inv hI ha hb hc h
    · exact hI.of_memory_eq (addition_memory h).1 (addition_memory h).2
    · exact hI.of_memory_eq (multiplication_memory h).1 (multiplication_memory h).2
    · exact hI.of_memory_eq (division_memory h).1 (division_memory h).2
    · exact hI.of_memory_eq (not_and_memory h).1 (not_and_memory h).2
    · simp only [halt] at h; cases h
    · exact allocation_inv hI h0 hb hc h
    · exact abandoment_inv hI hc h
    · exact hI.of_memory_eq (output_memory h).1 (output_memory h).2
    · exact hI.of_memory_eq (input_memory h).1 (input_memory h).2
    · exact load_program_inv hI h0 hb hc h
  | put p =>
    obtain ⟨hn1, hn2, _, _⟩ := int_to_operation_put hw.symm
    obtain ⟨number, a, value⟩ := p
    simp only at hn1 hn2
    simp only [dispatch, Operation.number] at h
    interval_cases number <;> simp only [opcodes_table, on_put] at h
    · exact hI.of_memory_eq (ortography_memory h).1 (ortography_memory h).2
    · cases h
    · cases h

theorem run_cycle_inv {m m' : Machine} (hI : Inv m) (h : run_cycle m = .ok m') : Inv m' := by
  obtain ⟨op, m1, hp⟩ := run_cycle_ok h
  rw [run_cycle_of_peek hp] at h
  obtain ⟨hI1, _, h0, _, _, _, hop⟩ := peek_facts hI hp
  exact handler_inv hI1 h0 hop h

/-- Every state in which the main loop starts an iteration satisfies the invariant. -/
theorem reachable_inv {m : Machine} (h : Reachable m) : Inv m := by
  induction h with
  | startup file stdin m hs => exact startup_inv file stdin m hs
  | cycle m m' _ hc ih => exact run_cycle_inv ih hc

/-! ## Fetched operations -/

theorem get_register_set_self {m m' : Machine} {i v : Nat} (hi : i < 8)
    (hl : m.registers.length = REGISTERS_COUNT + EXTRA_REGISTERS)
    (hr : m'.registers = m.registers.set i v) :
    get_register i m' false = .ok v := by
  have hge : ¬ i ≥ GET_REGISTERS_COUNT false := by
    simp only [GET_REGISTERS_COUNT, REGISTERS_COUNT]; simp; omega
  have hlt : i < m.registers.length := by
    rw [hl]; simp only [REGISTERS_COUNT, EXTRA_REGISTERS]; omega
  simp only [get_register, if_neg hge, hr]
  rw [List.getElem?_set_self hlt]

theorem get_register_set_other {m m' : Machine} {i j v : Nat} (hi : i < 8) (hij : j ≠ i)
    (hr : m'.registers = m.registers.set j v) :
    get_register i m' false = get_register i m false := by
  have hge : ¬ i ≥ GET_REGISTERS_COUNT false := by
    simp only [GET_REGISTERS_COUNT, REGISTERS_COUNT]; simp; omega
  simp only [get_register, if_neg hge, hr]
  rw [List.getElem?_set_ne hij]

/-- The facts about a fetched standard operation used by the properties of
the single opcodes. -/
theorem fetch_standard {m m1 : Machine} {s : StandardOperation} (hr : Reachable m)
    (hf : peek m = .ok (.standard s, m1)) :
    Inv m ∧ Inv m1 ∧ content_at m 0 ≠ none ∧
      m1 = { m with registers := m.registers.set 8 (m.registers.getD 8 0 + 1) } ∧
      s.number < 13 ∧ s.a < 8 ∧ s.b < 8 ∧ s.c < 8 ∧
      run_cycle m = dispatch (.standard s) m1 := by
  have hI := reachable_inv hr
  obtain ⟨platters, word, h0, _, hop, hm1⟩ := peek_ok hI hf
  obtain ⟨hI1, _, _, _, _, _, _⟩ := peek_facts hI hf
  obtain ⟨hn, ha, hb, hc⟩ := int_to_operation_standard hop.symm
  refine ⟨hI, hI1, ?_, hm1, hn, ha, hb, hc, run_cycle_of_peek hf⟩
  rw [h0]; simp

/-! ## Runs of the main loop -/

theorem reachable_run_cycles {n : Nat} {m m' : Machine} (hr : Reachable m)
    (h : run_cycles n m = .ok m') : Reachable m' := by
  induction n generalizing m with
  | zero =>
    simp only [run_cycles] at h
    injection h with h
    subst h
    exact hr
  | succ k ih =>
    simp only [run_cycles, bind_eq_ok] at h
    obtain ⟨m1, h1, h2⟩ := h
    exact ih (Reachable.cycle m m1 hr h1) h2

theorem array_amendment_pool {s : StandardOperation} {m m' : Machine}
    (h : array_amendment s m = .ok m') :
    m'.memory.pool = m.memory.pool ∧ m'.memory.pool_pointer = m.memory.pool_pointer ∧
      m'.memory.size = m.memory.size := by
  simp only [array_amendment, bind_eq_ok] at h
  obtain ⟨index, -, array, -, location, -, h⟩ := h
  split at h
  · exact absurd h (fatal_ne_ok _ _ _)
  · simp only [bind_eq_ok] at h
    obtain ⟨value, -, h⟩ := h
    split at h
    · split at h
      · injection h with h
        subst h
        exact ⟨rfl, rfl, rfl⟩
      · cases h
    · cases h

theorem load_program_pool {s : StandardOperation} {m m' : Machine} (hI : Inv m)
    (hb : s.b < 8) (hc : s.c < 8) (h : load_program s m = .ok m') :
    m'.memory.pool = m.memory.pool ∧ m'.memory.pool_pointer = m.memory.pool_pointer ∧
      m'.memory.size = m.memory.size := by
  have h2 := get_register_eq m s.b hb hI.regs
  have h3 := get_register_eq m s.c hc hI.regs
  by_cases hid : m.registers.getD s.b 0 = 0
  · rw [hid] at h2
    rw [load_program_zero hI h2 h3] at h
    injection h with h
    subst h
    exact ⟨rfl, rfl, rfl⟩
  · by_cases hact : is_active m (m.registers.getD s.b 0) = true
    · by_cases hsz : content_at m 0 = none ∨ array_size m (m.registers.getD s.b 0) ≠ 0
      · obtain ⟨platters, _, _, heq⟩ := load_program_copy hI h2 h3 hid hact hsz
        rw [heq] at h
        injection h with h
        subst h
        exact ⟨rfl, rfl, rfl⟩
      · rw [not_or, not_not] at hsz
        rw [load_program_null hI h2 hid hact hsz.2 hsz.1] at h
        exact absurd h (fatal_ne_ok _ _ _)
    · exact (not_fatal_of_ok (load_program_fatal hI h2 hid (Bool.not_eq_true _ ▸ hact)) h).elim

/-- An iteration that executes neither allocation nor abandon leaves the
pool, its pointer and the number of slots as they were. -/
theorem quiet_cycle_pool {m m1 m' : Machine} {op : Operation} (hI : Inv m)
    (hf : peek m = .ok (op, m1)) (h8 : op.number ≠ 8) (h9 : op.number ≠ 9)
    (h : run_cycle m = .ok m') :
    m'.memory.pool = m.memory.pool ∧ m'.memory.pool_pointer = m.memory.pool_pointer ∧
      m'.memory.size = m.memory.size := by
  rw [run_cycle_of_peek hf] at h
  obtain ⟨hI1, hmem, _, _, _, _, word, hw⟩ := peek_facts hI hf
  rw [← hmem]
  have key : ∀ {x : Machine}, x.memory = m1.memory ∧ x.registers.length = m1.registers.length →
      x.memory.pool = m1.memory.pool ∧ x.memory.pool_pointer = m1.memory.pool_pointer ∧
        x.memory.size = m1.memory.size := by
    intro x hx
    rw [hx.1]
    exact ⟨rfl, rfl, rfl⟩
  cases op with
  | standard s =>
    obtain ⟨hn, ha, hb, hc⟩ := int_to_operation_standard hw.symm
    obtain ⟨number, a, b, c⟩ := s
    simp only at hn ha hb hc
    simp only [Operation.number] at h8 h9
    simp only [dispatch, Operation.number] at h
    interval_cases number <;> simp only [opcodes_table, on_standard] at h
    · exact key (conditional_move_memory h)
    · exact key (array_index_memory h)
    · exact array_amendment_pool h
    · exact key (addition_memory h)
    · exact key (multiplication_memory h)
    · exact key (division_memory h)
    · exact key (not_and_memory h)
    · simp only [halt] at h; cases h
    · exact absurd rfl h8
    · exact absurd rfl h9
    · exact key (output_memory h)
    · exact key (input_memory h)
    · exact load_program_pool hI1 hb hc h
  | put p =>
    obtain ⟨hn1, hn2, _, _⟩ := int_to_operation_put hw.symm
    obtain ⟨number, a, value⟩ := p
    simp only at hn1 hn2
    simp only [dispatch, Operation.number] at h
    interval_cases number <;> simp only [opcodes_table, on_put] at h
    · exact key (ortography_memory h)
    · cases h
    · cases h

theorem quiet_run_pool {m m' : Machine} (hr : Reachable m) (hq : QuietRun m m') :
    Reachable m' ∧ m'.memory.pool = m.memory.pool ∧
      m'.memory.pool_pointer = m.memory.pool_pointer ∧ m'.memory.size = m.memory.size := by
  induction hq with
  | refl => exact ⟨hr, rfl, rfl, rfl⟩
  | cycle m1 m2 m3 op _ hf h8 h9 hc ih =>
    obtain ⟨hr1, e1, e2, e3⟩ := ih
    obtain ⟨f1, f2, f3⟩ := quiet_cycle_pool (reachable_inv hr1) hf h8 h9 hc
    exact ⟨Reachable.cycle m1 m3 hr1 hc, f1.trans e1, f2.trans e2, f3.trans e3⟩

/-! ## Array index -/

theorem array_index_ok {s : StandardOperation} {m : Machine} (hI : Inv m) {id o : Nat}
    (ha : s.a < 8)
    (h2 : get_register s.b m false = .ok id) (h3 : get_register s.c m false = .ok o)
    (hact : is_active m id = true) (ho : o < array_size m id) :
    ∃ v, platter_at m id o = some v ∧
      array_index s m = .ok { m with registers := m.registers.set s.a v } := by
  obtain ⟨platters, v, hc, hv, hread⟩ := read_array_ok hI hact ho
  refine ⟨v, ?_, ?_⟩
  · simp only [platter_at, hc, hv]
  · simp only [array_index, h2, h3, hread, bind_ok]
    exact set_register_eq m s.a v ha hI.regs

theorem array_index_fatal {s : StandardOperation} {m : Machine} (hI : Inv m) {id o : Nat}
    (h2 : get_register s.b m false = .ok id) (h3 : get_register s.c m false = .ok o)
    (h : is_active m id = false ∨ array_size m id ≤ o) :
    ∃ code, array_index s m = fatal code m := by
  obtain ⟨code, hread⟩ := read_array_fatal hI h
  refine ⟨code, ?_⟩
  simp only [array_index, h2, h3, hread, bind_ok]
  rfl

theorem active_or_not (m : Machine) (id o : Nat) :
    (is_active m id = true ∧ o < array_size m id) ∨
      (is_active m id = false ∨ array_size m id ≤ o) := by
  by_cases h : is_active m id = true
  · by_cases ho : o < array_size m id
    · exact Or.inl ⟨h, ho⟩
    · exact Or.inr (Or.inr (Nat.le_of_not_lt ho))
  · exact Or.inr (Or.inl (Bool.not_eq_true _ ▸ h))

/-! ## Amendment and the program counter -/

theorem array_amendment_arrays {s : StandardOperation} {m m' : Machine}
    (h : array_amendment s m = .ok m') :
    ∃ index new, get_register s.a m false = .ok index ∧
      m'.memory.arrays = m.memory.arrays.set index new := by
  simp only [array_amendment, bind_eq_ok] at h
  obtain ⟨index, hi, array, -, location, -, h⟩ := h
  split at h
  · exact absurd h (fatal_ne_ok _ _ _)
  · simp only [bind_eq_ok] at h
    obtain ⟨value, -, h⟩ := h
    split at h
    · split at h
      · injection h with h
        subst h
        exact ⟨index, _, hi, rfl⟩
      · cases h
    · cases h

theorem get_pc_set_self {m m' : Machine} {v : Nat}
    (hl : m.registers.length = REGISTERS_COUNT + EXTRA_REGISTERS)
    (hr : m'.registers = m.registers.set 8 v) :
    get_register PC_REGISTER m' true = .ok v := by
  have hlt : 8 < m.registers.length := by
    rw [hl]; simp only [REGISTERS_COUNT, EXTRA_REGISTERS]; omega
  simp only [get_register, GET_REGISTERS_COUNT, REGISTERS_COUNT, EXTRA_REGISTERS, PC_REGISTER, hr]
  rw [List.getElem?_set_self hlt]
  simp

/-! ## Sample runs are reachable -/

theorem amend_before_allocation_reachable : Reachable amend_before_allocation :=
  reachable_run_cycles (n := 1) (Reachable.startup amend_file [] amend_start (by decide))
    (by decide)

theorem amend_before_amendment_reachable : Reachable amend_before_amendment :=
  reachable_run_cycles (n := 4) (Reachable.startup amend_file [] amend_start (by decide))
    (by decide)

theorem amend_before_index_reachable : Reachable amend_before_index :=
  reachable_run_cycles (n := 5) (Reachable.startup amend_file [] amend_start (by decide))
    (by decide)

theorem reuse_before_abandon_reachable : Reachable reuse_before_abandon :=
  reachable_run_cycles (n := 2) (Reachable.startup reuse_file [] reuse_start (by decide))
    (by decide)

theorem reuse_before_load_reachable : Reachable reuse_before_load :=
  reachable_run_cycles (n := 5) (Reachable.startup reuse_file [] reuse_start (by decide))
    (by decide)

/-! ## The claims -/

/-- C1 (evaluation at the failing input): the instruction `get 0 0 0`
(standard variant, opcode 1, A = B = C = 0) is encoded by `operation_to_int` as
the word 1, which `int_to_operation` decodes as opcode 0 with C = 1, not as the
instruction that was encoded. -/
theorem operation_to_int_not_inverse :
    operation_to_int (.standard ⟨1, 0, 0, 0⟩) = .word 1 ∧
      int_to_operation 1 = .standard ⟨0, 0, 0, 1⟩ ∧
      int_to_operation 1 ≠ .standard ⟨1, 0, 0, 0⟩ := by
  decide

/-- C2: for every 32-bit word `w`, `int_to_operation w` has opcode bits 31..28
of `w`; for an opcode of 0..12 it is the standard variant with A = bits 8..6,
B = bits 5..3, C = bits 2..0; for opcode 13 it is the put variant with
A = bits 27..25 and value = bits 24..0, a number below 2^25. -/
theorem int_to_operation_fields (w : Nat) (hw : w < 4294967296) :
    (int_to_operation w).number = bit_field w 31 28 ∧
    (bit_field w 31 28 ≤ 12 →
      int_to_operation w =
        .standard ⟨bit_field w 31 28, bit_field w 8 6, bit_field w 5 3, bit_field w 2 0⟩) ∧
    (bit_field w 31 28 = 13 →
      int_to_operation w = .put ⟨13, bit_field w 27 25, bit_field w 24 0⟩ ∧
        bit_field w 24 0 < 2 ^ 25) := by
  have h16 : w / 268435456 % 16 = w / 268435456 := Nat.mod_eq_of_lt (by omega)
  have hb : bit_field w 31 28 = w / 268435456 := by
    simp [bit_field, h16]
  have h1 : bit_field w 8 6 = w / 64 % 8 := by simp [bit_field]
  have h2 : bit_field w 5 3 = w / 8 % 8 := by simp [bit_field]
  have h3 : bit_field w 2 0 = w % 8 := by simp [bit_field]
  have h4 : bit_field w 27 25 = w / 33554432 % 8 := by simp [bit_field]
  have h5 : bit_field w 24 0 = w % 33554432 := by simp [bit_field]
  rw [hb, h1, h2, h3, h4, h5, int_to_operation_eq, h16]
  refine ⟨?_, ?_, ?_⟩
  · split <;> rfl
  · intro h
    rw [if_pos (by omega)]
  · intro h
    rw [if_neg (by omega), h]
    exact ⟨rfl, Nat.mod_lt _ (by norm_num)⟩

/-- Witness of C2 at the word `0xD2000005` (`put 1 5`). -/
theorem int_to_operation_fields_witness :
    3523215365 < 4294967296 ∧
    (int_to_operation 3523215365).number = bit_field 3523215365 31 28 ∧
    (bit_field 3523215365 31 28 ≤ 12 →
      int_to_operation 3523215365 =
        .standard ⟨bit_field 3523215365 31 28, bit_field 3523215365 8 6,
          bit_field 3523215365 5 3, bit_field 3523215365 2 0⟩) ∧
    (bit_field 3523215365 31 28 = 13 →
      int_to_operation 3523215365 =
          .put ⟨13, bit_field 3523215365 27 25, bit_field 3523215365 24 0⟩ ∧
        bit_field 3523215365 24 0 < 2 ^ 25) :=
  ⟨by decide, int_to_operation_fields 3523215365 (by decide)⟩

/-- C3 (amended): in every reachable state whose free-list is not empty or
whose number of pool slots is below `0xFFFFFFFF`, an iteration that fetches
the allocation opcode with `R[C] = n` returns, and leaves in `R[B]` an
identifier `id` that is not 0 and was not active before; array `id` is active
afterwards with exactly `n` platters, all 0; every other slot (array 0
included) is as before. -/
theorem allocation_gives_fresh_zeroed_array (m m1 : Machine) (s : StandardOperation) (n : Nat)
    (hr : Reachable m) (hf : peek m = .ok (.standard s, m1)) (hop : s.number = 8)
    (hn : get_register s.c m false = .ok n)
    (hs : m.memory.pool_pointer ≠ 0 ∨ m.memory.size < 4294967295) :
    ∃ id m', run_cycle m = .ok m' ∧ get_register s.b m' false = .ok id ∧ id ≠ 0 ∧
      is_active m id = false ∧ is_active m' id = true ∧ array_size m' id = n ∧
      content_at m' id = some (List.replicate n 0) ∧
      ∀ j, j ≠ id → m'.memory.arrays[j]? = m.memory.arrays[j]? := by
  obtain ⟨hI, hI1, h0, hm1, _, _, hb, hc, hrun⟩ := fetch_standard hr hf
  obtain ⟨number, a, b, c⟩ := s
  simp only at hop hb hc hn
  subst hop
  have hn1 : get_register c m1 false = .ok n := by
    rw [hm1, get_register_set_pc m c _ hc]; exact hn
  have h01 : content_at m1 0 ≠ none := by rw [hm1]; exact h0
  have hd : dispatch (.standard ⟨8, a, b, c⟩) m1 = allocation ⟨8, a, b, c⟩ m1 := rfl
  rw [hd] at hrun
  have hmem : m1.memory = m.memory := by rw [hm1]
  by_cases hp : m1.memory.pool_pointer = 0
  · have hs1 : m1.memory.size < 4294967295 := by
      rcases hs with h | h
      · exact absurd (by rw [← hmem]; exact hp) h
      · rw [hmem]; exact h
    have heq := allocation_fresh (s := ⟨8, a, b, c⟩) hI1 hb hn1 hp hs1
    rw [← hrun] at heq
    have hlen : m.memory.arrays.length = m.memory.size := hI.arrays_len
    refine ⟨m.memory.size, _, heq, ?_, ?_, ?_, ?_, ?_, ?_, ?_⟩
    · rw [hmem]
      exact get_register_set_self (m := m1) hb hI1.regs rfl
    · exact Nat.pos_iff_ne_zero.mp hI.size_pos
    · exact is_active_eq_false.mpr (Or.inl (Nat.le_refl _))
    · rw [is_active_eq_true]
      simp only [content_at, hmem]
      rw [List.getElem?_append_right (by rw [hlen]), hlen]
      simp
    · simp only [array_size, hmem]
      rw [List.getElem?_append_right (by rw [hlen]), hlen]
      simp
    · simp only [content_at, hmem]
      rw [List.getElem?_append_right (by rw [hlen]), hlen]
      simp
    · intro j hj
      simp only [hmem]
      by_cases hlt : j < m.memory.size
      · rw [List.getElem?_append_left (by rw [hlen]; exact hlt)]
      · rw [List.getElem?_eq_none (by simp [hlen]; omega),
          List.getElem?_eq_none (by rw [hlen]; omega)]
  · obtain ⟨id, _, hne, hlt, hcn, heq⟩ := allocation_reuse (s := ⟨8, a, b, c⟩) hI1 h01 hb hn1 hp
    rw [← hrun] at heq
    have hlen : id < m.memory.arrays.length := by
      rw [hI.arrays_len, ← hmem]; exact hlt
    refine ⟨id, _, heq, ?_, hne, ?_, ?_, ?_, ?_, ?_⟩
    · exact get_register_set_self (m := m1) hb hI1.regs rfl
    · rw [is_active_eq_false]
      right
      rw [← hcn, hm1]
      rfl
    · rw [is_active_eq_true]
      simp only [content_at, hmem]
      rw [List.getElem?_set_self hlen]
      exact ⟨by rw [← hmem]; exact hlt, by simp⟩
    · simp only [array_size, hmem]
      rw [List.getElem?_set_self hlen]
    · simp only [content_at, hmem]
      rw [List.getElem?_set_self hlen]
    · intro j hj
      simp only [hmem]
      rw [List.getElem?_set_ne (Ne.symm hj)]

/-- Witness of C3 on the run of `amend_file`: the allocation fetched after one
iteration, with `R[C] = R0 = 4` and `B = 1`, in a state with one pool slot. -/
theorem allocation_gives_fresh_zeroed_array_witness :
    Reachable amend_before_allocation ∧ amend_before_allocation.memory.size < 4294967295 ∧
    ∃ id m', run_cycle amend_before_allocation = .ok m' ∧
      get_register 1 m' false = .ok id ∧ id ≠ 0 ∧
      is_active amend_before_allocation id = false ∧ is_active m' id = true ∧
      array_size m' id = 4 ∧ content_at m' id = some (List.replicate 4 0) ∧
      ∀ j, j ≠ id → m'.memory.arrays[j]? = amend_before_allocation.memory.arrays[j]? :=
  ⟨amend_before_allocation_reachable, by decide,
    allocation_gives_fresh_zeroed_array amend_before_allocation
      { amend_before_allocation with registers := [4, 0, 0, 0, 0, 0, 0, 0, 2] }
      ⟨8, 0, 1, 0⟩ 4 amend_before_allocation_reachable (by decide) rfl (by decide)
      (Or.inr (by decide))⟩

/-- C4: in every reachable state, an iteration that fetches the abandon opcode
with `R[C] = id`, for an active identifier `id` other than 0, returns and
leaves `id` inactive; and after any further iterations that execute neither
allocation nor abandon, an iteration that fetches the allocation opcode (with
whatever size) returns with `R[B] = id` and the same number of pool slots. -/
theorem abandon_then_allocation_reuses (m m1 : Machine) (s : StandardOperation) (id : Nat)
    (hr : Reachable m) (hf : peek m = .ok (.standard s, m1)) (hop : s.number = 9)
    (hid : get_register s.c m false = .ok id) (_hne : id ≠ 0) (hact : is_active m id = true) :
    ∃ m2, run_cycle m = .ok m2 ∧ is_active m2 id = false ∧
      ∀ m3, QuietRun m2 m3 → ∀ t m4, peek m3 = .ok (.standard t, m4) → t.number = 8 →
        ∃ m5, run_cycle m3 = .ok m5 ∧ get_register t.b m5 false = .ok id ∧
          m5.memory.size = m3.memory.size := by
  obtain ⟨hI, hI1, h0, hm1, _, _, hb, hc, hrun⟩ := fetch_standard hr hf
  obtain ⟨number, a, b, c⟩ := s
  simp only at hop hb hc hid
  subst hop
  have hid1 : get_register c m1 false = .ok id := by
    rw [hm1, get_register_set_pc m c _ hc]; exact hid
  have hact1 : is_active m1 id = true := by rw [hm1]; exact hact
  have hd : dispatch (.standard ⟨9, a, b, c⟩) m1 = abandoment ⟨9, a, b, c⟩ m1 := rfl
  rw [hd, abandoment_ok hI1 hid1 hact1] at hrun
  obtain ⟨hlt, hcn⟩ := is_active_eq_true.mp hact1
  have hpl := pointer_lt_of_active hI1 hlt hcn
  have hlen : id < m1.memory.arrays.length := by rw [hI1.arrays_len]; exact hlt
  refine ⟨_, hrun, ?_, ?_⟩
  · rw [is_active_eq_false]
    right
    simp only [content_at]
    rw [List.getElem?_set_self hlen]
  · intro m3 hq t m4 hf3 ht
    have hr2 : Reachable _ := Reachable.cycle m _ hr hrun
    obtain ⟨hr3, e1, e2, e3⟩ := quiet_run_pool hr2 hq
    simp only at e1 e2 e3
    obtain ⟨hI3, hI4, h03, hm4, _, _, htb, htc, hrun3⟩ := fetch_standard hr3 hf3
    obtain ⟨tn, ta, tb, tc⟩ := t
    simp only at ht htb htc
    subst ht
    have hd3 : dispatch (.standard ⟨8, ta, tb, tc⟩) m4 = allocation ⟨8, ta, tb, tc⟩ m4 := rfl
    have hmem4 : m4.memory = m3.memory := by rw [hm4]
    have h04 : content_at m4 0 ≠ none := by rw [hm4]; exact h03
    have hp4 : m4.memory.pool_pointer ≠ 0 := by rw [hmem4, e2]; omega
    have hn4 := get_register_eq m4 tc htc hI4.regs
    obtain ⟨id', hid', _, _, _, heq⟩ :=
      allocation_reuse (s := ⟨8, ta, tb, tc⟩) hI4 h04 htb hn4 hp4
    have hsame : id' = id := by
      rw [hmem4, e1, e2] at hid'
      simp only [Nat.add_sub_cancel] at hid'
      rw [List.getElem?_set_self (by rw [hI1.pool_len]; exact hpl)] at hid'
      injection hid' with hid'
      exact hid'.symm
    rw [hsame] at heq
    rw [hd3, heq] at hrun3
    refine ⟨_, hrun3, ?_, ?_⟩
    · exact get_register_set_self (m := m4) htb hI4.regs rfl
    · simp only [hmem4]

/-- Witness of C4 on the run of `reuse_file`: array 1 is abandoned, `put 3 7`
runs, and the allocation that follows puts 1 in `R2` with two pool slots as
before. -/
theorem abandon_then_allocation_reuses_witness :
    Reachable reuse_before_abandon ∧ is_active reuse_before_abandon 1 = true ∧
    ∃ m5, run_cycle reuse_before_allocation = .ok m5 ∧ get_register 2 m5 false = .ok 1 ∧
      m5.memory.size = reuse_before_allocation.memory.size := by
  obtain ⟨m2, h2, _, hall⟩ := abandon_then_allocation_reuses reuse_before_abandon
    { reuse_before_abandon with registers := [1, 1, 0, 0, 0, 0, 0, 0, 3] }
    ⟨9, 0, 0, 1⟩ 1 reuse_before_abandon_reachable (by decide) rfl (by decide) (by decide)
    (by decide)
  have hrun : run_cycle reuse_before_abandon = .ok reuse_after_abandon := by decide
  rw [hrun] at h2
  injection h2 with h2
  subst h2
  have hq : QuietRun reuse_after_abandon reuse_before_allocation :=
    QuietRun.cycle reuse_after_abandon reuse_after_abandon
      { reuse_after_abandon with registers := [1, 1, 0, 0, 0, 0, 0, 0, 4] }
      reuse_before_allocation (.put ⟨13, 3, 7⟩) (QuietRun.refl _) (by decide) (by decide)
      (by decide) (by decide)
  exact ⟨reuse_before_abandon_reachable, by decide,
    hall reuse_before_allocation hq ⟨8, 0, 2, 0⟩
      { reuse_before_allocation with registers := [1, 1, 0, 7, 0, 0, 0, 0, 5] } (by decide) rfl⟩

/-- C5 (evaluation at the failing input): for the program file `90 00 00 00`
the first iteration fetches `abandon (C = 0)` with `R0 = 0`; it is not fatal
but returns, with array 0 released and 0 pushed on the free-list; the machine
only stops at the next fetch, with the program-ran-off-end kind. -/
theorem abandon_of_array_zero_returns :
    startup [144, 0, 0, 0] [] = .ok abandon_zero_start ∧
    peek abandon_zero_start = .ok (.standard ⟨9, 0, 0, 0⟩,
      { abandon_zero_start with registers := [0, 0, 0, 0, 0, 0, 0, 0, 1] }) ∧
    get_register 0 abandon_zero_start false = .ok 0 ∧
    run_cycle abandon_zero_start = .ok abandon_zero_after ∧
    free_list abandon_zero_after = [0] ∧
    run_cycle abandon_zero_after =
      .fatal .ERR_PROGRAM_EXECUTION_ENDED_UNEXPECTEDLY (dump_memory abandon_zero_after) := by
  decide

/-- C6 (evaluation at the failing input): the state left by `abandon (C = 0)`
in the run of the program file `90 00 00 00` is reachable, and in it
identifier 0 does not refer to an allocated array. -/
theorem program_array_unallocated_after_abandon :
    Reachable abandon_zero_after ∧ is_active abandon_zero_after 0 = false ∧
      content_at abandon_zero_after 0 = none :=
  ⟨Reachable.cycle abandon_zero_start abandon_zero_after
      (Reachable.startup [144, 0, 0, 0] [] abandon_zero_start (by decide)) (by decide),
    by decide, by decide⟩

/-- C7: in every reachable state, an iteration that fetches array-index
(reading array `id = R[B]` at `o = R[C]`) or array-amendment (writing array
`id = R[A]` at `o = R[B]`) ends in a fatal exit if and only if `id` is not
active or `o` is not below the size of array `id`; otherwise array-index
returns with the platter stored at `(id, o)` in `R[A]`, and array-amendment
returns. -/
theorem array_access_fatal_iff (m m1 : Machine) (s : StandardOperation) (hr : Reachable m)
    (hf : peek m = .ok (.standard s, m1)) :
    (s.number = 1 → ∀ id o, get_register s.b m false = .ok id →
      get_register s.c m false = .ok o →
        ((∃ code mf, run_cycle m = .fatal code mf) ↔
          (is_active m id = false ∨ array_size m id ≤ o)) ∧
        (is_active m id = true → o < array_size m id →
          ∃ v m', platter_at m id o = some v ∧ run_cycle m = .ok m' ∧
            get_register s.a m' false = .ok v)) ∧
    (s.number = 2 → ∀ id o, get_register s.a m false = .ok id →
      get_register s.b m false = .ok o →
        ((∃ code mf, run_cycle m = .fatal code mf) ↔
          (is_active m id = false ∨ array_size m id ≤ o)) ∧
        (is_active m id = true → o < array_size m id → ∃ m', run_cycle m = .ok m')) := by
  obtain ⟨hI, hI1, h0, hm1, _, ha, hb, hc, hrun⟩ := fetch_standard hr hf
  obtain ⟨number, a, b, c⟩ := s
  simp only at ha hb hc
  have hreg : ∀ i v, i < 8 → get_register i m false = .ok v →
      get_register i m1 false = .ok v := by
    intro i v hi hv
    rw [hm1, get_register_set_pc m i _ hi]; exact hv
  have hact : ∀ id, is_active m1 id = is_active m id := by intro id; rw [hm1]; rfl
  have hsize : ∀ id, array_size m1 id = array_size m id := by intro id; rw [hm1]; rfl
  have hplat : ∀ id o, platter_at m1 id o = platter_at m id o := by intro id o; rw [hm1]; rfl
  constructor
  · intro hop id o hid ho
    simp only at hop hid ho
    subst hop
    have hd : dispatch (.standard ⟨1, a, b, c⟩) m1 = array_index ⟨1, a, b, c⟩ m1 := rfl
    rw [hd] at hrun
    have hok : is_active m id = true → o < array_size m id →
        ∃ v m', platter_at m id o = some v ∧ run_cycle m = .ok m' ∧
          get_register a m' false = .ok v := by
      intro h1 h2
      obtain ⟨v, hv, heq⟩ := array_index_ok (s := ⟨1, a, b, c⟩) hI1 ha (hreg b id hb hid)
        (hreg c o hc ho) (by rw [hact]; exact h1) (by rw [hsize]; exact h2)
      rw [hplat] at hv
      refine ⟨v, _, hv, hrun.trans heq, ?_⟩
      exact get_register_set_self (m := m1) ha hI1.regs rfl
    refine ⟨⟨?_, ?_⟩, hok⟩
    · rintro ⟨code, mf, hfat⟩
      rcases active_or_not m id o with h | h
      · obtain ⟨_, _, _, hokk, _⟩ := hok h.1 h.2
        rw [hokk] at hfat
        cases hfat
      · exact h
    · intro h
      obtain ⟨code, hfat⟩ := array_index_fatal (s := ⟨1, a, b, c⟩) hI1 (hreg b id hb hid)
        (hreg c o hc ho) (by rw [hact, hsize]; exact h)
      exact ⟨code, _, hrun.trans hfat⟩
  · intro hop id o hid ho
    simp only at hop hid ho
    subst hop
    have hd : dispatch (.standard ⟨2, a, b, c⟩) m1 = array_amendment ⟨2, a, b, c⟩ m1 := rfl
    rw [hd] at hrun
    have hok : is_active m id = true → o < array_size m id → ∃ m', run_cycle m = .ok m' := by
      intro h1 h2
      obtain ⟨_, _, _, heq⟩ := array_amendment_ok (s := ⟨2, a, b, c⟩) hI1 (hreg a id ha hid)
        (hreg b o hb ho) (get_register_eq m1 c hc hI1.regs) (by rw [hact]; exact h1)
        (by rw [hsize]; exact h2)
      exact ⟨_, hrun.trans heq⟩
    refine ⟨⟨?_, ?_⟩, hok⟩
    · rintro ⟨code, mf, hfat⟩
      rcases active_or_not m id o with h | h
      · obtain ⟨_, hokk⟩ := hok h.1 h.2
        rw [hokk] at hfat
        cases hfat
      · exact h
    · intro h
      obtain ⟨code, hfat⟩ := array_amendment_fatal (s := ⟨2, a, b, c⟩) hI1 (hreg a id ha hid)
        (hreg b o hb ho) (by rw [hact, hsize]; exact h)
      exact ⟨code, _, hrun.trans hfat⟩

/-- Witness of C7 on the run of `amend_file`: the amendment of array 1 at
offset 0, fetched after four iterations, and the index of array 1 at offset 0,
fetched after five, which puts 42 in `R4`. -/
theorem array_access_fatal_iff_witness :
    Reachable amend_before_amendment ∧ Reachable amend_before_index ∧
    (((∃ code mf, run_cycle amend_before_amendment = .fatal code mf) ↔
        (is_active amend_before_amendment 1 = false ∨
          array_size amend_before_amendment 1 ≤ 0)) ∧
      (is_active amend_before_amendment 1 = true → 0 < array_size amend_before_amendment 1 →
        ∃ m', run_cycle amend_before_amendment = .ok m')) ∧
    (((∃ code mf, run_cycle amend_before_index = .fatal code mf) ↔
        (is_active amend_before_index 1 = false ∨ array_size amend_before_index 1 ≤ 0)) ∧
      (is_active amend_before_index 1 = true → 0 < array_size amend_before_index 1 →
        ∃ v m', platter_at amend_before_index 1 0 = some v ∧
          run_cycle amend_before_index = .ok m' ∧ get_register 4 m' false = .ok v)) :=
  ⟨amend_before_amendment_reachable, amend_before_index_reachable,
    (array_access_fatal_iff amend_before_amendment
      { amend_before_amendment with registers := [4, 1, 0, 42, 0, 0, 0, 0, 5] }
      ⟨2, 1, 2, 3⟩ amend_before_amendment_reachable (by decide)).2 rfl 1 0 (by decide)
      (by decide),
    (array_access_fatal_iff amend_before_index
      { amend_before_index with registers := [4, 1, 0, 42, 0, 0, 0, 0, 6] }
      ⟨1, 4, 1, 2⟩ amend_before_index_reachable (by decide)).1 rfl 1 0 (by decide)
      (by decide)⟩

/-- C8: in every reachable state, an iteration that fetches array-amendment
with `R[A] = id` active, `R[B] = o` below the size of array `id` and
`R[C] = v` returns; afterwards a read of `(id, o)`, by `read_array` or by the
array-index opcode, gives `v`; every other platter of every array is
unchanged; no array changes size; and the registers are those left by the
fetch, so that `R0..R7` are as before the iteration. -/
theorem amendment_then_index (m m1 : Machine) (s : StandardOperation) (id o v : Nat)
    (hr : Reachable m) (hf : peek m = .ok (.standard s, m1)) (hop : s.number = 2)
    (h1 : get_register s.a m false = .ok id) (h2 : get_register s.b m false = .ok o)
    (h3 : get_register s.c m false = .ok v)
    (hact : is_active m id = true) (ho : o < array_size m id) :
    ∃ m', run_cycle m = .ok m' ∧ read_array id o m' = .ok v ∧
      (∀ t : StandardOperation, t.a < 8 → get_register t.b m' false = .ok id →
        get_register t.c m' false = .ok o →
          ∃ m'', array_index t m' = .ok m'' ∧ get_register t.a m'' false = .ok v) ∧
      (∀ j k, j ≠ id ∨ k ≠ o → platter_at m' j k = platter_at m j k) ∧
      (∀ j, array_size m' j = array_size m j) ∧
      m'.registers = m1.registers ∧
      (∀ i, i < 8 → get_register i m' false = get_register i m false) := by
  obtain ⟨hI, hI1, h0, hm1, _, ha, hb, hc, hrun⟩ := fetch_standard hr hf
  obtain ⟨number, a, b, c⟩ := s
  simp only at hop ha hb hc h1 h2 h3
  subst hop
  have hreg : ∀ i w, i < 8 → get_register i m false = .ok w →
      get_register i m1 false = .ok w := by
    intro i w hi hv
    rw [hm1, get_register_set_pc m i _ hi]; exact hv
  have hact1 : is_active m1 id = true := by rw [hm1]; exact hact
  have ho1 : o < array_size m1 id := by rw [hm1]; exact ho
  have hd : dispatch (.standard ⟨2, a, b, c⟩) m1 = array_amendment ⟨2, a, b, c⟩ m1 := rfl
  obtain ⟨platters, hcp, hlen, heq⟩ := array_amendment_ok (s := ⟨2, a, b, c⟩) hI1
    (hreg a id ha h1) (hreg b o hb h2) (hreg c v hc h3) hact1 ho1
  obtain ⟨m', hm', heq'⟩ : ∃ m', m' = ({ m1 with memory :=
        { m1.memory with
          arrays := m1.memory.arrays.set id ⟨array_size m1 id, some (platters.set o v)⟩ } }
        : Machine) ∧ array_amendment ⟨2, a, b, c⟩ m1 = .ok m' := ⟨_, rfl, heq⟩
  rw [hd, heq'] at hrun
  have hI' := run_cycle_inv hI hrun
  have harr : m'.memory.arrays
      = m1.memory.arrays.set id ⟨array_size m1 id, some (platters.set o v)⟩ := by rw [hm']
  have hregs : m'.registers = m1.registers := by rw [hm']
  have hsize' : m'.memory.size = m1.memory.size := by rw [hm']
  obtain ⟨hlt, hcn⟩ := is_active_eq_true.mp hact1
  have hidl : id < m1.memory.arrays.length := by rw [hI1.arrays_len]; exact hlt
  have hol : o < platters.length := by rw [hlen]; exact ho1
  have hsz : ∀ j, array_size m' j = array_size m j := by
    intro j
    have e : array_size m j = array_size m1 j := by rw [hm1]; rfl
    rw [e]
    simp only [array_size, harr]
    by_cases hj : id = j
    · subst hj
      rw [List.getElem?_set_self hidl]
    · rw [List.getElem?_set_ne hj]
  have hcont : content_at m' id = some (platters.set o v) := by
    simp only [content_at, harr]
    rw [List.getElem?_set_self hidl]
  have hpl : platter_at m' id o = some v := by
    simp only [platter_at, hcont]
    rw [List.getElem?_set_self hol]
  have hact' : is_active m' id = true := by
    rw [is_active_eq_true, hsize', hcont]
    exact ⟨hlt, by simp⟩
  have ho' : o < array_size m' id := by
    rw [hsz]; exact ho
  refine ⟨m', hrun, ?_, ?_, ?_, hsz, hregs, ?_⟩
  · obtain ⟨p', v', hc', hv', hread⟩ := read_array_ok hI' hact' ho'
    have hp : platter_at m' id o = some v' := by
      simp only [platter_at, hc', hv']
    rw [hpl] at hp
    injection hp with hp
    rw [hp]
    exact hread
  · intro t hta htb htc
    obtain ⟨v', hv', hidx⟩ := array_index_ok hI' hta htb htc hact' ho'
    rw [hpl] at hv'
    injection hv' with hv'
    rw [← hv'] at hidx
    exact ⟨_, hidx, get_register_set_self hta hI'.regs rfl⟩
  · intro j k hjk
    have e : platter_at m j k = platter_at m1 j k := by rw [hm1]; rfl
    rw [e]
    by_cases hj : id = j
    · subst hj
      have hk : o ≠ k := by
        rcases hjk with h | h
        · exact absurd rfl h
        · exact Ne.symm h
      simp only [platter_at, hcont, hcp]
      rw [List.getElem?_set_ne hk]
    · have hcj : content_at m' j = content_at m1 j := by
        simp only [content_at, harr]
        rw [List.getElem?_set_ne hj]
      simp only [platter_at, hcj]
  · intro i hi
    refine get_register_set_other (m := m) (j := 8) (v := m.registers.getD 8 0 + 1) hi
      (by omega) ?_
    rw [hregs, hm1]

/-- Witness of C8 on the run of `amend_file`: 42 is stored at offset 0 of array 1. -/
theorem amendment_then_index_witness :
    Reachable amend_before_amendment ∧
    ∃ m', run_cycle amend_before_amendment = .ok m' ∧ read_array 1 0 m' = .ok 42 ∧
      (∀ t : StandardOperation, t.a < 8 → get_register t.b m' false = .ok 1 →
        get_register t.c m' false = .ok 0 →
          ∃ m'', array_index t m' = .ok m'' ∧ get_register t.a m'' false = .ok 42) ∧
      (∀ j k, j ≠ 1 ∨ k ≠ 0 → platter_at m' j k = platter_at amend_before_amendment j k) ∧
      (∀ j, array_size m' j = array_size amend_before_amendment j) ∧
      m'.registers = [4, 1, 0, 42, 0, 0, 0, 0, 5] ∧
      (∀ i, i < 8 → get_register i m' false = get_register i amend_before_amendment false) :=
  ⟨amend_before_amendment_reachable,
    amendment_then_index amend_before_amendment
      { amend_before_amendment with registers := [4, 1, 0, 42, 0, 0, 0, 0, 5] }
      ⟨2, 1, 2, 3⟩ 1 0 42 amend_before_amendment_reachable (by decide) rfl (by decide)
      (by decide) (by decide) (by decide) (by decide)⟩

/-- In every reachable state, an iteration that fetches load-program with
`R[B] = id` active, `id` being 0 or an array of at least one platter, and
`R[C] = pc` returns; afterwards array 0 has the size and the contents that
array `id` had before, every other slot is unchanged, and the program counter
is `pc`; when `id = 0` the whole memory is unchanged. -/
theorem load_program_copies (m m1 : Machine) (s : StandardOperation) (id pc : Nat)
    (hr : Reachable m) (hf : peek m = .ok (.standard s, m1)) (hop : s.number = 12)
    (h1 : get_register s.b m false = .ok id) (h2 : get_register s.c m false = .ok pc)
    (hact : is_active m id = true) (hne : id = 0 ∨ array_size m id ≠ 0) :
    ∃ m', run_cycle m = .ok m' ∧
      array_size m' 0 = array_size m id ∧ content_at m' 0 = content_at m id ∧
      (∀ j, j ≠ 0 → m'.memory.arrays[j]? = m.memory.arrays[j]?) ∧
      get_register PC_REGISTER m' true = .ok pc ∧
      (id = 0 → m'.memory = m.memory) := by
  obtain ⟨hI, hI1, h0, hm1, _, ha, hb, hc, hrun⟩ := fetch_standard hr hf
  obtain ⟨number, a, b, c⟩ := s
  simp only at hop ha hb hc h1 h2
  subst hop
  have hreg : ∀ i w, i < 8 → get_register i m false = .ok w →
      get_register i m1 false = .ok w := by
    intro i w hi hv
    rw [hm1, get_register_set_pc m i _ hi]; exact hv
  have hact1 : is_active m1 id = true := by rw [hm1]; exact hact
  have hd : dispatch (.standard ⟨12, a, b, c⟩) m1 = load_program ⟨12, a, b, c⟩ m1 := rfl
  rw [hd] at hrun
  have hmem : m1.memory = m.memory := by rw [hm1]
  have hsz : ∀ j, array_size m1 j = array_size m j := by intro j; rw [hm1]; rfl
  have hct : ∀ j, content_at m1 j = content_at m j := by intro j; rw [hm1]; rfl
  by_cases hid : id = 0
  · subst hid
    have heq := load_program_zero (s := ⟨12, a, b, c⟩) hI1 (hreg b 0 hb h1) (hreg c pc hc h2)
    rw [heq] at hrun
    refine ⟨_, hrun, hsz 0, hct 0, fun j _ => by rw [hmem], ?_, fun _ => hmem⟩
    exact get_pc_set_self (m := m1) hI1.regs rfl
  · have hne1 : array_size m1 id ≠ 0 := by
      rw [hsz]
      rcases hne with h | h
      · exact absurd h hid
      · exact h
    obtain ⟨platters, hcp, hlen, heq⟩ := load_program_copy (s := ⟨12, a, b, c⟩) hI1
      (hreg b id hb h1) (hreg c pc hc h2) hid hact1 (Or.inr hne1)
    rw [heq] at hrun
    have h0l : 0 < m1.memory.arrays.length := by rw [hI1.arrays_len]; exact hI1.size_pos
    refine ⟨_, hrun, ?_, ?_, ?_, ?_, fun h => absurd h hid⟩
    · simp only [array_size]
      rw [List.getElem?_set_self h0l]
      exact hsz id
    · rw [← hct, hcp]
      simp only [content_at]
      rw [List.getElem?_set_self h0l]
    · intro j hj
      simp only
      rw [List.getElem?_set_ne (Ne.symm hj), hmem]
    · exact get_pc_set_self (m := m1) hI1.regs rfl

/-- C9 (evaluation at the failing input): after `allocate (B = 1, C = 0)` with
`R0 = 0`, in a reachable state, array 1 is active and has no platter. The
iteration that fetches load-program with `R[B] = 1` does not return with
array 0 as a copy of array 1 and the program counter at `R[C]`: it exits with
the out-of-memory kind, the block of array 0 freed by the `realloc` to 0
bytes. The load of an array of one platter does return with the copy. -/
theorem load_of_empty_array_is_out_of_memory :
    Reachable empty_load_state ∧ is_active empty_load_state 1 = true ∧
    array_size empty_load_state 1 = 0 ∧
    peek empty_load_state
      = .ok (.standard ⟨12, 0, 1, 0⟩,
          { empty_load_state with registers := [0, 1, 0, 0, 0, 0, 0, 0, 2] }) ∧
    get_register 1 empty_load_state false = .ok 1 ∧
    run_cycle empty_load_state
      = .fatal .ERR_OUT_OF_MEMORY
          (dump_memory
            { empty_load_state with
              memory :=
                { size := 2
                  arrays := [⟨2, none⟩, ⟨0, some []⟩]
                  pool := [0, 0]
                  pool_pointer := 0 }
              registers := [0, 1, 0, 0, 0, 0, 0, 0, 2] }) ∧
    (Reachable reuse_before_load ∧ array_size reuse_before_load 1 = 1 ∧
      run_cycle reuse_before_load
        = .ok { reuse_before_load with
            memory :=
              { size := 2
                arrays := [⟨1, some [0]⟩, ⟨1, some [0]⟩]
                pool := [1, 0]
                pool_pointer := 0 }
            registers := [1, 1, 1, 7, 0, 0, 0, 0, 0] }) :=
  ⟨Reachable.cycle _ _
      (Reachable.startup empty_load_file [] (machine_with empty_load_words
        [0, 0, 0, 0, 0, 0, 0, 0, 0] []) (by decide)) (by decide),
    by decide, by decide, by decide, by decide, by decide,
    reuse_before_load_reachable, by decide, by decide⟩

/-- C10 (evaluation at the failing input): for the program file `E0 00 00 00`
the first iteration fetches a word of opcode 14; the iteration does not end in
the invalid-opcode exit, nor in any exit: after the diagnostic the handler table
is indexed outside its fourteen entries, which is undefined behaviour. -/
theorem invalid_opcode_is_dispatched :
    startup [224, 0, 0, 0] [] = .ok invalid_opcode_start ∧
    peek invalid_opcode_start = .ok (.put ⟨14, 0, 0⟩,
      { invalid_opcode_start with registers := [0, 0, 0, 0, 0, 0, 0, 0, 1] }) ∧
    run_cycle invalid_opcode_start = .undefined ∧
    run_cycle invalid_opcode_start ≠
      .fatal .ERR_INVALID_OPCODE
        (dump_memory { invalid_opcode_start with registers := [0, 0, 0, 0, 0, 0, 0, 0, 1] }) := by
  decide

/-! ## Fetch in an arbitrary state -/

theorem get_register_of_lt {m : Machine} {i : Nat} (hi : i < 8) (hl : i < m.registers.length) :
    get_register i m false = .ok (m.registers.getD i 0) := by
  simp [get_register, GET_REGISTERS_COUNT, REGISTERS_COUNT, Nat.not_le.mpr hi,
    List.getElem?_eq_getElem hl, List.getD_eq_getElem?_getD]

theorem set_register_of_lt {m : Machine} {i : Nat} (v : Nat) (hi : i < 8)
    (hl : i < m.registers.length) :
    set_register i v m false = .ok { m with registers := m.registers.set i v } := by
  simp [set_register, GET_REGISTERS_COUNT, REGISTERS_COUNT, Nat.not_le.mpr hi, hl]

theorem get_register_ok_lt {m : Machine} {i v : Nat} {e : Bool}
    (h : get_register i m e = .ok v) : i < m.registers.length ∧ m.registers[i]? = some v := by
  simp only [get_register] at h
  split at h
  · exact absurd h (fatal_ne_ok _ _ _)
  · split at h
    · next w hw =>
      injection h with h
      subst h
      exact ⟨(List.getElem?_eq_some.mp hw).1, hw⟩
    · cases h

/-- What a successful fetch is, in any state. -/
theorem peek_ok_any {m m1 : Machine} {op : Operation} (h : peek m = .ok (op, m1)) :
    ∃ pc word, get_register PC_REGISTER m true = .ok pc ∧ op = int_to_operation word ∧
      m1 = { m with registers := m.registers.set 8 (pc + 1) } := by
  simp only [peek, bind_eq_ok] at h
  obtain ⟨pc, hpc, program, -, h⟩ := h
  split at h
  · exact absurd h (fatal_ne_ok _ _ _)
  · split at h
    · split at h
      · next word _ =>
        simp only [bind_eq_ok] at h
        obtain ⟨m2, hset, h⟩ := h
        injection h with h
        injection h with h1 h2
        subst h2
        exact ⟨pc, word, hpc, h1.symm, set_register_ok hset⟩
      · cases h
    · cases h

/-- A fetched standard operation, in any state: its register indices are
below 8, the registers 0..7 can be read before and after the fetch with the
same result, and the iteration is the dispatch on the state left by the fetch. -/
theorem fetch_any {m m1 : Machine} {s : StandardOperation}
    (hf : peek m = .ok (.standard s, m1)) :
    s.number < 13 ∧ s.a < 8 ∧ s.b < 8 ∧ s.c < 8 ∧ 8 < m.registers.length ∧
      m1.registers.length = m.registers.length ∧ m1.memory = m.memory ∧
      m1.stdin = m.stdin ∧ m1.stdout = m.stdout ∧
      (∀ i, i < 8 → m1.registers[i]? = m.registers[i]?) ∧
      (∀ i v, i < 8 → get_register i m false = .ok v → get_register i m1 false = .ok v) ∧
      run_cycle m = dispatch (.standard s) m1 := by
  obtain ⟨pc, word, hpc, hop, hm1⟩ := peek_ok_any hf
  obtain ⟨hn, ha, hb, hc⟩ := int_to_operation_standard hop.symm
  have hl := (get_register_ok_lt hpc).1
  simp only [PC_REGISTER, REGISTERS_COUNT] at hl
  subst hm1
  refine ⟨hn, ha, hb, hc, hl, by simp, rfl, rfl, rfl, ?_, ?_, run_cycle_of_peek hf⟩
  · intro i hi
    simp only
    rw [List.getElem?_set_ne (by omega)]
  · intro i v hi hv
    rw [get_register_set_pc m i _ hi]
    exact hv

/-! ## Explicit forms of the arithmetic and stream operations -/

/-- The fetch of a given word of the program array. -/
theorem peek_at {m : Machine} {pc size word : Nat} {platters : List Nat}
    (h8 : m.registers[8]? = some pc) (hs : m.memory.size ≠ 0)
    (h0 : m.memory.arrays[0]? = some ⟨size, some platters⟩) (hlt : pc < size)
    (hw : platters[pc]? = some word) :
    peek m = .ok (int_to_operation word, { m with registers := m.registers.set 8 (pc + 1) }) := by
  have hl : 8 < m.registers.length := (List.getElem?_eq_some.mp h8).1
  have hg : get_register PC_REGISTER m true = .ok pc := by
    simp [get_register, GET_REGISTERS_COUNT, REGISTERS_COUNT, EXTRA_REGISTERS, PC_REGISTER, h8]
  have ha : get_array PROGRAM_ARRAY m = .ok ⟨size, some platters⟩ := by
    simp only [get_array, PROGRAM_ARRAY, if_neg hs, h0]
    rw [if_neg (by omega)]
  have hset : set_register PC_REGISTER (pc + 1) m true
      = .ok { m with registers := m.registers.set 8 (pc + 1) } := by
    simp [set_register, GET_REGISTERS_COUNT, REGISTERS_COUNT, EXTRA_REGISTERS, PC_REGISTER, hl]
  simp only [peek, hg, ha, bind_ok]
  rw [if_neg (by omega)]
  simp only [hw, hset, bind_ok]

theorem division_eq {s : StandardOperation} {m : Machine} {x y : Nat} (ha : s.a < 8)
    (hl : s.a < m.registers.length)
    (hx : get_register s.b m false = .ok x) (hy : get_register s.c m false = .ok y) :
    division s m =
      if y = 0 then .fatal .ERR_DIVISION_BY_ZERO { m with stdout := m.stdout ++ dump_banner }
      else .ok { m with registers := m.registers.set s.a (x / y) } := by
  simp only [division, hx, hy, bind_ok]
  split
  · rfl
  · exact set_register_of_lt _ ha hl

theorem addition_eq {s : StandardOperation} {m : Machine} {x y : Nat} (ha : s.a < 8)
    (hl : s.a < m.registers.length)
    (hx : get_register s.b m false = .ok x) (hy : get_register s.c m false = .ok y) :
    addition s m = .ok { m with registers := m.registers.set s.a ((x + y) % 4294967296) } := by
  simp only [addition, hx, hy, bind_ok]
  exact set_register_of_lt _ ha hl

theorem multiplication_eq {s : StandardOperation} {m : Machine} {x y : Nat} (ha : s.a < 8)
    (hl : s.a < m.registers.length)
    (hx : get_register s.b m false = .ok x) (hy : get_register s.c m false = .ok y) :
    multiplication s m =
      .ok { m with registers := m.registers.set s.a ((x * y) % 4294967296) } := by
  simp only [multiplication, hx, hy, bind_ok]
  exact set_register_of_lt _ ha hl

theorem not_and_eq {s : StandardOperation} {m : Machine} {x y : Nat} (ha : s.a < 8)
    (hl : s.a < m.registers.length)
    (hx : get_register s.b m false = .ok x) (hy : get_register s.c m false = .ok y) :
    not_and s m =
      .ok { m with registers := m.registers.set s.a (4294967295 - (x &&& y) % 4294967296) } := by
  simp only [not_and, hx, hy, bind_ok]
  exact set_register_of_lt _ ha hl

theorem output_eq {s : StandardOperation} {m : Machine} {v : Nat}
    (hv : get_register s.c m false = .ok v) :
    output s m = .ok { m with stdout := m.stdout ++ [v % 256] } := by
  simp only [output, hv, bind_ok]

theorem input_eq {s : StandardOperation} {m : Machine} (hc : s.c < 8)
    (hl : s.c < m.registers.length) :
    input s m = .ok
      { m with
        stdin := (getc m.stdin).2
        registers := m.registers.set s.c
          (if to_char (getc m.stdin).1 = -1 then 4294967295
            else (to_char (getc m.stdin).1 % 4294967296).toNat) } := by
  simp only [input]
  exact set_register_of_lt (m := { m with stdin := (getc m.stdin).2 }) _ hc hl

/-- The low byte of what `input` stores for a byte is the byte. -/
theorem input_low_byte (x : Nat) (h : x < 256) :
    (if to_char ((x % 256 : Nat) : Int) = -1 then 4294967295
      else (to_char ((x % 256 : Nat) : Int) % 4294967296).toNat) % 256 = x := by
  unfold to_char
  split <;> omega

/-! ## Bytes, bits and the free-list -/

/-- For four bytes, the sum formed by the loading loop is the bitwise or of
the shifted bytes, and fits in 32 bits. -/
theorem bytes_sum_eq_or {a b c d : Nat} (ha : a < 256) (hb : b < 256) (hc : c < 256)
    (hd : d < 256) :
    ((a <<< 24) + (b <<< 16) + (c <<< 8) + d) % 4294967296
      = (a <<< 24) ||| (b <<< 16) ||| (c <<< 8) ||| d := by
  have e1 : 2 ^ 8 * c + d = 2 ^ 8 * c ||| d := Nat.mul_add_lt_is_or (i := 8) (by omega) c
  have e2 : 2 ^ 16 * b + (2 ^ 8 * c + d) = 2 ^ 16 * b ||| (2 ^ 8 * c + d) :=
    Nat.mul_add_lt_is_or (i := 16) (by omega) b
  have e3 : 2 ^ 24 * a + (2 ^ 16 * b + (2 ^ 8 * c + d))
      = 2 ^ 24 * a ||| (2 ^ 16 * b + (2 ^ 8 * c + d)) :=
    Nat.mul_add_lt_is_or (i := 24) (by omega) a
  have hlt : (a <<< 24) + (b <<< 16) + (c <<< 8) + d < 4294967296 := by
    simp only [Nat.shiftLeft_eq]; omega
  rw [Nat.mod_eq_of_lt hlt]
  have hsum : (a <<< 24) + (b <<< 16) + (c <<< 8) + d
      = 2 ^ 24 * a + (2 ^ 16 * b + (2 ^ 8 * c + d)) := by
    simp only [Nat.shiftLeft_eq]; omega
  rw [hsum, e3, e2, e1]
  simp only [Nat.shiftLeft_eq, Nat.mul_comm, Nat.or_assoc]

theorem file_byte_eq {file : List Nat} (hbytes : ∀ b ∈ file, b < 256) {k : Nat}
    (hk : k < file.length) : file_byte file k = file.getD k 0 ∧ file.getD k 0 < 256 := by
  have hget : file[k]? = some file[k] := List.getElem?_eq_getElem hk
  have hlt : file[k] < 256 := hbytes _ (List.getElem_mem hk)
  have hD : file.getD k 0 = file[k] := by
    simp [List.getD_eq_getElem?_getD, hget]
  rw [hD]
  refine ⟨?_, hlt⟩
  simp only [file_byte, hget]
  exact Nat.mod_eq_of_lt hlt

/-- The complement formed by `not_and`, bit by bit. -/
theorem not_and_bits {x y : Nat} (hy : y < 4294967296) :
    4294967295 - (x &&& y) % 4294967296 = 4294967295 - (x &&& y) ∧
    4294967295 - (x &&& y) < 4294967296 ∧
    ∀ i, i < 32 → (4294967295 - (x &&& y)).testBit i = !(x.testBit i && y.testBit i) := by
  have hz : x &&& y < 2 ^ 32 := Nat.and_lt_two_pow x (by omega)
  have hz' : x &&& y < 4294967296 := by omega
  refine ⟨by rw [Nat.mod_eq_of_lt hz'], by omega, ?_⟩
  intro i hi
  have h := Nat.testBit_two_pow_sub_succ hz i
  have e : 2 ^ 32 - ((x &&& y) + 1) = 4294967295 - (x &&& y) := by omega
  rw [e] at h
  rw [h, Nat.testBit_and]
  simp [hi]

theorem free_list_eq_nil {m : Machine} (hI : Inv m) :
    free_list m = [] ↔ m.memory.pool_pointer = 0 := by
  have h := free_list_length hI
  constructor
  · intro hn
    rw [hn] at h
    exact h.symm
  · intro hp
    rw [hp] at h
    exact List.length_eq_zero.mp h

/-! ## The echo program -/

theorem echo_startup (stdin : List Nat) :
    startup echo_file stdin = .ok (machine_with echo_words [0, 0, 0, 0, 0, 0, 0, 0, 0] stdin) := by
  have h : (⟨echo_file.length % 4294967296 / 4,
      some ((List.range (echo_file.length % 4294967296 / 4)).map (file_word echo_file))⟩ : Array)
      = ⟨echo_words.length, some echo_words⟩ := by decide
  rw [startup_eq, h]
  rfl

theorem run_cycles_succ (n : Nat) (m : Machine) :
    run_cycles (n + 1) m = (run_cycle m).bind (run_cycles n) := rfl

/-- First iteration of the echo program: `input (C = 1)`. -/
theorem echo_cycle_input (x : Nat) (rest : List Nat) :
    run_cycle (machine_with echo_words [0, 0, 0, 0, 0, 0, 0, 0, 0] (x :: rest)) =
      .ok (machine_with echo_words
        [0, (if to_char ((x % 256 : Nat) : Int) = -1 then 4294967295
          else (to_char ((x % 256 : Nat) : Int) % 4294967296).toNat), 0, 0, 0, 0, 0, 0, 1]
        rest) := by
  have p : peek (machine_with echo_words [0, 0, 0, 0, 0, 0, 0, 0, 0] (x :: rest))
      = .ok (.standard ⟨11, 0, 0, 1⟩,
          machine_with echo_words [0, 0, 0, 0, 0, 0, 0, 0, 1] (x :: rest)) :=
    @peek_at _ 0 3 2952790017 echo_words
      rfl (show (1 : Nat) ≠ 0 by decide) rfl (by decide) rfl
  rw [run_cycle_of_peek p]
  exact input_eq (s := ⟨11, 0, 0, 1⟩)
    (m := machine_with echo_words [0, 0, 0, 0, 0, 0, 0, 0, 1] (x :: rest))
    (show 1 < 8 by decide) (show 1 < 9 by decide)

/-- Second iteration of the echo program: `output (C = 1)`. -/
theorem echo_cycle_output (v : Nat) (rest : List Nat) :
    run_cycle (machine_with echo_words [0, v, 0, 0, 0, 0, 0, 0, 1] rest) =
      .ok { machine_with echo_words [0, v, 0, 0, 0, 0, 0, 0, 2] rest with
        stdout := [v % 256] } := by
  have p : peek (machine_with echo_words [0, v, 0, 0, 0, 0, 0, 0, 1] rest)
      = .ok (.standard ⟨10, 0, 0, 1⟩, machine_with echo_words [0, v, 0, 0, 0, 0, 0, 0, 2] rest) :=
    @peek_at _ 1 3 2684354561 echo_words
      rfl (show (1 : Nat) ≠ 0 by decide) rfl (by decide) rfl
  rw [run_cycle_of_peek p]
  exact output_eq (s := ⟨10, 0, 0, 1⟩) (v := v)
    (get_register_of_lt (m := machine_with echo_words [0, v, 0, 0, 0, 0, 0, 0, 2] rest)
      (show 1 < 8 by decide) (show 1 < 9 by decide))

/-- Third iteration of the echo program: `halt`. -/
theorem echo_cycle_halt (v : Nat) (out rest : List Nat) :
    run_cycle { machine_with echo_words [0, v, 0, 0, 0, 0, 0, 0, 2] rest with stdout := out } =
      .halted { machine_with echo_words [0, v, 0, 0, 0, 0, 0, 0, 3] rest with stdout := out } := by
  have p : peek { machine_with echo_words [0, v, 0, 0, 0, 0, 0, 0, 2] rest with stdout := out }
      = .ok (.standard ⟨7, 0, 0, 0⟩,
          { machine_with echo_words [0, v, 0, 0, 0, 0, 0, 0, 3] rest with stdout := out }) :=
    @peek_at _ 2 3 1879048192 echo_words
      rfl (show (1 : Nat) ≠ 0 by decide) rfl (by decide) rfl
  rw [run_cycle_of_peek p]
  rfl

/-! ## The claims, continued -/

/-- C11 (counterexample): in the run of `put 1 10; put 2 0; div 0 1 2; halt`
the state that fetches the division is reachable, has `R2 = 0` and an empty
standard output; the iteration ends with the division-by-zero kind, but with
the line `***DUMPING MEMORY***` written to standard output. -/
theorem division_by_zero_writes_banner :
    Reachable division_by_zero_state ∧
    get_register 2 division_by_zero_state false = .ok 0 ∧
    division_by_zero_state.stdout = [] ∧
    run_cycle division_by_zero_state =
      .fatal .ERR_DIVISION_BY_ZERO
        { division_by_zero_state with
          registers := [0, 10, 0, 0, 0, 0, 0, 0, 3]
          stdout := dump_banner } ∧
    ¬ (∀ mf, run_cycle division_by_zero_state = .fatal .ERR_DIVISION_BY_ZERO mf →
        mf.stdout = division_by_zero_state.stdout) := by
  have hrun : run_cycle division_by_zero_state =
      .fatal .ERR_DIVISION_BY_ZERO
        { division_by_zero_state with
          registers := [0, 10, 0, 0, 0, 0, 0, 0, 3]
          stdout := dump_banner } := by decide
  refine ⟨?_, by decide, by decide, hrun, ?_⟩
  · exact reachable_run_cycles (n := 2)
      (Reachable.startup division_file [] (machine_with division_words [0, 0, 0, 0, 0, 0, 0, 0, 0] [])
        (by decide)) (by decide)
  · intro h
    have := h _ hrun
    revert this
    decide

/-- C11 (amended): in every state, an iteration that fetches the division
opcode with `R[B] = x` and `R[C] = y`: when `y ≠ 0`, returns with
`R[A] = x / y` (the floor of the quotient), the other registers as left by the
fetch (so `R0..R7` other than `R[A]` as before), and the memory and both
streams unchanged; when `y = 0`, ends with the division-by-zero kind, with
the registers as left by the fetch, the memory and the standard input
unchanged, and standard output extended by the banner of the memory dump and
by nothing else. -/
theorem division_quotient_or_fatal (m m1 : Machine) (s : StandardOperation) (x y : Nat)
    (hf : peek m = .ok (.standard s, m1)) (hop : s.number = 5)
    (hx : get_register s.b m false = .ok x) (hy : get_register s.c m false = .ok y) :
    (y ≠ 0 → ∃ m', run_cycle m = .ok m' ∧ get_register s.a m' false = .ok (x / y) ∧
      m'.registers = m1.registers.set s.a (x / y) ∧
      (∀ i, i < 8 → i ≠ s.a → m'.registers[i]? = m.registers[i]?) ∧
      m'.memory = m.memory ∧ m'.stdin = m.stdin ∧ m'.stdout = m.stdout) ∧
    (y = 0 → ∃ mf, run_cycle m = .fatal .ERR_DIVISION_BY_ZERO mf ∧
      mf.stdout = m.stdout ++ dump_banner ∧ mf.registers = m1.registers ∧
      (∀ i, i < 8 → mf.registers[i]? = m.registers[i]?) ∧
      mf.memory = m.memory ∧ mf.stdin = m.stdin) := by
  obtain ⟨_, ha, hb, hc, hl8, hlen, hmem, hin, hout, hregs, hget, hrun⟩ := fetch_any hf
  obtain ⟨number, a, b, c⟩ := s
  simp only at hop ha hb hc hx hy
  subst hop
  have hla : a < m1.registers.length := by rw [hlen]; omega
  have hd : dispatch (.standard ⟨5, a, b, c⟩) m1 = division ⟨5, a, b, c⟩ m1 := rfl
  rw [hd, division_eq (s := ⟨5, a, b, c⟩) ha hla (hget b x hb hx) (hget c y hc hy)] at hrun
  constructor
  · intro hy0
    rw [if_neg hy0] at hrun
    refine ⟨_, hrun, ?_, rfl, ?_, hmem, hin, hout⟩
    · simp only [get_register, GET_REGISTERS_COUNT, REGISTERS_COUNT]
      rw [if_neg (by simp; omega), List.getElem?_set_self hla]
    · intro i hi hia
      simp only
      rw [List.getElem?_set_ne (Ne.symm hia)]
      exact hregs i hi
  · intro hy0
    rw [if_pos hy0] at hrun
    refine ⟨_, hrun, ?_, rfl, hregs, hmem, hin⟩
    simp only [hout]

/-- Witness of C11 (amended): the division by zero of `division_by_zero_state`,
and the division of 10 by 3 in the same program with `R2 = 3`. -/
theorem division_quotient_or_fatal_witness :
    (∃ mf, run_cycle division_by_zero_state = .fatal .ERR_DIVISION_BY_ZERO mf ∧
      mf.stdout = division_by_zero_state.stdout ++ dump_banner ∧
      mf.registers = [0, 10, 0, 0, 0, 0, 0, 0, 3] ∧
      (∀ i, i < 8 → mf.registers[i]? = division_by_zero_state.registers[i]?) ∧
      mf.memory = division_by_zero_state.memory ∧ mf.stdin = division_by_zero_state.stdin) ∧
    (∃ m', run_cycle (machine_with division_words [0, 10, 3, 0, 0, 0, 0, 0, 2] []) = .ok m' ∧
      get_register 0 m' false = .ok (10 / 3) ∧
      m'.registers = [0, 10, 3, 0, 0, 0, 0, 0, 3].set 0 (10 / 3) ∧
      (∀ i, i < 8 → i ≠ 0 → m'.registers[i]? =
        (machine_with division_words [0, 10, 3, 0, 0, 0, 0, 0, 2] []).registers[i]?) ∧
      m'.memory = (machine_with division_words [0, 10, 3, 0, 0, 0, 0, 0, 2] []).memory ∧
      m'.stdin = [] ∧ m'.stdout = []) :=
  ⟨(division_quotient_or_fatal division_by_zero_state
      { division_by_zero_state with registers := [0, 10, 0, 0, 0, 0, 0, 0, 3] }
      ⟨5, 0, 1, 2⟩ 10 0 (by decide) rfl (by decide) (by decide)).2 rfl,
    (division_quotient_or_fatal (machine_with division_words [0, 10, 3, 0, 0, 0, 0, 0, 2] [])
      (machine_with division_words [0, 10, 3, 0, 0, 0, 0, 0, 3] [])
      ⟨5, 0, 1, 2⟩ 10 3 (by decide) rfl (by decide) (by decide)).1 (by decide)⟩

/-- C12 (evaluation at the failing input): for the program `input (C = 1)`
with the byte 200 on standard input, `R1` receives `0xFFFFFFC8`, not 200; with
the byte 255 on standard input, `R1` receives `0xFFFFFFFF`, the same value as
when standard input is at its end. -/
theorem input_sign_extends_byte :
    startup [176, 0, 0, 1] [200] =
      .ok (machine_with [2952790017] [0, 0, 0, 0, 0, 0, 0, 0, 0] [200]) ∧
    run_cycle (machine_with [2952790017] [0, 0, 0, 0, 0, 0, 0, 0, 0] [200]) =
      .ok (machine_with [2952790017] [0, 4294967240, 0, 0, 0, 0, 0, 0, 1] []) ∧
    run_cycle (machine_with [2952790017] [0, 0, 0, 0, 0, 0, 0, 0, 0] [255]) =
      .ok (machine_with [2952790017] [0, 4294967295, 0, 0, 0, 0, 0, 0, 1] []) ∧
    run_cycle (machine_with [2952790017] [0, 0, 0, 0, 0, 0, 0, 0, 0] []) =
      .ok (machine_with [2952790017] [0, 4294967295, 0, 0, 0, 0, 0, 0, 1] []) := by
  decide

/-- C13: in every state, an iteration that fetches the output opcode with
`R[C] = v`, for any `v`, returns; it appends the one byte `v mod 256` to
standard output, leaves the registers as the fetch left them (so `R0..R7` as
before), and leaves the memory and standard input unchanged. -/
theorem output_appends_low_byte (m m1 : Machine) (s : StandardOperation) (v : Nat)
    (hf : peek m = .ok (.standard s, m1)) (hop : s.number = 10)
    (hv : get_register s.c m false = .ok v) :
    ∃ m', run_cycle m = .ok m' ∧ m'.stdout = m.stdout ++ [v % 256] ∧
      m'.registers = m1.registers ∧ (∀ i, i < 8 → m'.registers[i]? = m.registers[i]?) ∧
      m'.memory = m.memory ∧ m'.stdin = m.stdin := by
  obtain ⟨_, _, _, hc, _, _, hmem, hin, hout, hregs, hget, hrun⟩ := fetch_any hf
  obtain ⟨number, a, b, c⟩ := s
  simp only at hop hc hv
  subst hop
  have hd : dispatch (.standard ⟨10, a, b, c⟩) m1 = output ⟨10, a, b, c⟩ m1 := rfl
  rw [hd, output_eq (s := ⟨10, a, b, c⟩) (hget c v hc hv)] at hrun
  refine ⟨_, hrun, ?_, rfl, hregs, hmem, hin⟩
  simp only [hout]

/-- Witness of C13: the program `output (C = 1)` with `R1 = 321`, which
writes the byte 65. -/
theorem output_appends_low_byte_witness :
    ∃ m', run_cycle (machine_with [2684354561] [0, 321, 0, 0, 0, 0, 0, 0, 0] []) = .ok m' ∧
      m'.stdout = [] ++ [321 % 256] ∧
      m'.registers = [0, 321, 0, 0, 0, 0, 0, 0, 1] ∧
      (∀ i, i < 8 → m'.registers[i]? =
        (machine_with [2684354561] [0, 321, 0, 0, 0, 0, 0, 0, 0] []).registers[i]?) ∧
      m'.memory = (machine_with [2684354561] [0, 321, 0, 0, 0, 0, 0, 0, 0] []).memory ∧
      m'.stdin = [] :=
  output_appends_low_byte (machine_with [2684354561] [0, 321, 0, 0, 0, 0, 0, 0, 0] [])
    (machine_with [2684354561] [0, 321, 0, 0, 0, 0, 0, 0, 1] []) ⟨10, 0, 0, 1⟩ 321
    (by decide) rfl (by decide)

/-- C14: for every byte `x` and every continuation `rest` of standard input,
the program `input (C = 1); output (C = 1); halt`, started on the standard
input `x :: rest`, ends at its third iteration by `halt` (exit code 0), with
exactly the byte `x` on standard output. -/
theorem echo_program_halts (x : Nat) (rest : List Nat) (hx : x < 256) :
    ∃ mf, (startup echo_file (x :: rest)).bind (run_cycles 3) = .halted mf ∧
      mf.stdout = [x] ∧ mf.stdin = rest := by
  have hv := input_low_byte x hx
  have c1 := echo_cycle_input x rest
  generalize (if to_char ((x % 256 : Nat) : Int) = -1 then 4294967295
    else (to_char ((x % 256 : Nat) : Int) % 4294967296).toNat) = v at hv c1
  refine ⟨{ machine_with echo_words [0, v, 0, 0, 0, 0, 0, 0, 3] rest with
    stdout := [v % 256] }, ?_, ?_, rfl⟩
  · rw [echo_startup, bind_ok, show (3 : Nat) = 2 + 1 from rfl, run_cycles_succ, c1, bind_ok,
      show (2 : Nat) = 1 + 1 from rfl, run_cycles_succ, echo_cycle_output, bind_ok,
      show (1 : Nat) = 0 + 1 from rfl, run_cycles_succ, echo_cycle_halt]
    rfl
  · simp only [hv]

/-- Witness of C14 for the byte 200 followed by the byte 7. -/
theorem echo_program_halts_witness :
    (200 : Nat) < 256 ∧
    ∃ mf, (startup echo_file (200 :: [7])).bind (run_cycles 3) = .halted mf ∧
      mf.stdout = [200] ∧ mf.stdin = [7] :=
  ⟨by decide, echo_program_halts 200 [7] (by decide)⟩

/-- C15 (evaluation at the failing input): the program file
`70 00 00 00 00`, of five bytes, is accepted at startup; its first four bytes
are loaded as the word `0x70000000`, and the first iteration executes `halt`. -/
theorem odd_sized_file_is_run :
    [112, 0, 0, 0, 0].length % 4 ≠ 0 ∧
    startup [112, 0, 0, 0, 0] [] =
      .ok (machine_with [1879048192] [0, 0, 0, 0, 0, 0, 0, 0, 0] []) ∧
    run_cycle (machine_with [1879048192] [0, 0, 0, 0, 0, 0, 0, 0, 0] []) =
      .halted (machine_with [1879048192] [0, 0, 0, 0, 0, 0, 0, 0, 1] []) := by
  decide

/-- A program file of exactly 2^32 bytes is loaded as an empty program. -/
theorem startup_of_huge_file (file stdin : List Nat) (h : file.length = 4294967296) :
    ∃ m, startup file stdin = .ok m ∧ array_size m 0 = 0 := by
  refine ⟨_, startup_eq file stdin, ?_⟩
  simp only [array_size, List.getElem?_cons_zero, h]

/-- C16 (counterexample): a program file of 2^32 zero bytes has 4n bytes for
n = 2^30, yet the machine at the first fetch has an array 0 of 0 platters: the
size of the file is held in a `uint32_t`. -/
theorem startup_truncates_file_size :
    (List.replicate 4294967296 0).length = 4 * 1073741824 ∧
    (∃ m, startup (List.replicate 4294967296 0) [] = .ok m ∧ array_size m 0 = 0) ∧
    (0 : Nat) ≠ 1073741824 :=
  ⟨List.length_replicate 4294967296 0,
    startup_of_huge_file (List.replicate 4294967296 0) [] (List.length_replicate 4294967296 0),
    by decide⟩

/-- C16 (amended): for every program file of 4n bytes, with 4n below 2^32,
the machine at the first fetch has an array 0 of exactly n platters, platter
`i` being `(b[4i] << 24) | (b[4i+1] << 16) | (b[4i+2] << 8) | b[4i+3]`; the
registers `R0..R7` and the program counter are 0, no other identifier is
active, the free-list is empty and nothing has been written or read. -/
theorem startup_loads_big_endian_words (file stdin : List Nat) (n : Nat)
    (hlen : file.length = 4 * n) (hsmall : file.length < 4294967296)
    (hbytes : ∀ b ∈ file, b < 256) :
    ∃ m platters, startup file stdin = .ok m ∧ array_size m 0 = n ∧
      content_at m 0 = some platters ∧ platters.length = n ∧
      (∀ i, i < n → platters[i]? = some
        ((file.getD (4 * i) 0 <<< 24) ||| (file.getD (4 * i + 1) 0 <<< 16)
          ||| (file.getD (4 * i + 2) 0 <<< 8) ||| file.getD (4 * i + 3) 0)) ∧
      m.registers = [0, 0, 0, 0, 0, 0, 0, 0, 0] ∧
      (∀ id, id ≠ 0 → is_active m id = false) ∧ free_list m = [] ∧
      m.stdin = stdin ∧ m.stdout = [] := by
  have hn : file.length % 4294967296 / 4 = n := by
    rw [Nat.mod_eq_of_lt hsmall, hlen]; omega
  refine ⟨_, (List.range n).map (file_word file), startup_eq file stdin, ?_, ?_, ?_, ?_, rfl,
    ?_, rfl, rfl, rfl⟩
  · simp only [array_size, List.getElem?_cons_zero, hn]
  · simp only [content_at, List.getElem?_cons_zero, hn]
  · simp
  · intro i hi
    rw [List.getElem?_map, List.getElem?_range hi]
    simp only [Option.map_some']
    obtain ⟨e0, l0⟩ := file_byte_eq hbytes (k := 4 * i) (by omega)
    obtain ⟨e1, l1⟩ := file_byte_eq hbytes (k := 4 * i + 1) (by omega)
    obtain ⟨e2, l2⟩ := file_byte_eq hbytes (k := 4 * i + 2) (by omega)
    obtain ⟨e3, l3⟩ := file_byte_eq hbytes (k := 4 * i + 3) (by omega)
    simp only [file_word, e0, e1, e2, e3]
    rw [bytes_sum_eq_or l0 l1 l2 l3]
  · intro id hid
    rw [is_active_eq_false]
    left
    show 1 ≤ id
    omega

/-- Witness of C16 (amended) on `amend_file`, a file of 28 bytes. -/
theorem startup_loads_big_endian_words_witness :
    amend_file.length = 4 * 7 ∧ amend_file.length < 4294967296 ∧
    (∀ b ∈ amend_file, b < 256) ∧
    ∃ m platters, startup amend_file [] = .ok m ∧ array_size m 0 = 7 ∧
      content_at m 0 = some platters ∧ platters.length = 7 ∧
      (∀ i, i < 7 → platters[i]? = some
        ((amend_file.getD (4 * i) 0 <<< 24) ||| (amend_file.getD (4 * i + 1) 0 <<< 16)
          ||| (amend_file.getD (4 * i + 2) 0 <<< 8) ||| amend_file.getD (4 * i + 3) 0)) ∧
      m.registers = [0, 0, 0, 0, 0, 0, 0, 0, 0] ∧
      (∀ id, id ≠ 0 → is_active m id = false) ∧ free_list m = [] ∧
      m.stdin = [] ∧ m.stdout = [] :=
  ⟨by decide, by decide, by decide,
    startup_loads_big_endian_words amend_file [] 7 (by decide) (by decide) (by decide)⟩

/-- C17: in every reachable state with program counter `pc`: if `pc` is not
below the size of array 0, the fetch ends with the program-ran-off-end kind
(whatever the platters are), and so does the iteration; otherwise the fetch
decodes the word stored at offset `pc` of array 0 and leaves the program
counter at `pc + 1`, and the iteration is the dispatch of that operation on
the state with the advanced counter; so a fetch that returns has read its word
at an offset below the size of array 0. -/
theorem fetch_checks_program_counter (m : Machine) (pc : Nat) (hr : Reachable m)
    (hpc : get_register PC_REGISTER m true = .ok pc) :
    (array_size m 0 ≤ pc →
      peek m = .fatal .ERR_PROGRAM_EXECUTION_ENDED_UNEXPECTEDLY (dump_memory m) ∧
      run_cycle m = .fatal .ERR_PROGRAM_EXECUTION_ENDED_UNEXPECTEDLY (dump_memory m)) ∧
    (pc < array_size m 0 → ∃ word, platter_at m 0 pc = some word ∧
      peek m = .ok (int_to_operation word, { m with registers := m.registers.set 8 (pc + 1) }) ∧
      get_register PC_REGISTER { m with registers := m.registers.set 8 (pc + 1) } true
        = .ok (pc + 1) ∧
      run_cycle m =
        dispatch (int_to_operation word) { m with registers := m.registers.set 8 (pc + 1) }) ∧
    (∀ op m1, peek m = .ok (op, m1) → pc < array_size m 0 ∧
      ∃ word, platter_at m 0 pc = some word ∧ op = int_to_operation word) := by
  have hI := reachable_inv hr
  obtain ⟨a, ha, _, hca, hsa, hga⟩ := slot_of_lt hI hI.size_pos
  have h8 := (get_register_ok_lt hpc).2
  simp only [PC_REGISTER, REGISTERS_COUNT] at h8
  have hfat : array_size m 0 ≤ pc →
      peek m = .fatal .ERR_PROGRAM_EXECUTION_ENDED_UNEXPECTEDLY (dump_memory m) := by
    intro hge
    simp only [peek, hpc, bind_ok, PROGRAM_ARRAY, hga]
    rw [if_pos (by rw [← hsa]; exact hge)]
    rfl
  have hok : pc < array_size m 0 → ∃ word, platter_at m 0 pc = some word ∧
      peek m = .ok (int_to_operation word,
        { m with registers := m.registers.set 8 (pc + 1) }) := by
    intro hlt
    have hact : is_active m 0 = true := by
      by_contra hna
      rw [inactive_size hI (Bool.not_eq_true _ ▸ hna)] at hlt
      omega
    obtain ⟨platters, hc, hlen, harr, _⟩ := active_block hI hact
    have hl : pc < platters.length := by omega
    refine ⟨platters[pc], ?_, ?_⟩
    · simp only [platter_at, hc, List.getElem?_eq_getElem hl]
    · exact peek_at h8 (Nat.pos_iff_ne_zero.mp hI.size_pos) harr hlt
        (List.getElem?_eq_getElem hl)
  refine ⟨?_, ?_, ?_⟩
  · intro hge
    refine ⟨hfat hge, ?_⟩
    simp only [run_cycle, hfat hge]
    rfl
  · intro hlt
    obtain ⟨word, hw, hp⟩ := hok hlt
    refine ⟨word, hw, hp, ?_, run_cycle_of_peek hp⟩
    exact get_pc_set_self (m := m) hI.regs rfl
  · intro op m1 hp
    by_cases hlt : pc < array_size m 0
    · obtain ⟨word, hw, hp'⟩ := hok hlt
      rw [hp'] at hp
      injection hp with hp
      injection hp with h1 _
      exact ⟨hlt, word, hw, h1.symm⟩
    · rw [hfat (Nat.le_of_not_lt hlt)] at hp
      cases hp

/-- Witness of C17: at the first fetch of `amend_file`, where the program
counter is 0 and array 0 has 7 platters; and in the state left by
`abandon (C = 0)`, where the program counter is 1 and array 0 has size 0. -/
theorem fetch_checks_program_counter_witness :
    Reachable amend_start ∧ get_register PC_REGISTER amend_start true = .ok 0 ∧
    (0 < array_size amend_start 0 → ∃ word, platter_at amend_start 0 0 = some word ∧
      peek amend_start = .ok (int_to_operation word,
        { amend_start with registers := amend_start.registers.set 8 (0 + 1) }) ∧
      get_register PC_REGISTER
        { amend_start with registers := amend_start.registers.set 8 (0 + 1) } true
        = .ok (0 + 1) ∧
      run_cycle amend_start =
        dispatch (int_to_operation word)
          { amend_start with registers := amend_start.registers.set 8 (0 + 1) }) ∧
    Reachable abandon_zero_after ∧
    peek abandon_zero_after =
      .fatal .ERR_PROGRAM_EXECUTION_ENDED_UNEXPECTEDLY (dump_memory abandon_zero_after) ∧
    run_cycle abandon_zero_after =
      .fatal .ERR_PROGRAM_EXECUTION_ENDED_UNEXPECTEDLY (dump_memory abandon_zero_after) :=
  have h1 : Reachable amend_start := Reachable.startup amend_file [] amend_start (by decide)
  have h2 : Reachable abandon_zero_after :=
    Reachable.cycle abandon_zero_start abandon_zero_after
      (Reachable.startup [144, 0, 0, 0] [] abandon_zero_start (by decide)) (by decide)
  ⟨h1, by decide, (fetch_checks_program_counter amend_start 0 h1 (by decide)).2.1, h2,
    (fetch_checks_program_counter abandon_zero_after 1 h2 (by decide)).1 (by decide)⟩

/-- C18: in every state, an iteration that fetches the addition opcode
(resp. the multiplication opcode) with `R[B] = x` and `R[C] = y` returns with
`R[A] = (x + y) mod 2^32` (resp. `(x * y) mod 2^32`), the other registers as
the fetch left them (so `R0..R7` other than `R[A]` as before) and the memory
and both streams unchanged; and the operation with `B` and `C` exchanged,
dispatched on the same state, has the same outcome. -/
theorem addition_multiplication_modular (m m1 : Machine) (s : StandardOperation) (x y : Nat)
    (hf : peek m = .ok (.standard s, m1))
    (hx : get_register s.b m false = .ok x) (hy : get_register s.c m false = .ok y) :
    (s.number = 3 → ∃ m', run_cycle m = .ok m' ∧
      get_register s.a m' false = .ok ((x + y) % 4294967296) ∧
      m'.registers = m1.registers.set s.a ((x + y) % 4294967296) ∧
      (∀ i, i < 8 → i ≠ s.a → m'.registers[i]? = m.registers[i]?) ∧
      m'.memory = m.memory ∧ m'.stdin = m.stdin ∧ m'.stdout = m.stdout ∧
      dispatch (.standard ⟨3, s.a, s.c, s.b⟩) m1 = dispatch (.standard ⟨3, s.a, s.b, s.c⟩) m1) ∧
    (s.number = 4 → ∃ m', run_cycle m = .ok m' ∧
      get_register s.a m' false = .ok ((x * y) % 4294967296) ∧
      m'.registers = m1.registers.set s.a ((x * y) % 4294967296) ∧
      (∀ i, i < 8 → i ≠ s.a → m'.registers[i]? = m.registers[i]?) ∧
      m'.memory = m.memory ∧ m'.stdin = m.stdin ∧ m'.stdout = m.stdout ∧
      dispatch (.standard ⟨4, s.a, s.c, s.b⟩) m1 = dispatch (.standard ⟨4, s.a, s.b, s.c⟩) m1) := by
  obtain ⟨_, ha, hb, hc, hl8, hlen, hmem, hin, hout, hregs, hget, hrun⟩ := fetch_any hf
  obtain ⟨number, a, b, c⟩ := s
  simp only at ha hb hc hx hy
  have hla : a < m1.registers.length := by rw [hlen]; omega
  have hx1 := hget b x hb hx
  have hy1 := hget c y hc hy
  have hself : ∀ v, get_register a { m1 with registers := m1.registers.set a v } false = .ok v := by
    intro v
    simp only [get_register, GET_REGISTERS_COUNT, REGISTERS_COUNT]
    rw [if_neg (by simp; omega), List.getElem?_set_self hla]
  have hother : ∀ v i, i < 8 → i ≠ a →
      ({ m1 with registers := m1.registers.set a v } : Machine).registers[i]? = m.registers[i]? := by
    intro v i hi hia
    simp only
    rw [List.getElem?_set_ne (Ne.symm hia)]
    exact hregs i hi
  constructor
  · intro hop
    simp only at hop
    subst hop
    have hd : dispatch (.standard ⟨3, a, b, c⟩) m1 = addition ⟨3, a, b, c⟩ m1 := rfl
    have hd' : dispatch (.standard ⟨3, a, c, b⟩) m1 = addition ⟨3, a, c, b⟩ m1 := rfl
    have e := addition_eq (s := ⟨3, a, b, c⟩) ha hla hx1 hy1
    have e' := addition_eq (s := ⟨3, a, c, b⟩) ha hla hy1 hx1
    rw [hd, e] at hrun
    refine ⟨_, hrun, hself _, rfl, hother _, hmem, hin, hout, ?_⟩
    rw [hd, hd', e, e', Nat.add_comm y x]
  · intro hop
    simp only at hop
    subst hop
    have hd : dispatch (.standard ⟨4, a, b, c⟩) m1 = multiplication ⟨4, a, b, c⟩ m1 := rfl
    have hd' : dispatch (.standard ⟨4, a, c, b⟩) m1 = multiplication ⟨4, a, c, b⟩ m1 := rfl
    have e := multiplication_eq (s := ⟨4, a, b, c⟩) ha hla hx1 hy1
    have e' := multiplication_eq (s := ⟨4, a, c, b⟩) ha hla hy1 hx1
    rw [hd, e] at hrun
    refine ⟨_, hrun, hself _, rfl, hother _, hmem, hin, hout, ?_⟩
    rw [hd, hd', e, e', Nat.mul_comm y x]

/-- Witness of C18: the addition of `addition_state` (5 + 7), and the
multiplication `mult (A = 0, B = 1, C = 2)` with `R1 = 65536` and
`R2 = 65537`, whose product wraps to 65536. -/
theorem addition_multiplication_modular_witness :
    (∃ m', run_cycle addition_state = .ok m' ∧
      get_register 0 m' false = .ok ((5 + 7) % 4294967296) ∧
      m'.registers = [0, 5, 7, 0, 0, 0, 0, 0, 3].set 0 ((5 + 7) % 4294967296) ∧
      (∀ i, i < 8 → i ≠ 0 → m'.registers[i]? = addition_state.registers[i]?) ∧
      m'.memory = addition_state.memory ∧ m'.stdin = addition_state.stdin ∧
      m'.stdout = addition_state.stdout ∧
      dispatch (.standard ⟨3, 0, 2, 1⟩)
          { addition_state with registers := [0, 5, 7, 0, 0, 0, 0, 0, 3] }
        = dispatch (.standard ⟨3, 0, 1, 2⟩)
          { addition_state with registers := [0, 5, 7, 0, 0, 0, 0, 0, 3] }) ∧
    (∃ m', run_cycle (machine_with [1073741834] [0, 65536, 65537, 0, 0, 0, 0, 0, 0] []) = .ok m' ∧
      get_register 0 m' false = .ok ((65536 * 65537) % 4294967296) ∧
      m'.registers = [0, 65536, 65537, 0, 0, 0, 0, 0, 1].set 0 ((65536 * 65537) % 4294967296) ∧
      (∀ i, i < 8 → i ≠ 0 → m'.registers[i]? =
        (machine_with [1073741834] [0, 65536, 65537, 0, 0, 0, 0, 0, 0] []).registers[i]?) ∧
      m'.memory = (machine_with [1073741834] [0, 65536, 65537, 0, 0, 0, 0, 0, 0] []).memory ∧
      m'.stdin = [] ∧ m'.stdout = [] ∧
      dispatch (.standard ⟨4, 0, 2, 1⟩)
          (machine_with [1073741834] [0, 65536, 65537, 0, 0, 0, 0, 0, 1] [])
        = dispatch (.standard ⟨4, 0, 1, 2⟩)
          (machine_with [1073741834] [0, 65536, 65537, 0, 0, 0, 0, 0, 1] [])) :=
  ⟨(addition_multiplication_modular addition_state
      { addition_state with registers := [0, 5, 7, 0, 0, 0, 0, 0, 3] }
      ⟨3, 0, 1, 2⟩ 5 7 (by decide) (by decide) (by decide)).1 rfl,
    (addition_multiplication_modular
      (machine_with [1073741834] [0, 65536, 65537, 0, 0, 0, 0, 0, 0] [])
      (machine_with [1073741834] [0, 65536, 65537, 0, 0, 0, 0, 0, 1] [])
      ⟨4, 0, 1, 2⟩ 65536 65537 (by decide) (by decide) (by decide)).2 rfl⟩

/-- C19: in every state, an iteration that fetches the NAND opcode with
32-bit values `R[B] = x` and `R[C] = y` returns with `R[A] = r`, where `r` is
the 32-bit complement of `x & y`: `r = 2^32 - 1 - (x & y)`, `r` is below 2^32
and bit `i` of `r`, for `i < 32`, is the negation of the conjunction of bit `i`
of `x` and bit `i` of `y`; with `B = C` bit `i` of `r` is the negation of bit
`i` of `x`; and a NAND of `R[A]` with itself, dispatched on the resulting
state into any register `D`, returns with `R[D] = x & y`. -/
theorem nand_is_complement_of_and (m m1 : Machine) (s : StandardOperation) (x y : Nat)
    (hf : peek m = .ok (.standard s, m1)) (hop : s.number = 6)
    (hx : get_register s.b m false = .ok x) (hy : get_register s.c m false = .ok y)
    (_hx32 : x < 4294967296) (hy32 : y < 4294967296) :
    ∃ r m', run_cycle m = .ok m' ∧ get_register s.a m' false = .ok r ∧
      r = 4294967295 - (x &&& y) ∧ r < 4294967296 ∧
      (∀ i, i < 32 → r.testBit i = !(x.testBit i && y.testBit i)) ∧
      (s.b = s.c → ∀ i, i < 32 → r.testBit i = !x.testBit i) ∧
      (∀ d, d < 8 → ∃ m'', dispatch (.standard ⟨6, d, s.a, s.a⟩) m' = .ok m'' ∧
        get_register d m'' false = .ok (x &&& y)) := by
  obtain ⟨_, ha, hb, hc, hl8, hlen, hmem, hin, hout, hregs, hget, hrun⟩ := fetch_any hf
  obtain ⟨number, a, b, c⟩ := s
  simp only at hop ha hb hc hx hy
  subst hop
  have hla : a < m1.registers.length := by rw [hlen]; omega
  obtain ⟨hmod, hr32, hbits⟩ := not_and_bits (x := x) hy32
  have hd : dispatch (.standard ⟨6, a, b, c⟩) m1 = not_and ⟨6, a, b, c⟩ m1 := rfl
  rw [hd, not_and_eq (s := ⟨6, a, b, c⟩) ha hla (hget b x hb hx) (hget c y hc hy), hmod] at hrun
  have hself : get_register a
      { m1 with registers := m1.registers.set a (4294967295 - (x &&& y)) } false
      = .ok (4294967295 - (x &&& y)) := by
    simp only [get_register, GET_REGISTERS_COUNT, REGISTERS_COUNT]
    rw [if_neg (by simp; omega), List.getElem?_set_self hla]
  refine ⟨_, _, hrun, hself, rfl, hr32, hbits, ?_, ?_⟩
  · intro hbc i hi
    simp only at hbc
    subst hbc
    rw [hx] at hy
    injection hy with hy
    subst hy
    rw [hbits i hi, Bool.and_self]
  · intro d hd8
    have hld : d < ({ m1 with registers := m1.registers.set a (4294967295 - (x &&& y)) }
        : Machine).registers.length := by
      simp only [List.length_set, hlen]; omega
    have hd2 : dispatch (.standard ⟨6, d, a, a⟩)
        { m1 with registers := m1.registers.set a (4294967295 - (x &&& y)) }
        = not_and ⟨6, d, a, a⟩
          { m1 with registers := m1.registers.set a (4294967295 - (x &&& y)) } := rfl
    rw [hd2, not_and_eq (s := ⟨6, d, a, a⟩) hd8 hld hself hself]
    have hz : x &&& y < 4294967296 := by
      have := Nat.and_lt_two_pow x (n := 32) (by omega : y < 2 ^ 32)
      omega
    have hval : 4294967295 - ((4294967295 - (x &&& y)) &&& (4294967295 - (x &&& y))) % 4294967296
        = x &&& y := by
      rw [Nat.and_self, Nat.mod_eq_of_lt hr32]
      omega
    rw [hval]
    refine ⟨_, rfl, ?_⟩
    simp only [get_register, GET_REGISTERS_COUNT, REGISTERS_COUNT]
    rw [if_neg (by simp; omega), List.getElem?_set_self (by simp only [List.length_set, hlen]; omega)]

/-- Witness of C19: the program word `nand (A = 0, B = 1, C = 2)` with
`R1 = 12` and `R2 = 10`. -/
theorem nand_is_complement_of_and_witness :
    (12 : Nat) < 4294967296 ∧ (10 : Nat) < 4294967296 ∧
    ∃ r m', run_cycle (machine_with [1610612746] [0, 12, 10, 0, 0, 0, 0, 0, 0] []) = .ok m' ∧
      get_register 0 m' false = .ok r ∧
      r = 4294967295 - (12 &&& 10) ∧ r < 4294967296 ∧
      (∀ i, i < 32 → r.testBit i = !(Nat.testBit 12 i && Nat.testBit 10 i)) ∧
      (1 = 2 → ∀ i, i < 32 → r.testBit i = !Nat.testBit 12 i) ∧
      (∀ d, d < 8 → ∃ m'', dispatch (.standard ⟨6, d, 0, 0⟩) m' = .ok m'' ∧
        get_register d m'' false = .ok (12 &&& 10)) :=
  ⟨by decide, by decide,
    nand_is_complement_of_and (machine_with [1610612746] [0, 12, 10, 0, 0, 0, 0, 0, 0] [])
      (machine_with [1610612746] [0, 12, 10, 0, 0, 0, 0, 0, 1] []) ⟨6, 0, 1, 2⟩ 12 10
      (by decide) rfl (by decide) (by decide) (by decide) (by decide)⟩

/-- C20 (amended): in every reachable state whose free-list is empty and
whose number of pool slots is below `0xFFFFFFFF`, an iteration that fetches
the allocation opcode returns with `R[B]` equal to the number of pool slots
before the iteration, an identifier that was not active and is active
afterwards; the pool has exactly one more slot afterwards; and the scan for an
unallocated slot below the number of slots finds none. -/
theorem allocation_with_empty_free_list (m m1 : Machine) (s : StandardOperation) (n : Nat)
    (hr : Reachable m) (hf : peek m = .ok (.standard s, m1)) (hop : s.number = 8)
    (hn : get_register s.c m false = .ok n) (hfree : free_list m = [])
    (hs : m.memory.size < 4294967295) :
    ∃ m', run_cycle m = .ok m' ∧ get_register s.b m' false = .ok m.memory.size ∧
      is_active m m.memory.size = false ∧ is_active m' m.memory.size = true ∧
      m'.memory.size = m.memory.size + 1 ∧
      m'.memory.arrays.length = m.memory.arrays.length + 1 ∧
      m'.memory.pool.length = m.memory.pool.length + 1 ∧
      free_list m' = [] ∧ scan_unallocated m.memory = 0 := by
  obtain ⟨hI, hI1, h0, hm1, _, _, hb, hc, hrun⟩ := fetch_standard hr hf
  obtain ⟨number, a, b, c⟩ := s
  simp only at hop hb hc hn
  subst hop
  have hp : m.memory.pool_pointer = 0 := (free_list_eq_nil hI).mp hfree
  have hmem : m1.memory = m.memory := by rw [hm1]
  have hp1 : m1.memory.pool_pointer = 0 := by rw [hmem]; exact hp
  have hn1 : get_register c m1 false = .ok n := by
    rw [hm1, get_register_set_pc m c _ hc]; exact hn
  have hd : dispatch (.standard ⟨8, a, b, c⟩) m1 = allocation ⟨8, a, b, c⟩ m1 := rfl
  have hs1 : m1.memory.size < 4294967295 := by rw [hmem]; exact hs
  rw [hd, allocation_fresh (s := ⟨8, a, b, c⟩) hI1 hb hn1 hp1 hs1] at hrun
  have hI' := run_cycle_inv hI hrun
  have hlen : m.memory.arrays.length = m.memory.size := hI.arrays_len
  refine ⟨_, hrun, ?_, ?_, ?_, ?_, ?_, ?_, ?_, scan_unallocated_eq_zero hI hp⟩
  · rw [hmem]
    exact get_register_set_self (m := m1) hb hI1.regs rfl
  · exact is_active_eq_false.mpr (Or.inl (Nat.le_refl _))
  · rw [is_active_eq_true]
    simp only [content_at, hmem]
    rw [List.getElem?_append_right (by rw [hlen]), hlen]
    simp
  · simp only [hmem]
  · simp only [hmem, List.length_append, List.length_singleton]
  · simp only [hmem, List.length_append, List.length_singleton]
  · rw [free_list_eq_nil hI']
    simp only [hmem, hp]

/-- Witness of C20 on the run of `amend_file`: the allocation fetched after
one iteration, when the pool has one slot and the free-list is empty. -/
theorem allocation_with_empty_free_list_witness :
    Reachable amend_before_allocation ∧ free_list amend_before_allocation = [] ∧
    amend_before_allocation.memory.size < 4294967295 ∧
    ∃ m', run_cycle amend_before_allocation = .ok m' ∧
      get_register 1 m' false = .ok amend_before_allocation.memory.size ∧
      is_active amend_before_allocation amend_before_allocation.memory.size = false ∧
      is_active m' amend_before_allocation.memory.size = true ∧
      m'.memory.size = amend_before_allocation.memory.size + 1 ∧
      m'.memory.arrays.length = amend_before_allocation.memory.arrays.length + 1 ∧
      m'.memory.pool.length = amend_before_allocation.memory.pool.length + 1 ∧
      free_list m' = [] ∧ scan_unallocated amend_before_allocation.memory = 0 :=
  ⟨amend_before_allocation_reachable, by decide, by decide,
    allocation_with_empty_free_list amend_before_allocation
      { amend_before_allocation with registers := [4, 0, 0, 0, 0, 0, 0, 0, 2] }
      ⟨8, 0, 1, 0⟩ 4 amend_before_allocation_reachable (by decide) rfl (by decide)
      (by decide) (by decide)⟩

/-! ## Register accesses of the handlers -/

theorem no_register_fault_bind {α β : Type} {r : Result α} {k : α → Result β}
    (hr : no_register_fault r) (hk : ∀ x, no_register_fault (k x)) :
    no_register_fault (r.bind k) := by
  intro mf h
  cases r with
  | ok v => exact hk v mf h
  | halted m => cases h
  | fatal code m =>
    simp only [Result.bind] at h
    injection h with h1 h2
    exact hr mf (by rw [h1, h2])
  | undefined => cases h

theorem no_register_fault_ok {α : Type} (v : α) : no_register_fault (Result.ok v) := by
  intro mf h; cases h

theorem no_register_fault_undefined {α : Type} :
    no_register_fault (Result.undefined : Result α) := by
  intro mf h; cases h

theorem no_register_fault_fatal {α : Type} (code : ErrorCode) (m : Machine)
    (h : code ≠ .ERR_INVALID_REGISTER_ACCESS) : no_register_fault (fatal code m : Result α) := by
  intro mf he
  simp only [fatal] at he
  injection he with h1 _
  exact h h1

theorem get_register_no_fault {i : Nat} (m : Machine) {e : Bool}
    (hi : i < GET_REGISTERS_COUNT e) : no_register_fault (get_register i m e) := by
  simp only [get_register, if_neg (Nat.not_le.mpr hi)]
  split
  · exact no_register_fault_ok _
  · exact no_register_fault_undefined

theorem set_register_no_fault {i : Nat} (v : Nat) (m : Machine) {e : Bool}
    (hi : i < GET_REGISTERS_COUNT e) : no_register_fault (set_register i v m e) := by
  simp only [set_register, if_neg (Nat.not_le.mpr hi)]
  split
  · exact no_register_fault_ok _
  · exact no_register_fault_undefined

theorem lt_registers_count {i : Nat} (h : i < 8) : i < GET_REGISTERS_COUNT false := h

theorem pc_lt_registers_count : PC_REGISTER < GET_REGISTERS_COUNT true := by decide

theorem get_array_no_fault (index : Nat) (m : Machine) :
    no_register_fault (get_array index m) := by
  simp only [get_array]
  repeat' split
  all_goals first
    | exact no_register_fault_ok _
    | exact no_register_fault_undefined
    | exact no_register_fault_fatal .ERR_OUT_OF_MEMORY m (by decide)

theorem read_array_no_fault (index location : Nat) (m : Machine) :
    no_register_fault (read_array index location m) := by
  refine no_register_fault_bind (get_array_no_fault index m) fun array => ?_
  split
  · exact no_register_fault_fatal _ m (by decide)
  · split
    · split
      · exact no_register_fault_ok _
      · exact no_register_fault_undefined
    · exact no_register_fault_undefined

theorem allocate_memory_no_fault (index size : Nat) (m : Machine) :
    no_register_fault (allocate_memory index size m) := by
  simp only [allocate_memory]
  repeat' split
  all_goals first
    | exact no_register_fault_ok _
    | exact no_register_fault_undefined
    | exact no_register_fault_fatal .ERR_OUT_OF_MEMORY _ (by decide)

theorem allocate_array_no_fault (size : Nat) (m : Machine) :
    no_register_fault (allocate_array size m) := by
  simp only [allocate_array]
  refine no_register_fault_bind ?_ fun x => ?_
  · split
    · split
      · exact no_register_fault_ok _
      · exact no_register_fault_undefined
    · exact no_register_fault_ok _
  · exact no_register_fault_bind (allocate_memory_no_fault _ _ _) fun _ =>
      no_register_fault_ok _

theorem conditional_move_no_fault {s : StandardOperation} (m : Machine)
    (ha : s.a < 8) (hb : s.b < 8) (hc : s.c < 8) : no_register_fault (conditional_move s m) := by
  refine no_register_fault_bind (get_register_no_fault m (lt_registers_count hc)) fun c => ?_
  split
  · exact no_register_fault_bind (get_register_no_fault m (lt_registers_count hb)) fun b =>
      set_register_no_fault _ m (lt_registers_count ha)
  · exact no_register_fault_ok _

theorem array_index_no_fault {s : StandardOperation} (m : Machine)
    (ha : s.a < 8) (hb : s.b < 8) (hc : s.c < 8) : no_register_fault (array_index s m) :=
  no_register_fault_bind (get_register_no_fault m (lt_registers_count hb)) fun _ =>
  no_register_fault_bind (get_register_no_fault m (lt_registers_count hc)) fun _ =>
  no_register_fault_bind (read_array_no_fault _ _ m) fun _ =>
    set_register_no_fault _ m (lt_registers_count ha)

theorem array_amendment_no_fault {s : StandardOperation} (m : Machine)
    (ha : s.a < 8) (hb : s.b < 8) (hc : s.c < 8) : no_register_fault (array_amendment s m) := by
  refine no_register_fault_bind (get_register_no_fault m (lt_registers_count ha)) fun index => ?_
  refine no_register_fault_bind (get_array_no_fault _ m) fun array => ?_
  refine no_register_fault_bind (get_register_no_fault m (lt_registers_count hb)) fun location => ?_
  split
  · exact no_register_fault_fatal _ m (by decide)
  · refine no_register_fault_bind (get_register_no_fault m (lt_registers_count hc)) fun value => ?_
    split
    · split
      · exact no_register_fault_ok _
      · exact no_register_fault_undefined
    · exact no_register_fault_undefined

theorem addition_no_fault {s : StandardOperation} (m : Machine)
    (ha : s.a < 8) (hb : s.b < 8) (hc : s.c < 8) : no_register_fault (addition s m) :=
  no_register_fault_bind (get_register_no_fault m (lt_registers_count hc)) fun _ =>
  no_register_fault_bind (get_register_no_fault m (lt_registers_count hb)) fun _ =>
    set_register_no_fault _ m (lt_registers_count ha)

theorem multiplication_no_fault {s : StandardOperation} (m : Machine)
    (ha : s.a < 8) (hb : s.b < 8) (hc : s.c < 8) : no_register_fault (multiplication s m) :=
  no_register_fault_bind (get_register_no_fault m (lt_registers_count hb)) fun _ =>
  no_register_fault_bind (get_register_no_fault m (lt_registers_count hc)) fun _ =>
    set_register_no_fault _ m (lt_registers_count ha)

theorem division_no_fault {s : StandardOperation} (m : Machine)
    (ha : s.a < 8) (hb : s.b < 8) (hc : s.c < 8) : no_register_fault (division s m) := by
  refine no_register_fault_bind (get_register_no_fault m (lt_registers_count hc)) fun _ => ?_
  refine no_register_fault_bind (get_register_no_fault m (lt_registers_count hb)) fun _ => ?_
  split
  · exact no_register_fault_fatal _ m (by decide)
  · exact set_register_no_fault _ m (lt_registers_count ha)

theorem not_and_no_fault {s : StandardOperation} (m : Machine)
    (ha : s.a < 8) (hb : s.b < 8) (hc : s.c < 8) : no_register_fault (not_and s m) :=
  no_register_fault_bind (get_register_no_fault m (lt_registers_count hb)) fun _ =>
  no_register_fault_bind (get_register_no_fault m (lt_registers_count hc)) fun _ =>
    set_register_no_fault _ m (lt_registers_count ha)

theorem halt_no_fault (s : StandardOperation) (m : Machine) : no_register_fault (halt s m) := by
  intro mf h; cases h

theorem allocation_no_fault {s : StandardOperation} (m : Machine)
    (hb : s.b < 8) (hc : s.c < 8) : no_register_fault (allocation s m) :=
  no_register_fault_bind (get_register_no_fault m (lt_registers_count hc)) fun _ =>
  no_register_fault_bind (allocate_array_no_fault _ m) fun x =>
    set_register_no_fault _ x.2 (lt_registers_count hb)

theorem abandoment_no_fault {s : StandardOperation} (m : Machine)
    (hc : s.c < 8) : no_register_fault (abandoment s m) := by
  refine no_register_fault_bind (get_register_no_fault m (lt_registers_count hc)) fun index => ?_
  refine no_register_fault_bind (get_array_no_fault _ m) fun a => ?_
  split
  · exact no_register_fault_fatal _ m (by decide)
  · split
    · exact no_register_fault_ok _
    · exact no_register_fault_undefined

theorem output_no_fault {s : StandardOperation} (m : Machine)
    (hc : s.c < 8) : no_register_fault (output s m) :=
  no_register_fault_bind (get_register_no_fault m (lt_registers_count hc)) fun _ =>
    no_register_fault_ok _

theorem input_no_fault {s : StandardOperation} (m : Machine)
    (hc : s.c < 8) : no_register_fault (input s m) :=
  set_register_no_fault _ _ (lt_registers_count hc)

theorem load_program_no_fault {s : StandardOperation} (m : Machine)
    (hb : s.b < 8) (hc : s.c < 8) : no_register_fault (load_program s m) := by
  refine no_register_fault_bind (get_register_no_fault m (lt_registers_count hb)) fun index => ?_
  refine no_register_fault_bind ?_ fun m2 =>
    no_register_fault_bind (get_register_no_fault m2 (lt_registers_count hc)) fun _ =>
      set_register_no_fault _ m2 pc_lt_registers_count
  split
  · refine no_register_fault_bind (get_array_no_fault _ m) fun src => ?_
    split
    · exact no_register_fault_fatal _ m (by decide)
    · refine no_register_fault_bind (allocate_memory_no_fault _ _ m) fun m1 => ?_
      refine no_register_fault_bind (get_array_no_fault _ m1) fun program => ?_
      split
      · exact no_register_fault_ok _
      · exact no_register_fault_undefined
  · exact no_register_fault_ok _

theorem ortography_no_fault {p : PutOperation} (m : Machine)
    (ha : p.a < 8) : no_register_fault (ortography p m) :=
  set_register_no_fault _ m (lt_registers_count ha)

/-- No decoded operation makes its handler exit on a register index. -/
theorem dispatch_no_fault (w : Nat) (m : Machine) :
    no_register_fault (dispatch (int_to_operation w) m) := by
  cases h : int_to_operation w with
  | standard s =>
    obtain ⟨hn, ha, hb, hc⟩ := int_to_operation_standard h
    obtain ⟨number, a, b, c⟩ := s
    simp only at hn ha hb hc
    interval_cases number
    · exact conditional_move_no_fault (s := ⟨0, a, b, c⟩) m ha hb hc
    · exact array_index_no_fault (s := ⟨1, a, b, c⟩) m ha hb hc
    · exact array_amendment_no_fault (s := ⟨2, a, b, c⟩) m ha hb hc
    · exact addition_no_fault (s := ⟨3, a, b, c⟩) m ha hb hc
    · exact multiplication_no_fault (s := ⟨4, a, b, c⟩) m ha hb hc
    · exact division_no_fault (s := ⟨5, a, b, c⟩) m ha hb hc
    · exact not_and_no_fault (s := ⟨6, a, b, c⟩) m ha hb hc
    · exact halt_no_fault ⟨7, a, b, c⟩ m
    · exact allocation_no_fault (s := ⟨8, a, b, c⟩) m hb hc
    · exact abandoment_no_fault (s := ⟨9, a, b, c⟩) m hc
    · exact output_no_fault (s := ⟨10, a, b, c⟩) m hc
    · exact input_no_fault (s := ⟨11, a, b, c⟩) m hc
    · exact load_program_no_fault (s := ⟨12, a, b, c⟩) m hb hc
  | put p =>
    obtain ⟨hn, hn2, ha, _⟩ := int_to_operation_put h
    obtain ⟨number, a, value⟩ := p
    simp only at hn hn2 ha
    interval_cases number
    · exact ortography_no_fault (p := ⟨13, a, value⟩) m ha
    · exact no_register_fault_undefined
    · exact no_register_fault_undefined

theorem peek_no_fault (m : Machine) : no_register_fault (peek m) := by
  refine no_register_fault_bind (get_register_no_fault m pc_lt_registers_count) fun pc => ?_
  refine no_register_fault_bind (get_array_no_fault _ m) fun program => ?_
  split
  · exact no_register_fault_fatal _ m (by decide)
  · split
    · split
      · exact no_register_fault_bind (set_register_no_fault _ m pc_lt_registers_count) fun _ =>
          no_register_fault_ok _
      · exact no_register_fault_undefined
    · exact no_register_fault_undefined

/-- No iteration of the main loop exits on a register index. -/
theorem run_cycle_no_fault (m : Machine) : no_register_fault (run_cycle m) := by
  intro mf h
  cases hp : peek m with
  | ok x =>
    obtain ⟨op, m1⟩ := x
    rw [run_cycle_of_peek hp] at h
    obtain ⟨pc, word, _, hop, _⟩ := peek_ok_any hp
    rw [hop] at h
    exact dispatch_no_fault word m1 mf h
  | halted m1 => simp only [run_cycle, hp] at h; cases h
  | fatal code m1 =>
    simp only [run_cycle, hp, Result.bind] at h
    injection h with h1 h2
    exact peek_no_fault m mf (by rw [hp, h1, h2])
  | undefined => simp only [run_cycle, hp] at h; cases h

/-! ## The program counter and the handlers -/

theorem keeps_pc_bind {α : Type} {m : Machine} {r : Result α} {k : α → Result Machine}
    (hk : ∀ x, r = .ok x → keeps_pc m (k x)) : keeps_pc m (r.bind k) := by
  intro m' h
  obtain ⟨x, hx, hkx⟩ := bind_eq_ok.mp h
  exact hk x hx m' hkx

theorem keeps_pc_ok (m : Machine) {m1 : Machine} (h : m1.registers[8]? = m.registers[8]?) :
    keeps_pc m (.ok m1) := by
  intro m' h'
  injection h' with h'
  rw [← h']; exact h

theorem keeps_pc_undefined (m : Machine) : keeps_pc m .undefined := by
  intro m' h; cases h

theorem keeps_pc_fatal (m : Machine) (code : ErrorCode) (mf : Machine) :
    keeps_pc m (fatal code mf) := by
  intro m' h; exact absurd h (fatal_ne_ok _ _ _)

theorem keeps_pc_set_register (m : Machine) {m1 : Machine} {i : Nat} (v : Nat) (hi : i < 8)
    (h : m1.registers[8]? = m.registers[8]?) : keeps_pc m (set_register i v m1 false) := by
  intro m' h'
  rw [set_register_ok h', ← h]
  exact List.getElem?_set_ne (by omega)

theorem allocate_memory_registers {index size : Nat} {m m' : Machine}
    (h : allocate_memory index size m = .ok m') : m'.registers = m.registers := by
  simp only [allocate_memory] at h
  split at h
  · split at h
    · exact absurd h (fatal_ne_ok _ _ _)
    · injection h with h
      rw [← h]
  · cases h

theorem allocate_array_registers {size : Nat} {m : Machine} {x : Nat × Machine}
    (h : allocate_array size m = .ok x) : x.2.registers = m.registers := by
  simp only [allocate_array, bind_eq_ok] at h
  obtain ⟨⟨index0, m1⟩, hpop, m2, hm2, hx⟩ := h
  injection hx with hx
  rw [← hx]
  simp only
  rw [allocate_memory_registers hm2]
  split at hpop
  · split at hpop
    · injection hpop with hpop
      injection hpop with _ hpop
      rw [← hpop]
    · cases hpop
  · injection hpop with hpop
    injection hpop with _ hpop
    rw [← hpop]

theorem conditional_move_keeps_pc {s : StandardOperation} (m : Machine) (ha : s.a < 8) :
    keeps_pc m (conditional_move s m) := by
  refine keeps_pc_bind fun c _ => ?_
  split
  · exact keeps_pc_bind fun b _ => keeps_pc_set_register m _ ha rfl
  · exact keeps_pc_ok m rfl

theorem array_index_keeps_pc {s : StandardOperation} (m : Machine) (ha : s.a < 8) :
    keeps_pc m (array_index s m) :=
  keeps_pc_bind fun _ _ => keeps_pc_bind fun _ _ => keeps_pc_bind fun _ _ =>
    keeps_pc_set_register m _ ha rfl

theorem array_amendment_keeps_pc (s : StandardOperation) (m : Machine) :
    keeps_pc m (array_amendment s m) := by
  refine keeps_pc_bind fun index _ => keeps_pc_bind fun array _ => keeps_pc_bind fun location _ => ?_
  split
  · exact keeps_pc_fatal _ _ _
  · refine keeps_pc_bind fun value _ => ?_
    split
    · split
      · exact keeps_pc_ok m rfl
      · exact keeps_pc_undefined m
    · exact keeps_pc_undefined m

theorem addition_keeps_pc {s : StandardOperation} (m : Machine) (ha : s.a < 8) :
    keeps_pc m (addition s m) :=
  keeps_pc_bind fun _ _ => keeps_pc_bind fun _ _ => keeps_pc_set_register m _ ha rfl

theorem multiplication_keeps_pc {s : StandardOperation} (m : Machine) (ha : s.a < 8) :
    keeps_pc m (multiplication s m) :=
  keeps_pc_bind fun _ _ => keeps_pc_bind fun _ _ => keeps_pc_set_register m _ ha rfl

theorem division_keeps_pc {s : StandardOperation} (m : Machine) (ha : s.a < 8) :
    keeps_pc m (division s m) := by
  refine keeps_pc_bind fun _ _ => keeps_pc_bind fun _ _ => ?_
  split
  · exact keeps_pc_fatal _ _ _
  · exact keeps_pc_set_register m _ ha rfl

theorem not_and_keeps_pc {s : StandardOperation} (m : Machine) (ha : s.a < 8) :
    keeps_pc m (not_and s m) :=
  keeps_pc_bind fun _ _ => keeps_pc_bind fun _ _ => keeps_pc_set_register m _ ha rfl

theorem halt_keeps_pc (s : StandardOperation) (m : Machine) : keeps_pc m (halt s m) := by
  intro m' h; cases h

theorem allocation_keeps_pc {s : StandardOperation} (m : Machine) (hb : s.b < 8) :
    keeps_pc m (allocation s m) :=
  keeps_pc_bind fun _ _ => keeps_pc_bind fun _ hx =>
    keeps_pc_set_register m _ hb (by rw [allocate_array_registers hx])

theorem abandoment_keeps_pc (s : StandardOperation) (m : Machine) :
    keeps_pc m (abandoment s m) := by
  refine keeps_pc_bind fun index _ => keeps_pc_bind fun a _ => ?_
  split
  · exact keeps_pc_fatal _ _ _
  · split
    · exact keeps_pc_ok m rfl
    · exact keeps_pc_undefined m

theorem output_keeps_pc (s : StandardOperation) (m : Machine) : keeps_pc m (output s m) :=
  keeps_pc_bind fun _ _ => keeps_pc_ok m rfl

theorem input_keeps_pc {s : StandardOperation} (m : Machine) (hc : s.c < 8) :
    keeps_pc m (input s m) :=
  keeps_pc_set_register m _ hc rfl

theorem ortography_keeps_pc {p : PutOperation} (m : Machine) (ha : p.a < 8) :
    keeps_pc m (ortography p m) :=
  keeps_pc_set_register m _ ha rfl

/-- Every decoded operation but load-program returns with the program
counter it was called with. -/
theorem dispatch_keeps_pc (w : Nat) (m : Machine) (h12 : (int_to_operation w).number ≠ 12) :
    keeps_pc m (dispatch (int_to_operation w) m) := by
  cases h : int_to_operation w with
  | standard s =>
    rw [h] at h12
    obtain ⟨hn, ha, hb, hc⟩ := int_to_operation_standard h
    obtain ⟨number, a, b, c⟩ := s
    simp only [Operation.number] at hn ha hb hc h12
    interval_cases number
    · exact conditional_move_keeps_pc (s := ⟨0, a, b, c⟩) m ha
    · exact array_index_keeps_pc (s := ⟨1, a, b, c⟩) m ha
    · exact array_amendment_keeps_pc ⟨2, a, b, c⟩ m
    · exact addition_keeps_pc (s := ⟨3, a, b, c⟩) m ha
    · exact multiplication_keeps_pc (s := ⟨4, a, b, c⟩) m ha
    · exact division_keeps_pc (s := ⟨5, a, b, c⟩) m ha
    · exact not_and_keeps_pc (s := ⟨6, a, b, c⟩) m ha
    · exact halt_keeps_pc ⟨7, a, b, c⟩ m
    · exact allocation_keeps_pc (s := ⟨8, a, b, c⟩) m hb
    · exact abandoment_keeps_pc ⟨9, a, b, c⟩ m
    · exact output_keeps_pc ⟨10, a, b, c⟩ m
    · exact input_keeps_pc (s := ⟨11, a, b, c⟩) m hc
    · exact absurd rfl h12
  | put p =>
    obtain ⟨hn, hn2, ha, _⟩ := int_to_operation_put h
    obtain ⟨number, a, value⟩ := p
    simp only at hn hn2 ha
    interval_cases number
    · exact ortography_keeps_pc (p := ⟨13, a, value⟩) m ha
    · exact keeps_pc_undefined m
    · exact keeps_pc_undefined m

/-! ## The handlers do not read the program counter -/

theorem map_state_bind {α β : Type} {g : Machine → Machine} {f : α → α} {f' : β → β}
    {r r' : Result α} {k k' : α → Result β}
    (hr : r' = r.map_state g f) (hk : ∀ x, k' (f x) = (k x).map_state g f') :
    r'.bind k' = (r.bind k).map_state g f' := by
  subst hr
  cases r with
  | ok v => exact hk v
  | halted m => rfl
  | fatal code m => rfl
  | undefined => rfl

theorem get_register_with_pc (v : Nat) (m : Machine) {i : Nat} (hi : i < 8) :
    get_register i (with_pc v m) false = (get_register i m false).map_state (with_pc v) id := by
  have hge : ¬ i ≥ GET_REGISTERS_COUNT false := Nat.not_le.mpr hi
  simp only [get_register, if_neg hge, with_pc]
  rw [List.getElem?_set_ne (by omega)]
  split <;> rfl

theorem set_register_with_pc (v x : Nat) (m : Machine) {i : Nat} (hi : i < 8) :
    set_register i x (with_pc v m) false
      = (set_register i x m false).map_state (with_pc v) (with_pc v) := by
  have hge : ¬ i ≥ GET_REGISTERS_COUNT false := Nat.not_le.mpr hi
  simp only [set_register, if_neg hge, with_pc, List.length_set]
  split
  · simp only [Result.map_state, with_pc]
    rw [List.set_comm v x m.registers (by omega : (8 : Nat) ≠ i)]
  · rfl

theorem get_array_with_pc (v index : Nat) (m : Machine) :
    get_array index (with_pc v m) = (get_array index m).map_state (with_pc v) id := by
  simp only [get_array, with_pc]
  repeat' split
  all_goals rfl

theorem read_array_with_pc (v index location : Nat) (m : Machine) :
    read_array index location (with_pc v m)
      = (read_array index location m).map_state (with_pc v) id := by
  refine map_state_bind (get_array_with_pc v index m) fun array => ?_
  simp only [id]
  split
  · rfl
  · split
    · split <;> rfl
    · rfl

theorem allocate_memory_with_pc (v index size : Nat) (m : Machine) :
    allocate_memory index size (with_pc v m)
      = (allocate_memory index size m).map_state (with_pc v) (with_pc v) := by
  simp only [allocate_memory, with_pc]
  repeat' split
  all_goals rfl

theorem allocate_array_with_pc (v size : Nat) (m : Machine) :
    allocate_array size (with_pc v m)
      = (allocate_array size m).map_state (with_pc v) (Prod.map id (with_pc v)) := by
  simp only [allocate_array]
  refine map_state_bind (f := Prod.map id (with_pc v)) ?_ fun x => ?_
  · simp only [with_pc]
    split
    · split <;> rfl
    · rfl
  · obtain ⟨index0, m1⟩ := x
    simp only [Prod.map, id]
    refine map_state_bind (allocate_memory_with_pc v _ size m1) fun m2 => ?_
    rfl

theorem conditional_move_with_pc (v : Nat) {s : StandardOperation} (m : Machine)
    (ha : s.a < 8) (hb : s.b < 8) (hc : s.c < 8) :
    conditional_move s (with_pc v m)
      = (conditional_move s m).map_state (with_pc v) (with_pc v) := by
  refine map_state_bind (get_register_with_pc v m hc) fun c => ?_
  simp only [id]
  split
  · exact map_state_bind (get_register_with_pc v m hb) fun b => set_register_with_pc v b m ha
  · rfl

theorem array_index_with_pc (v : Nat) {s : StandardOperation} (m : Machine)
    (ha : s.a < 8) (hb : s.b < 8) (hc : s.c < 8) :
    array_index s (with_pc v m) = (array_index s m).map_state (with_pc v) (with_pc v) :=
  map_state_bind (get_register_with_pc v m hb) fun index =>
  map_state_bind (get_register_with_pc v m hc) fun location =>
  map_state_bind (read_array_with_pc v index location m) fun value =>
    set_register_with_pc v value m ha

theorem array_amendment_with_pc (v : Nat) {s : StandardOperation} (m : Machine)
    (ha : s.a < 8) (hb : s.b < 8) (hc : s.c < 8) :
    array_amendment s (with_pc v m)
      = (array_amendment s m).map_state (with_pc v) (with_pc v) := by
  refine map_state_bind (get_register_with_pc v m ha) fun index => ?_
  refine map_state_bind (get_array_with_pc v _ m) fun array => ?_
  refine map_state_bind (get_register_with_pc v m hb) fun location => ?_
  simp only [id]
  split
  · rfl
  · refine map_state_bind (get_register_with_pc v m hc) fun value => ?_
    simp only [id]
    split
    · split <;> rfl
    · rfl

theorem addition_with_pc (v : Nat) {s : StandardOperation} (m : Machine)
    (ha : s.a < 8) (hb : s.b < 8) (hc : s.c < 8) :
    addition s (with_pc v m) = (addition s m).map_state (with_pc v) (with_pc v) :=
  map_state_bind (get_register_with_pc v m hc) fun _ =>
  map_state_bind (get_register_with_pc v m hb) fun _ =>
    set_register_with_pc v _ m ha

theorem multiplication_with_pc (v : Nat) {s : StandardOperation} (m : Machine)
    (ha : s.a < 8) (hb : s.b < 8) (hc : s.c < 8) :
    multiplication s (with_pc v m)
      = (multiplication s m).map_state (with_pc v) (with_pc v) :=
  map_state_bind (get_register_with_pc v m hb) fun _ =>
  map_state_bind (get_register_with_pc v m hc) fun _ =>
    set_register_with_pc v _ m ha

theorem division_with_pc (v : Nat) {s : StandardOperation} (m : Machine)
    (ha : s.a < 8) (hb : s.b < 8) (hc : s.c < 8) :
    division s (with_pc v m) = (division s m).map_state (with_pc v) (with_pc v) := by
  refine map_state_bind (get_register_with_pc v m hc) fun divisor => ?_
  refine map_state_bind (get_register_with_pc v m hb) fun dividend => ?_
  simp only [id]
  split
  · rfl
  · exact set_register_with_pc v _ m ha

theorem not_and_with_pc (v : Nat) {s : StandardOperation} (m : Machine)
    (ha : s.a < 8) (hb : s.b < 8) (hc : s.c < 8) :
    not_and s (with_pc v m) = (not_and s m).map_state (with_pc v) (with_pc v) :=
  map_state_bind (get_register_with_pc v m hb) fun _ =>
  map_state_bind (get_register_with_pc v m hc) fun _ =>
    set_register_with_pc v _ m ha

theorem allocation_with_pc (v : Nat) {s : StandardOperation} (m : Machine)
    (hb : s.b < 8) (hc : s.c < 8) :
    allocation s (with_pc v m) = (allocation s m).map_state (with_pc v) (with_pc v) :=
  map_state_bind (get_register_with_pc v m hc) fun size =>
  map_state_bind (allocate_array_with_pc v size m) fun x =>
    set_register_with_pc v x.1 x.2 hb

theorem abandoment_with_pc (v : Nat) {s : StandardOperation} (m : Machine) (hc : s.c < 8) :
    abandoment s (with_pc v m) = (abandoment s m).map_state (with_pc v) (with_pc v) := by
  refine map_state_bind (get_register_with_pc v m hc) fun index => ?_
  refine map_state_bind (get_array_with_pc v _ m) fun a => ?_
  simp only [id]
  split
  · rfl
  · simp only [with_pc]
    split <;> rfl

theorem output_with_pc (v : Nat) {s : StandardOperation} (m : Machine) (hc : s.c < 8) :
    output s (with_pc v m) = (output s m).map_state (with_pc v) (with_pc v) :=
  map_state_bind (get_register_with_pc v m hc) fun _ => rfl

theorem input_with_pc (v : Nat) {s : StandardOperation} (m : Machine) (hc : s.c < 8) :
    input s (with_pc v m) = (input s m).map_state (with_pc v) (with_pc v) :=
  set_register_with_pc v _ { m with stdin := (getc m.stdin).2 } hc

theorem ortography_with_pc (v : Nat) {p : PutOperation} (m : Machine) (ha : p.a < 8) :
    ortography p (with_pc v m) = (ortography p m).map_state (with_pc v) (with_pc v) :=
  set_register_with_pc v _ m ha

/-- The load-program handler returns the same machine whatever the program
counter it was called with. -/
theorem load_program_with_pc (v : Nat) {s : StandardOperation} (m : Machine)
    (hb : s.b < 8) (hc : s.c < 8) :
    load_program s (with_pc v m) = (load_program s m).map_state (with_pc v) id := by
  refine map_state_bind (get_register_with_pc v m hb) fun index => ?_
  simp only [id]
  refine map_state_bind (f := with_pc v) ?_ fun m2 => ?_
  · split
    · refine map_state_bind (get_array_with_pc v _ m) fun src => ?_
      simp only [id]
      split
      · rfl
      · refine map_state_bind (allocate_memory_with_pc v _ _ m) fun m1 => ?_
        refine map_state_bind (get_array_with_pc v _ m1) fun program => ?_
        simp only [id]
        split <;> rfl
    · rfl
  · refine map_state_bind (get_register_with_pc v m2 hc) fun pc => ?_
    simp only [id, set_register, with_pc, List.length_set, PC_REGISTER, REGISTERS_COUNT]
    split
    · rfl
    · split
      · simp only [Result.map_state, id, List.set_set]
      · rfl

/-- The outcome of a decoded operation does not depend on the program
counter: with another value in it, the operation returns, halts or exits the
same way, that value staying in the program counter, except that what
load-program returns is the same machine. -/
theorem dispatch_with_pc (w v : Nat) (m : Machine) :
    dispatch (int_to_operation w) (with_pc v m)
      = (dispatch (int_to_operation w) m).map_state (with_pc v)
          (if (int_to_operation w).number = 12 then id else with_pc v) := by
  cases h : int_to_operation w with
  | standard s =>
    obtain ⟨hn, ha, hb, hc⟩ := int_to_operation_standard h
    obtain ⟨number, a, b, c⟩ := s
    simp only [Operation.number] at hn ha hb hc ⊢
    interval_cases number
    · exact conditional_move_with_pc v (s := ⟨0, a, b, c⟩) m ha hb hc
    · exact array_index_with_pc v (s := ⟨1, a, b, c⟩) m ha hb hc
    · exact array_amendment_with_pc v (s := ⟨2, a, b, c⟩) m ha hb hc
    · exact addition_with_pc v (s := ⟨3, a, b, c⟩) m ha hb hc
    · exact multiplication_with_pc v (s := ⟨4, a, b, c⟩) m ha hb hc
    · exact division_with_pc v (s := ⟨5, a, b, c⟩) m ha hb hc
    · exact not_and_with_pc v (s := ⟨6, a, b, c⟩) m ha hb hc
    · rfl
    · exact allocation_with_pc v (s := ⟨8, a, b, c⟩) m hb hc
    · exact abandoment_with_pc v (s := ⟨9, a, b, c⟩) m hc
    · exact output_with_pc v (s := ⟨10, a, b, c⟩) m hc
    · exact input_with_pc v (s := ⟨11, a, b, c⟩) m hc
    · exact load_program_with_pc v (s := ⟨12, a, b, c⟩) m hb hc
  | put p =>
    obtain ⟨hn, hn2, ha, _⟩ := int_to_operation_put h
    obtain ⟨number, a, value⟩ := p
    simp only [Operation.number] at hn hn2 ha ⊢
    interval_cases number
    · exact ortography_with_pc v (p := ⟨13, a, value⟩) m ha
    · rfl
    · rfl

/-! ## The free-list and the active slots -/

/-- The free-list and the active slots together fit in the pool. -/
theorem pointer_add_active_count {m : Machine} (hI : Inv m) :
    m.memory.pool_pointer + active_count m ≤ m.memory.size := by
  have hsub : free_list m ⊆ (List.range m.memory.size).filter (fun i => !is_active m i) := by
    intro id hid
    obtain ⟨hlt, hc⟩ := hI.free_inactive id hid
    rw [List.mem_filter]
    refine ⟨List.mem_range.mpr hlt, ?_⟩
    rw [is_active_eq_false.mpr (Or.inr hc)]
    rfl
  have hle := (List.subperm_of_subset hI.free_nodup hsub).length_le
  rw [free_list_length hI, ← List.countP_eq_length_filter] at hle
  have hsum := List.length_eq_countP_add_countP (is_active m) (List.range m.memory.size)
  rw [List.length_range] at hsum
  have hnot : List.countP (fun a => ¬ is_active m a = true) (List.range m.memory.size)
      = List.countP (fun i => !is_active m i) (List.range m.memory.size) := by
    apply List.countP_congr
    intro x _
    simp
  rw [hnot] at hsum
  unfold active_count
  omega

/-! ## The claims, concluded -/

/-- C21 (evaluation at the failing input): with `R1 = 5` after `put 1 5`, in
a reachable state with one pool slot, where identifier 5 was never allocated,
the iterations that fetch array-index (A = 0, B = 1, C = 0), array-amendment
(A = 1, B = 0, C = 0), abandon (C = 1) and load-program (B = 1, C = 0) each
exit with the out-of-memory kind, not with the invalid-memory-access kind;
the abandon of an abandoned identifier does exit with the
invalid-memory-access kind. -/
theorem unallocated_identifier_is_out_of_memory :
    (∀ word ∈ [268435464, 536870976, 2415919105, 3221225480],
      Reachable (stray_state word 1) ∧ is_active (stray_state word 1) 5 = false ∧
      get_register 1 (stray_state word 1) false = .ok 5 ∧
      run_cycle (stray_state word 1)
        = .fatal .ERR_OUT_OF_MEMORY (dump_memory (stray_state word 2))) ∧
    (int_to_operation 268435464 = .standard ⟨1, 0, 1, 0⟩ ∧
      int_to_operation 536870976 = .standard ⟨2, 1, 0, 0⟩ ∧
      int_to_operation 2415919105 = .standard ⟨9, 0, 0, 1⟩ ∧
      int_to_operation 3221225480 = .standard ⟨12, 0, 1, 0⟩) ∧
    (Reachable double_abandon_state ∧ is_active double_abandon_state 1 = false ∧
      run_cycle double_abandon_state
        = .fatal .ERR_MEMORY_ACCESS_INVALID
            (dump_memory { double_abandon_state with
              registers := [1, 1, 0, 0, 0, 0, 0, 0, 4] })) := by
  refine ⟨?_, by decide, ?_, by decide, by decide⟩
  · intro word hw
    simp only [List.mem_cons, List.mem_singleton, List.not_mem_nil, or_false] at hw
    rcases hw with rfl | rfl | rfl | rfl
    · exact ⟨Reachable.cycle _ _ (Reachable.startup [210, 0, 0, 5, 16, 0, 0, 8] []
        (machine_with [3523215365, 268435464] [0, 0, 0, 0, 0, 0, 0, 0, 0] []) (by decide))
        (by decide), by decide, by decide, by decide⟩
    · exact ⟨Reachable.cycle _ _ (Reachable.startup [210, 0, 0, 5, 32, 0, 0, 64] []
        (machine_with [3523215365, 536870976] [0, 0, 0, 0, 0, 0, 0, 0, 0] []) (by decide))
        (by decide), by decide, by decide, by decide⟩
    · exact ⟨Reachable.cycle _ _ (Reachable.startup [210, 0, 0, 5, 144, 0, 0, 1] []
        (machine_with [3523215365, 2415919105] [0, 0, 0, 0, 0, 0, 0, 0, 0] []) (by decide))
        (by decide), by decide, by decide, by decide⟩
    · exact ⟨Reachable.cycle _ _ (Reachable.startup [210, 0, 0, 5, 192, 0, 0, 8] []
        (machine_with [3523215365, 3221225480] [0, 0, 0, 0, 0, 0, 0, 0, 0] []) (by decide))
        (by decide), by decide, by decide, by decide⟩
  · exact reachable_run_cycles (n := 3)
      (Reachable.startup double_abandon_file []
        (machine_with [3489660929, 2147483656, 2415919105, 2415919105]
          [0, 0, 0, 0, 0, 0, 0, 0, 0] []) (by decide)) (by decide)

/-- C22: for every word `w` and every machine state `m`, the operation
decoded from `w` names only register indices below 8 as its operands;
executing it never exits with the invalid-register-access kind, and neither
does a whole iteration (fetch, then dispatch) from `m`; the outcome does not
depend on what the program counter (index 8) holds: with any value `v` in it
the operation returns, halts or exits the same way, `v` staying in the program
counter (load-program returns the very same machine); and when an operation
other than load-program returns, the program counter is the one it was called
with. -/
theorem operands_never_reach_pc (w : Nat) (m : Machine) :
    (∀ i ∈ operand_registers (int_to_operation w), i < 8) ∧
    (∀ mf, dispatch (int_to_operation w) m ≠ .fatal .ERR_INVALID_REGISTER_ACCESS mf) ∧
    (∀ mf, run_cycle m ≠ .fatal .ERR_INVALID_REGISTER_ACCESS mf) ∧
    (∀ v, dispatch (int_to_operation w) (with_pc v m)
      = (dispatch (int_to_operation w) m).map_state (with_pc v)
          (if (int_to_operation w).number = 12 then id else with_pc v)) ∧
    (∀ m', (int_to_operation w).number ≠ 12 → dispatch (int_to_operation w) m = .ok m' →
      m'.registers[8]? = m.registers[8]?) := by
  refine ⟨?_, dispatch_no_fault w m, run_cycle_no_fault m, fun v => dispatch_with_pc w v m,
    fun m' h12 h => dispatch_keeps_pc w m h12 m' h⟩
  intro i hi
  cases h : int_to_operation w with
  | standard s =>
    obtain ⟨_, ha, hb, hc⟩ := int_to_operation_standard h
    rw [h] at hi
    simp only [operand_registers, List.mem_cons, List.mem_singleton, List.not_mem_nil,
      or_false] at hi
    rcases hi with rfl | rfl | rfl <;> assumption
  | put p =>
    obtain ⟨_, _, ha, _⟩ := int_to_operation_put h
    rw [h] at hi
    simp only [operand_registers, List.mem_singleton] at hi
    rw [hi]; exact ha

/-- Witness of C22 at the word of `put 1 5` and at the word `0x10000047`
(array-index with A = 1, B = 0, C = 7), in the state left by the fetch of the
first word of a two-word program. -/
theorem operands_never_reach_pc_witness :
    operand_registers (int_to_operation 3523215365) = [1] ∧
    operand_registers (int_to_operation 268435527) = [1, 0, 7] ∧
    dispatch (int_to_operation 3523215365)
        (machine_with [3523215365, 268435527] [0, 0, 0, 0, 0, 0, 0, 0, 1] [])
      = .ok (machine_with [3523215365, 268435527] [0, 5, 0, 0, 0, 0, 0, 0, 1] []) ∧
    ∀ mf, dispatch (int_to_operation 268435527)
        (machine_with [3523215365, 268435527] [0, 0, 0, 0, 0, 0, 0, 0, 1] [])
      ≠ .fatal .ERR_INVALID_REGISTER_ACCESS mf :=
  ⟨by decide, by decide, by decide,
    (operands_never_reach_pc 268435527
      (machine_with [3523215365, 268435527] [0, 0, 0, 0, 0, 0, 0, 0, 1] [])).2.1⟩

/-- C23: in every reachable state, an iteration that fetches array-amendment
with `R[A] = 0`, `R[B] = o` below the size of array 0 and `R[C] = v` returns,
with `v` stored at offset `o` of array 0; and in every state that has the
memory left by the amendment and its program counter at `o`, the fetch
decodes `v` and advances the program counter to `o + 1`. -/
theorem amended_program_word_is_fetched (m m1 : Machine) (s : StandardOperation) (o v : Nat)
    (hr : Reachable m) (hf : peek m = .ok (.standard s, m1)) (hop : s.number = 2)
    (h1 : get_register s.a m false = .ok 0) (h2 : get_register s.b m false = .ok o)
    (h3 : get_register s.c m false = .ok v) (ho : o < array_size m 0) :
    ∃ m', run_cycle m = .ok m' ∧ platter_at m' 0 o = some v ∧
      ∀ m2, m2.memory = m'.memory → get_register PC_REGISTER m2 true = .ok o →
        peek m2 = .ok (int_to_operation v, { m2 with registers := m2.registers.set 8 (o + 1) }) := by
  obtain ⟨hI, hI1, h0, hm1, _, ha, hb, hc, hrun⟩ := fetch_standard hr hf
  obtain ⟨number, a, b, c⟩ := s
  simp only at hop ha hb hc h1 h2 h3
  subst hop
  have hreg : ∀ i w, i < 8 → get_register i m false = .ok w →
      get_register i m1 false = .ok w := by
    intro i w hi hv
    rw [hm1, get_register_set_pc m i _ hi]; exact hv
  have hact : is_active m 0 = true :=
    is_active_eq_true.mpr ⟨hI.size_pos, h0⟩
  have hact1 : is_active m1 0 = true := by rw [hm1]; exact hact
  have ho1 : o < array_size m1 0 := by rw [hm1]; exact ho
  have hd : dispatch (.standard ⟨2, a, b, c⟩) m1 = array_amendment ⟨2, a, b, c⟩ m1 := rfl
  obtain ⟨platters, hcp, hlen, heq⟩ := array_amendment_ok (s := ⟨2, a, b, c⟩) hI1
    (hreg a 0 ha h1) (hreg b o hb h2) (hreg c v hc h3) hact1 ho1
  obtain ⟨m', hm', heq'⟩ : ∃ m', m' = ({ m1 with memory :=
        { m1.memory with
          arrays := m1.memory.arrays.set 0 ⟨array_size m1 0, some (platters.set o v)⟩ } }
        : Machine) ∧ array_amendment ⟨2, a, b, c⟩ m1 = .ok m' := ⟨_, rfl, heq⟩
  rw [hd, heq'] at hrun
  have harr : m'.memory.arrays
      = m1.memory.arrays.set 0 ⟨array_size m1 0, some (platters.set o v)⟩ := by rw [hm']
  have hsize' : m'.memory.size = m1.memory.size := by rw [hm']
  have h0l : 0 < m1.memory.arrays.length := by rw [hI1.arrays_len]; exact hI1.size_pos
  have hol : o < platters.length := by rw [hlen]; exact ho1
  have harr0 : m'.memory.arrays[0]? = some ⟨array_size m1 0, some (platters.set o v)⟩ := by
    rw [harr, List.getElem?_set_self h0l]
  refine ⟨m', hrun, ?_, ?_⟩
  · simp only [platter_at, content_at, harr0]
    rw [List.getElem?_set_self hol]
  · intro m2 hmem hpc
    have h8 := (get_register_ok_lt hpc).2
    simp only [PC_REGISTER, REGISTERS_COUNT] at h8
    refine peek_at h8 ?_ (by rw [hmem]; exact harr0) ho1 (List.getElem?_set_self hol)
    rw [hmem, hsize']
    exact Nat.pos_iff_ne_zero.mp hI1.size_pos

/-- Witness of C23 on the run of `patch_file`: the amendment stores 7 at
offset 3 of array 0, in place of `halt`, and the next fetch, at offset 3,
decodes the word 7. -/
theorem amended_program_word_is_fetched_witness :
    Reachable patch_state ∧ 3 < array_size patch_state 0 ∧
    platter_at patch_state 0 3 = some 1879048192 ∧
    ∃ m', run_cycle patch_state = .ok m' ∧ platter_at m' 0 3 = some 7 ∧
      peek m' = .ok (int_to_operation 7, { m' with registers := m'.registers.set 8 (3 + 1) }) := by
  have hr : Reachable patch_state :=
    reachable_run_cycles (n := 2)
      (Reachable.startup patch_file [] (machine_with patch_words [0, 0, 0, 0, 0, 0, 0, 0, 0] [])
        (by decide)) (by decide)
  obtain ⟨m', hrun, hpl, hnext⟩ := amended_program_word_is_fetched patch_state
    (machine_with patch_words [0, 3, 7, 0, 0, 0, 0, 0, 3] []) ⟨2, 0, 1, 2⟩ 3 7 hr
    (by decide) rfl (by decide) (by decide) (by decide) (by decide)
  refine ⟨hr, by decide, by decide, m', hrun, hpl, hnext m' rfl ?_⟩
  have e : run_cycle patch_state
      = .ok (machine_with [3523215363, 3556769799, 536870922, 7] [0, 3, 7, 0, 0, 0, 0, 0, 3] []) := by
    decide
  rw [e] at hrun
  injection hrun with hrun
  subst hrun
  decide

/-- C24 (evaluation at the failing input): the source with the three lines
`halt 0 0 0`, `# stop here` and an empty line is assembled into three words,
the word of `halt 0 0 0` once for each line, while the same source without
its comment and blank lines is assembled into that word once; and for a
source that begins with a comment the first word written is the encoding of a
variable that was never stored. -/
theorem comment_line_emits_word :
    assemble commented_source = .written [7, 7, 7] ∧
    without_comments commented_source = plain_source ∧
    assemble plain_source = .written [7] ∧
    assemble leading_comment_source = .indeterminate [] ∧
    without_comments leading_comment_source = plain_source := by
  decide

/-- C25: in every reachable state the free-list has pairwise distinct
entries, each below the number of pool slots and naming a slot that is not
active; every inactive slot with index at least 1 is on the free-list; the
free-list is the first `pool_pointer` entries of a pool with one entry per
slot, and `pool_pointer` is at most the number of slots minus the number of
active arrays. An iteration that fetches abandon with `R[C] = id` either
exits (when `id` is not active) or pushes `id` at an index below the length
of the pool and returns with the free-list extended by `id`. -/
theorem free_list_fits_pool (m : Machine) (hr : Reachable m) :
    (free_list m).Nodup ∧
    (∀ id ∈ free_list m, id < m.memory.size ∧ is_active m id = false) ∧
    (∀ id, 1 ≤ id → id < m.memory.size → is_active m id = false → id ∈ free_list m) ∧
    (free_list m).length = m.memory.pool_pointer ∧
    m.memory.pool.length = m.memory.size ∧
    m.memory.pool_pointer ≤ m.memory.size - active_count m ∧
    ∀ s m1 id, peek m = .ok (.standard s, m1) → s.number = 9 →
      get_register s.c m false = .ok id →
      (is_active m id = false ∧ ∃ code, run_cycle m = fatal code m1) ∨
      (is_active m id = true ∧ m.memory.pool_pointer < m.memory.pool.length ∧
        ∃ m', run_cycle m = .ok m' ∧
          m'.memory.pool = m.memory.pool.set m.memory.pool_pointer id ∧
          m'.memory.pool_pointer = m.memory.pool_pointer + 1 ∧
          m'.memory.pool_pointer ≤ m'.memory.pool.length ∧
          free_list m' = free_list m ++ [id]) := by
  have hI := reachable_inv hr
  refine ⟨hI.free_nodup, ?_, ?_, free_list_length hI, hI.pool_len, ?_, ?_⟩
  · intro id hid
    obtain ⟨hlt, hc⟩ := hI.free_inactive id hid
    exact ⟨hlt, is_active_eq_false.mpr (Or.inr hc)⟩
  · intro id h1 hlt hact
    rcases is_active_eq_false.mp hact with h | h
    · omega
    · exact hI.free_complete id h1 hlt h
  · have := pointer_add_active_count hI
    omega
  · intro s m1 id hf hop hid
    obtain ⟨_, hI1, _, hm1, _, _, _, hc, hrun⟩ := fetch_standard hr hf
    obtain ⟨number, a, b, c⟩ := s
    simp only at hop hc hid
    subst hop
    have hid1 : get_register c m1 false = .ok id := by
      rw [hm1, get_register_set_pc m c _ hc]; exact hid
    have hmem : m1.memory = m.memory := by rw [hm1]
    have hact1 : is_active m1 id = is_active m id := by rw [hm1]; rfl
    have hd : dispatch (.standard ⟨9, a, b, c⟩) m1 = abandoment ⟨9, a, b, c⟩ m1 := rfl
    rw [hd] at hrun
    cases hact : is_active m id with
    | false =>
      left
      obtain ⟨code, hfat⟩ := abandoment_fatal (s := ⟨9, a, b, c⟩) hI1 hid1 (hact1.trans hact)
      exact ⟨rfl, code, hrun.trans hfat⟩
    | true =>
      right
      obtain ⟨hlt, hne⟩ := is_active_eq_true.mp hact
      have hp := pointer_lt_of_active hI hlt hne
      have hpl : m.memory.pool_pointer < m.memory.pool.length := by rw [hI.pool_len]; exact hp
      have hok := abandoment_ok (s := ⟨9, a, b, c⟩) hI1 hid1 (hact1.trans hact)
      refine ⟨rfl, hpl, _, hrun.trans hok, ?_, ?_, ?_, ?_⟩
      · simp only [hmem]
      · simp only [hmem]
      · simp only [hmem, List.length_set]
        omega
      · simp only [free_list, hmem]
        rw [List.take_succ, take_set_self, List.getElem?_set_self hpl]
        rfl

/-- Witness of C25 on the run of `reuse_file`, at the fetch of the abandon of
array 1: two slots, both active, an empty free-list. -/
theorem free_list_fits_pool_witness :
    Reachable reuse_before_abandon ∧ active_count reuse_before_abandon = 2 ∧
    reuse_before_abandon.memory.pool_pointer ≤
      reuse_before_abandon.memory.size - active_count reuse_before_abandon ∧
    ∃ m', run_cycle reuse_before_abandon = .ok m' ∧ free_list m' = [] ++ [1] := by
  obtain ⟨_, _, _, _, _, hle, hpush⟩ :=
    free_list_fits_pool reuse_before_abandon reuse_before_abandon_reachable
  refine ⟨reuse_before_abandon_reachable, by decide, hle, ?_⟩
  rcases hpush ⟨9, 0, 0, 1⟩ { reuse_before_abandon with registers := [1, 1, 0, 0, 0, 0, 0, 0, 3] }
    1 (by decide) rfl (by decide) with h | h
  · exact absurd h.1 (by decide)
  · obtain ⟨_, _, m', hrun, _, _, _, hfl⟩ := h
    exact ⟨m', hrun, hfl⟩

/-! ## A pool of `0xFFFFFFFF` slots -/

theorem fill_state_fetch (k : Nat) :
    peek (fill_state k)
      = .ok (.standard ⟨8, 0, 1, 0⟩,
          { fill_state k with registers := [0, k, 0, 0, 0, 0, 0, 0, 1] }) :=
  @peek_at (fill_state k) 0 2 2147483656 fill_words rfl (Nat.succ_ne_zero k)
    (by simp only [fill_state, List.getElem?_cons_zero]) (by decide) rfl

/-- One turn of the loop of `fill_file`: the allocation adds a slot, the
load-program of array 0 sets the program counter back to 0. -/
theorem fill_state_turn (k : Nat) (hk : k + 1 < 4294967295) (hr : Reachable (fill_state k)) :
    Reachable (fill_state (k + 1)) := by
  have hf := fill_state_fetch k
  obtain ⟨_, hI1, _, _, _, _, _, _, hrun⟩ := fetch_standard hr hf
  have hd : dispatch (.standard ⟨8, 0, 1, 0⟩)
      { fill_state k with registers := [0, k, 0, 0, 0, 0, 0, 0, 1] }
      = allocation ⟨8, 0, 1, 0⟩ { fill_state k with registers := [0, k, 0, 0, 0, 0, 0, 0, 1] } :=
    rfl
  have hal := allocation_fresh (s := ⟨8, 0, 1, 0⟩) (n := 0) hI1 (by decide) rfl rfl hk
  rw [hd, hal] at hrun
  have hmid : Reachable
      { memory :=
          { size := k + 1 + 1
            arrays := ⟨2, some fill_words⟩ :: List.replicate (k + 1) ⟨0, some []⟩
            pool := List.replicate (k + 1 + 1) 0
            pool_pointer := 0 }
        registers := [0, k + 1, 0, 0, 0, 0, 0, 0, 1]
        stdin := []
        stdout := [] } := by
    refine Reachable.cycle _ _ hr ?_
    rw [hrun]
    simp only [fill_state, List.replicate_succ', List.cons_append, List.set_cons_succ,
      List.set_cons_zero, List.replicate_zero, List.nil_append, List.append_assoc]
  obtain ⟨mid, hmid_eq, hmid⟩ : ∃ mid : Machine, mid =
      { memory :=
          { size := k + 1 + 1
            arrays := ⟨2, some fill_words⟩ :: List.replicate (k + 1) ⟨0, some []⟩
            pool := List.replicate (k + 1 + 1) 0
            pool_pointer := 0 }
        registers := [0, k + 1, 0, 0, 0, 0, 0, 0, 1]
        stdin := []
        stdout := [] } ∧ Reachable mid := ⟨_, rfl, hmid⟩
  have hf2 : peek mid = .ok (int_to_operation 3221225491,
      { mid with registers := mid.registers.set 8 (1 + 1) }) :=
    @peek_at mid 1 2 3221225491 fill_words (by rw [hmid_eq]; rfl)
      (by rw [hmid_eq]; exact Nat.succ_ne_zero (k + 1))
      (by rw [hmid_eq]; simp only [List.getElem?_cons_zero]) (by decide) rfl
  have hI2 := reachable_inv hmid
  refine Reachable.cycle _ _ hmid ?_
  rw [run_cycle_of_peek hf2]
  have hd2 : ∀ m, dispatch (int_to_operation 3221225491) m = load_program ⟨12, 0, 2, 3⟩ m :=
    fun _ => rfl
  rw [hd2]
  have hI3 := (peek_facts hI2 hf2).1
  rw [@load_program_zero ⟨12, 0, 2, 3⟩ _ hI3 0 (by rw [hmid_eq]; rfl)
    (by rw [hmid_eq]; rfl), hmid_eq]
  rfl

theorem fill_state_reachable (k : Nat) (hk : k < 4294967295) : Reachable (fill_state k) := by
  induction k with
  | zero => exact Reachable.startup fill_file [] (fill_state 0) (by decide)
  | succ k ih => exact fill_state_turn k hk (ih (by omega))

/-- With `0xFFFFFFFF` slots or more, all allocated, the allocation of the loop
of `fill_file` indexes `memory.arrays` beyond its end. -/
theorem fill_state_full (k : Nat) (hk : 4294967295 ≤ k + 1) (hr : Reachable (fill_state k)) :
    run_cycle (fill_state k) = .undefined := by
  have hf := fill_state_fetch k
  obtain ⟨_, hI1, _, _, _, _, _, _, hrun⟩ := fetch_standard hr hf
  rw [hrun]
  exact allocation_wrap (s := ⟨8, 0, 1, 0⟩) (n := 0) hI1 rfl rfl hk

/-- C3 (counterexample): the state that the loop of `fill_file` reaches
after `0xFFFFFFFE` turns has `0xFFFFFFFF` pool slots, all allocated, and an
empty free-list; the iteration that fetches its allocation, with `R[C] = 0`,
does not return with a fresh array: it indexes `memory.arrays` beyond its end. -/
theorem allocation_at_full_pool_is_undefined :
    Reachable (fill_state 4294967294) ∧
    (fill_state 4294967294).memory.size = 4294967295 ∧
    (fill_state 4294967294).memory.pool_pointer = 0 ∧
    peek (fill_state 4294967294)
      = .ok (.standard ⟨8, 0, 1, 0⟩,
          { fill_state 4294967294 with registers := [0, 4294967294, 0, 0, 0, 0, 0, 0, 1] }) ∧
    get_register 0 (fill_state 4294967294) false = .ok 0 ∧
    run_cycle (fill_state 4294967294) = .undefined ∧
    ¬ ∃ id m', run_cycle (fill_state 4294967294) = .ok m' ∧ is_active m' id = true :=
  have hr := fill_state_reachable 4294967294 (by norm_num)
  have hu := fill_state_full 4294967294 (by norm_num) hr
  ⟨hr, rfl, rfl, fill_state_fetch 4294967294, rfl, hu, fun ⟨_, _, h, _⟩ => by
    rw [hu] at h; cases h⟩

/-- C20 (counterexample): the state that the loop of `fill_file` reaches
after `0xFFFFFFFE` turns is reachable, its free-list is empty and it has
`0xFFFFFFFF` pool slots; the iteration that fetches its allocation does not
return with a pool grown by one slot and the identifier `0xFFFFFFFF`. -/
theorem full_pool_is_not_grown :
    Reachable (fill_state 4294967294) ∧ free_list (fill_state 4294967294) = [] ∧
    (fill_state 4294967294).memory.size = 4294967295 ∧
    ¬ ∃ m', run_cycle (fill_state 4294967294) = .ok m' ∧
      m'.memory.size = (fill_state 4294967294).memory.size + 1 ∧
      get_register 1 m' false = .ok (fill_state 4294967294).memory.size :=
  have hr := fill_state_reachable 4294967294 (by norm_num)
  have hu := fill_state_full 4294967294 (by norm_num) hr
  ⟨hr, rfl, rfl, fun ⟨_, h, _⟩ => by rw [hu] at h; cases h⟩

end UM
